import Mathlib

/-!
# Object model and method dispatch of the Natalie runtime (src/natalie.cpp)

A shallow embedding of the dispatch core of `natalie.cpp`.

* Every `Value *` of the source is an address (`Ptr`) into a `Heap`; the
  kind-specific subclasses of `Value` are flattened into one record whose
  fields are read according to the `type` tag, as the `as_*` casts do.
* A nullable pointer is an `Option`; a native function pointer is a number,
  `0` being `NULL`.
* A function of the source that can raise, abort or recurse without a static
  bound returns a `Result`.
* The recursion of `find_method` along `superclass` links and the `do/while`
  of `class_ancestors` take a fuel argument; theorems show that fuel past the
  length of the superclass chain always yields a result.
* The compiled program behind the function pointers is a parameter (`Native`).
  The functions that call it, print or exit work on a `World`: the heap, the
  calls made and the text written so far.
-/

namespace Natalie

/-! ## Data model -/

/-- An address of a heap value. -/
abbrev Ptr := Nat

/-- The tag `Value::Type`. -/
inductive ValueType where
  | Integer | Nil | True | False | Symbol | String | Array | Hash | Range
  | Regexp | MatchData | Proc | Io | Exception | Class | Module | Object | VoidP
  deriving DecidableEq, Repr

/-- The address of an `Env`: a call frame, the env stored in a method record
(`&method->env`, the record being named by its table and key), the env of a
class or module (`&module->env`), or the env stored in a block record
(`&block->env`, the record being named by its address). -/
inductive EnvRef where
  | frame (addr : Nat)
  | method_env (module : Ptr) (name : String)
  | module_env (module : Ptr)
  | block_env (block : Nat)
  deriving DecidableEq, Repr

/-- The fields of `Env` that `natalie.cpp` reads or writes. `global_env` is
`none` for `NULL`. -/
structure Env where
  global_env : Option Nat := none
  outer : Option EnvRef := none
  caller : Option EnvRef := none
  file : String := ""
  line : Nat := 0
  method_name : String := ""
  block : Option Ptr := none
  rescue : Bool := false
  exception : Option Ptr := none
  last_match : Option Ptr := none
  deriving DecidableEq, Repr

/-- The record `Method`: native function pointer (`0` is `NULL`), captured env
(held by value) and the undefined flag. -/
structure Method where
  fn : Nat
  env : Env := {}
  undefined : Bool := false
  deriving DecidableEq, Repr

/-- The record `Block`, with the address at which it is allocated. -/
structure Block where
  fn : Nat
  env : Env := {}
  self : Ptr
  addr : Nat := 0
  deriving DecidableEq, Repr

/-- A heap value. The common header is `type`, `klass`, `singleton_class` and
`ivars`; the remaining fields are the payloads of the kind-specific subclasses
(`ary` of `ArrayValue`, `class_name`, `superclass`, `included_modules`,
`methods`, `env` and the constants of `ModuleValue`, and so on). -/
structure Value where
  type : ValueType := ValueType.Object
  klass : Ptr := 0
  singleton_class : Option Ptr := none
  ivars : List (String × Ptr) := []
  integer : Int := 0
  str : String := ""
  ary : List Ptr := []
  hash : List (Ptr × Ptr) := []
  message : String := ""
  backtrace : Option Ptr := none
  block : Option Block := none
  lambda : Bool := false
  fileno : Int := 0
  void_ptr : Nat := 0
  class_name : String := ""
  superclass : Option Ptr := none
  included_modules : List Ptr := []
  methods : List (String × Method) := []
  env : Env := {}
  constants : List (String × Ptr) := []
  deriving DecidableEq, Repr

instance : Inhabited Value := ⟨{}⟩

/-- The process-wide handles the source reaches through macros of
`natalie.hpp` (`NAT_NIL`, `NAT_TRUE`, `NAT_FALSE`, `NAT_INTEGER`, `NAT_OBJECT`),
the class given to a `new ArrayValue`, the predicate `is_main_object` and the
bound `NAT_MAX_INT`. The header is not part of the sources, so all of them are
parameters. `globals` is the process-wide map of global variables, `Hash` and
`Symbol` are the classes given to a new `HashValue` and a new `SymbolValue`,
and `symbols` is the table of interned symbols. -/
structure GlobalEnv where
  nil : Ptr := 0
  true_obj : Ptr := 1
  false_obj : Ptr := 2
  Integer : Ptr := 3
  Object : Ptr := 4
  Array : Ptr := 5
  is_main_object : Ptr → Bool := fun _ => false
  NAT_MAX_INT : Int := 4611686018427387903
  globals : List (String × Ptr) := []
  Hash : Ptr := 4
  Symbol : Ptr := 4
  symbols : List (String × Ptr) := []

/-- The memory: a value at every address, the next free address, and the
process-wide handles. -/
structure Heap where
  cell : Ptr → Value
  next : Ptr
  genv : GlobalEnv := {}

/-- Store `v` at address `p`. -/
def Heap.write (h : Heap) (p : Ptr) (v : Value) : Heap :=
  { h with cell := fun q => if q = p then v else h.cell q }

/-- Allocate `v` at the next free address. -/
def Heap.alloc (h : Heap) (v : Value) : Heap × Ptr :=
  ({ h with cell := fun q => if q = h.next then v else h.cell q, next := h.next + 1 }, h.next)

/-- An argument of a `NAT_RAISE` format string. -/
inductive FormatArg where
  | str (s : String)
  | int (n : Int)
  | value (p : Ptr)
  deriving DecidableEq, Repr

/-- How a function of the source ends: it returns, it raises a host-language
exception (`NAT_RAISE` with class name, format string and arguments), the
process aborts (`abort()` or a failed `assert`), the process exits, the
source reads outside an array, or the fuel of the model is used up. -/
inductive Result (α : Type) where
  | ok (a : α)
  | raise (exception_class : String) (format : String) (args : List FormatArg)
  | abort
  | exit (status : Int)
  | fault
  | out_of_fuel
  deriving DecidableEq, Repr

/-- Sequencing: anything but a normal return ends the computation. -/
def Result.bind {α β : Type} (r : Result α) (f : α → Result β) : Result β :=
  match r with
  | Result.ok a => f a
  | Result.raise c m as => Result.raise c m as
  | Result.abort => Result.abort
  | Result.exit s => Result.exit s
  | Result.fault => Result.fault
  | Result.out_of_fuel => Result.out_of_fuel

/-- The indirect call `method->fn(&e, self, argc, args, block)`: the native
function that receives control and what it is passed. -/
structure Call where
  fn : Nat
  env : Env
  self : Ptr
  args : List Ptr
  block : Option Ptr
  deriving DecidableEq, Repr

/-! ## The string-keyed hash map (external collaborator) -/

/-- The entry stored under `name`, `none` for `NULL`. -/
def hashmap_get (methods : List (String × Method)) (name : String) : Option Method :=
  match methods with
  | [] => none
  | (key, method) :: rest => if key = name then some method else hashmap_get rest name

/-- Drop the entry stored under `name`. -/
def hashmap_remove (methods : List (String × Method)) (name : String) : List (String × Method) :=
  methods.filter (fun entry => decide (entry.1 ≠ name))

/-- Store `method` under `name`. -/
def hashmap_put (methods : List (String × Method)) (name : String) (method : Method) :
    List (String × Method) :=
  (name, method) :: methods

/-! ## Method records and the registry -/

/-- Source: `method_from_fn`. -/
def method_from_fn (fn : Nat) : Method :=
  { fn := fn, env := { global_env := none }, undefined := if fn ≠ 0 then false else true }

/-- Source: `method_from_block`. -/
def method_from_block (block : Block) : Method :=
  { fn := block.fn, env := { block.env with caller := none }, undefined := false }

/-- Source: `define_method`. The table written is that of the class of `obj`
when `obj` is the main object, and that of `obj` itself otherwise. -/
def define_method (h : Heap) (obj : Ptr) (name : String) (fn : Nat) : Heap :=
  let method := method_from_fn fn
  let target := if h.genv.is_main_object obj then (h.cell obj).klass else obj
  h.write target
    { h.cell target with methods := hashmap_put (hashmap_remove (h.cell target).methods name) name method }

/-- Source: `define_method_with_block`. -/
def define_method_with_block (h : Heap) (obj : Ptr) (name : String) (block : Block) : Heap :=
  let method := method_from_block block
  let target := if h.genv.is_main_object obj then (h.cell obj).klass else obj
  h.write target
    { h.cell target with methods := hashmap_put (hashmap_remove (h.cell target).methods name) name method }

/-- Source: `undefine_method`. -/
def undefine_method (h : Heap) (obj : Ptr) (name : String) : Heap :=
  define_method h obj name 0

/-! ## Resolver -/

/-- The `for` loop of `find_method` over `included_modules[0 .. count - 1]`: the
first module whose table has an entry for `method_name`. -/
def find_method_in_modules (h : Heap) (method_name : String) :
    List Ptr → Option (Method × Ptr)
  | [] => none
  | module :: rest =>
    match hashmap_get (h.cell module).methods method_name with
    | some method => some (method, module)
    | none => find_method_in_modules h method_name rest

/-- Source: `find_method`. The result pairs the method with
`*matching_class_or_module`; `none` is `NULL`. -/
def find_method : Nat → Heap → Ptr → String → Result (Option (Method × Ptr))
  | 0, _, _, _ => Result.out_of_fuel
  | fuel + 1, h, klass, method_name =>
    if (h.cell klass).type ≠ ValueType.Class then Result.abort
    else
      match (if (h.cell klass).included_modules.length = 0
              then hashmap_get (h.cell klass).methods method_name else none) with
      | some method => Result.ok (some (method, klass))
      | none =>
        match find_method_in_modules h method_name (h.cell klass).included_modules with
        | some found => Result.ok (some found)
        | none =>
          match (h.cell klass).superclass with
          | some superclass => find_method fuel h superclass method_name
          | none => Result.ok none

/-- Source: `find_method_without_undefined`. -/
def find_method_without_undefined (fuel : Nat) (h : Heap) (klass : Ptr) (method_name : String) :
    Result (Option (Method × Ptr)) :=
  match find_method fuel h klass method_name with
  | Result.ok (some (method, matching)) =>
    if method.undefined then Result.ok none else Result.ok (some (method, matching))
  | other => other

/-! ## Dispatcher -/

/-- Modelled from the spec: the macro `NAT_OBJ_HAS_ENV` of `natalie.hpp`. A
method record has a captured env when the `global_env` of its env is set;
`method_from_fn` clears that field to mark its absence. -/
def NAT_OBJ_HAS_ENV (method : Method) : Bool :=
  method.env.global_env.isSome

/-- Modelled from the spec: `Env::new_block_env` of `natalie.hpp`. A new frame
whose outer link is the closure env and whose caller is the current env. -/
def new_block_env (outer_ref : EnvRef) (outer : Env) (calling_env : EnvRef) : Env :=
  { global_env := outer.global_env, outer := some outer_ref, caller := some calling_env }

/-- Source: `call_method_on_class`. `envp` is the address of the calling env
and `env` its content. -/
def call_method_on_class (fuel : Nat) (h : Heap) (envp : EnvRef) (env : Env) (klass : Ptr)
    (instance_class : Ptr) (method_name : String) (self : Ptr) (args : List Ptr)
    (block : Option Ptr) : Result Call :=
  if (h.cell klass).type ≠ ValueType.Class then Result.abort
  else
    match find_method fuel h klass method_name with
    | Result.ok (some (method, matching_class_or_module)) =>
      if !method.undefined then
        let e :=
          if NAT_OBJ_HAS_ENV method
          then new_block_env (EnvRef.method_env matching_class_or_module method_name) method.env envp
          else new_block_env (EnvRef.module_env matching_class_or_module)
                 (h.cell matching_class_or_module).env envp
        Result.ok
          { fn := method.fn
            env := { e with file := env.file, line := env.line, method_name := method_name,
                            block := block }
            self := self, args := args, block := block }
      else
        Result.raise "NoMethodError" "undefined method \x60%s\x27 for %v"
          [FormatArg.str method_name, FormatArg.value instance_class]
    | Result.ok none =>
      Result.raise "NoMethodError" "undefined method \x60%s\x27 for %v"
        [FormatArg.str method_name, FormatArg.value instance_class]
    | Result.raise c m as => Result.raise c m as
    | Result.abort => Result.abort
    | Result.exit s => Result.exit s
    | Result.fault => Result.fault
    | Result.out_of_fuel => Result.out_of_fuel

/-- Source: `send` (the `NAT_DEBUG_METHOD_RESOLUTION` blocks are compiled out).
`receiver->as_class()->class_name` reads the `class_name` field of the
receiver's record. -/
def send (fuel : Nat) (h : Heap) (envp : EnvRef) (env : Env) (receiver : Ptr) (sym : String)
    (args : List Ptr) (block : Option Ptr) : Result Call :=
  if (h.cell receiver).type = ValueType.Integer then
    call_method_on_class fuel h envp env h.genv.Integer h.genv.Integer sym receiver args block
  else
    match (h.cell receiver).singleton_class with
    | some klass =>
      match find_method fuel h klass sym with
      | Result.ok (some (method, _)) =>
        if method.undefined then
          Result.raise "NoMethodError" "undefined method \x60%s\x27 for %s:Class"
            [FormatArg.str sym, FormatArg.str (h.cell receiver).class_name]
        else
          call_method_on_class fuel h envp env klass (h.cell receiver).klass sym receiver args block
      | Result.ok none =>
        call_method_on_class fuel h envp env (h.cell receiver).klass (h.cell receiver).klass sym
          receiver args block
      | Result.raise c m as => Result.raise c m as
      | Result.abort => Result.abort
      | Result.exit s => Result.exit s
      | Result.fault => Result.fault
      | Result.out_of_fuel => Result.out_of_fuel
    | none =>
      call_method_on_class fuel h envp env (h.cell receiver).klass (h.cell receiver).klass sym
        receiver args block

/-- Source: `respond_to`. -/
def respond_to (fuel : Nat) (h : Heap) (obj : Ptr) (name : String) : Result Bool :=
  if (h.cell obj).type = ValueType.Integer then
    (find_method_without_undefined fuel h h.genv.Integer name).bind fun found =>
      if found.isSome then Result.ok true else Result.ok false
  else
    let on_class : Result Bool :=
      (find_method_without_undefined fuel h (h.cell obj).klass name).bind fun found =>
        if found.isSome then Result.ok true else Result.ok false
    match (h.cell obj).singleton_class with
    | some singleton =>
      (find_method_without_undefined fuel h singleton name).bind fun found =>
        if found.isSome then Result.ok true else on_class
    | none => on_class

/-! ## Ancestors -/

/-- The body of the `do/while` of `class_ancestors`, run until `klass` is
`NULL`: the elements pushed, in order. -/
def class_ancestors_loop : Nat → Heap → Ptr → Result (List Ptr)
  | 0, _, _ => Result.out_of_fuel
  | fuel + 1, h, klass =>
    let pushed :=
      (if (h.cell klass).included_modules.length = 0 then [klass] else [])
        ++ (h.cell klass).included_modules
    match (h.cell klass).superclass with
    | some superclass =>
      (class_ancestors_loop fuel h superclass).bind fun rest => Result.ok (pushed ++ rest)
    | none => Result.ok pushed

/-- Source: `class_ancestors`. A new `ArrayValue` that holds the elements
pushed by the loop. -/
def class_ancestors (fuel : Nat) (h : Heap) (klass : Ptr) : Result (Heap × Ptr) :=
  (class_ancestors_loop fuel h klass).bind fun pushed =>
    Result.ok (h.alloc { type := ValueType.Array, klass := h.genv.Array, ary := pushed })

/-! ## Argument binder -/

/-- The conversion of an integer to the 32-bit `int` of the source. -/
def wrap32 (x : Int) : Int :=
  (x + 2147483648) % 4294967296 - 2147483648

/-- The element `(*array)[index]`; `none` outside the array. -/
def ary_at (xs : List Ptr) (index : Int) : Option Ptr :=
  if 0 ≤ index then xs[index.toNat]? else none

/-- Source: `ArrayValue::push` on the array at `array`. -/
def ArrayValue_push (h : Heap) (array : Ptr) (v : Ptr) : Heap :=
  h.write array { h.cell array with ary := (h.cell array).ary ++ [v] }

/-- The `for` loop of `splat_value`: `count` iterations from `s`, each pushing
element `s` of `xs` onto the array at `splat`. `xs` is the content of the
source array, which the pushes onto the new array leave alone. -/
def splat_value_loop (xs : List Ptr) (splat : Ptr) : Nat → Int → Heap → Result Heap
  | 0, _, h => Result.ok h
  | count + 1, s, h =>
    match ary_at xs s with
    | some v => splat_value_loop xs splat count (s + 1) (ArrayValue_push h splat v)
    | none => Result.fault

/-- Source: `splat_value`. -/
def splat_value (h : Heap) (value : Ptr) (index : Int) (offset_from_end : Int) :
    Result (Heap × Ptr) :=
  let fresh := h.alloc { type := ValueType.Array, klass := h.genv.Array, ary := [] }
  let xs := (h.cell value).ary
  if (h.cell value).type = ValueType.Array ∧ index < (xs.length : Int) - offset_from_end then
    (splat_value_loop xs fresh.2 ((xs.length : Int) - offset_from_end - index).toNat index
        fresh.1).bind fun h1 => Result.ok (h1, fresh.2)
  else Result.ok fresh

/-- The block `shift index left if needed` of `arg_value_by_path`, entered at
step `i` of a path of `path_size` steps: the index after the shift. -/
def shift_index_left (i path_size : Int) (defaults_on_left : Bool)
    (ary_len required_count default_count index : Int) : Int :=
  if i = 0 ∧ path_size = 1 then
    let extra_count : Int := wrap32 (ary_len - required_count)
    if defaults_on_left ∧ extra_count > 0 ∧ default_count ≥ extra_count
        ∧ index ≥ extra_count then
      wrap32 (index - wrap32 (default_count - extra_count))
    else if ary_len ≤ required_count ∧ defaults_on_left then
      wrap32 (index - default_count)
    else index
  else index

/-- The block `negative offset index should go from the right` of
`arg_value_by_path`: the index after it. -/
def index_from_right (ary_len total_count index : Int) : Int :=
  if index < 0 then
    if ary_len ≥ total_count then wrap32 (ary_len + index)
    else wrap32 (wrap32 (total_count - 1) + index)
  else index

/-- The body of the `for` loop of `arg_value_by_path` from step `i` on, with
`path` the indices not yet read by `va_arg` and `return_value` the value
reached so far. -/
def arg_value_by_path_loop (h : Heap) (default_value : Ptr) (splat : Bool)
    (total_count default_count : Int) (defaults_on_right : Bool) (offset_from_end : Int)
    (path_size : Int) : Int → List Int → Ptr → Result (Heap × Ptr)
  | _, [], return_value => Result.ok (h, return_value)
  | i, index :: path, return_value =>
    let has_default : Bool := decide (default_value ≠ h.genv.nil)
    let defaults_on_left : Bool := !defaults_on_right
    let required_count : Int := wrap32 (total_count - default_count)
    let continue_with := arg_value_by_path_loop h default_value splat total_count default_count
      defaults_on_right offset_from_end path_size (i + 1) path
    if splat ∧ i = path_size - 1 then
      splat_value h return_value index offset_from_end
    else if (h.cell return_value).type = ValueType.Array then
      let xs := (h.cell return_value).ary
      if ¬ ((xs.length : Int) ≤ h.genv.NAT_MAX_INT) then Result.abort
      else
        let ary_len : Int := xs.length
        let first_required : Int := default_count
        let remain : Int := wrap32 (ary_len - required_count)
        if has_default ∧ index ≥ remain ∧ index < first_required ∧ defaults_on_left then
          Result.ok (h, default_value)
        else
          let shifted := shift_index_left i path_size defaults_on_left ary_len required_count
            default_count index
          let position := index_from_right ary_len total_count shifted
          if position < 0 then continue_with default_value
          else if position < ary_len then
            match ary_at xs position with
            | some element => continue_with element
            | none => Result.fault
          else continue_with default_value
    else if index = 0 then continue_with return_value
    else continue_with default_value

/-- Source: `arg_value_by_path`; `path` holds the `path_size` variadic
indices. -/
def arg_value_by_path (h : Heap) (value default_value : Ptr) (splat : Bool)
    (total_count default_count : Int) (defaults_on_right : Bool) (offset_from_end : Int)
    (path : List Int) : Result (Heap × Ptr) :=
  arg_value_by_path_loop h default_value splat total_count default_count defaults_on_right
    offset_from_end path.length 0 path value

/-- The body of the `for` loop of `array_value_by_path` from step `i` on. -/
def array_value_by_path_loop (h : Heap) (default_value : Ptr) (splat : Bool)
    (offset_from_end : Int) (path_size : Int) : Int → List Int → Ptr → Result (Heap × Ptr)
  | _, [], return_value => Result.ok (h, return_value)
  | i, index :: path, return_value =>
    let continue_with := array_value_by_path_loop h default_value splat offset_from_end
      path_size (i + 1) path
    if splat ∧ i = path_size - 1 then
      splat_value h return_value index offset_from_end
    else if (h.cell return_value).type = ValueType.Array then
      let xs := (h.cell return_value).ary
      if ¬ ((xs.length : Int) ≤ h.genv.NAT_MAX_INT) then Result.abort
      else
        let ary_len : Int := xs.length
        let position : Int := if index < 0 then wrap32 (ary_len + index) else index
        if position < 0 then continue_with default_value
        else if position < ary_len then
          match ary_at xs position with
          | some element => continue_with element
          | none => Result.fault
        else continue_with default_value
    else if index = 0 then continue_with return_value
    else continue_with default_value

/-- Source: `array_value_by_path`; `path` holds the `path_size` variadic
indices. -/
def array_value_by_path (h : Heap) (value default_value : Ptr) (splat : Bool)
    (offset_from_end : Int) (path : List Int) : Result (Heap × Ptr) :=
  array_value_by_path_loop h default_value splat offset_from_end path.length 0 path value

/-! ## Keyword arguments -/

/-- The value stored under `key` in a list of pairs, `none` when absent. -/
def assoc_get {α : Type} [DecidableEq α] (pairs : List (α × Ptr)) (key : α) : Option Ptr :=
  match pairs with
  | [] => none
  | (k, v) :: rest => if k = key then some v else assoc_get rest key

/-- Modelled from the spec: `SymbolValue::intern`, not part of the sources. The
one symbol of the given name: the entry of the symbol table when there is one,
else a new `SymbolValue` that is entered in the table. -/
def SymbolValue_intern (h : Heap) (name : String) : Heap × Ptr :=
  match assoc_get h.genv.symbols name with
  | some symbol => (h, symbol)
  | none =>
    let fresh := h.alloc { type := ValueType.Symbol, klass := h.genv.Symbol, str := name }
    ({ fresh.1 with
        genv := { fresh.1.genv with symbols := (name, fresh.2) :: fresh.1.genv.symbols } },
      fresh.2)

/-- Modelled from the spec: `HashValue::get`, not part of the sources, for a
key that is compared by identity (an interned symbol). `none` is `NULL`. -/
def HashValue_get (h : Heap) (hash key : Ptr) : Option Ptr :=
  assoc_get (h.cell hash).hash key

/-- Source: `kwarg_value_by_name` on an `ArrayValue`. `default_value` is `none`
for `NULL`. -/
def kwarg_value_by_name (h : Heap) (args : Ptr) (name : String) (default_value : Option Ptr) :
    Result (Heap × Ptr) :=
  let xs := (h.cell args).ary
  let new_hash := h.alloc { type := ValueType.Hash, klass := h.genv.Hash, hash := [] }
  let found : Result (Heap × Ptr) :=
    if xs.length = 0 then Result.ok new_hash
    else
      match xs[xs.length - 1]? with
      | some last =>
        if (h.cell last).type ≠ ValueType.Hash then Result.ok new_hash else Result.ok (h, last)
      | none => Result.fault
  found.bind fun with_hash =>
    let interned := SymbolValue_intern with_hash.1 name
    match HashValue_get interned.1 with_hash.2 interned.2 with
    | some value => Result.ok (interned.1, value)
    | none =>
      match default_value with
      | some default_value => Result.ok (interned.1, default_value)
      | none => Result.raise "ArgumentError" "missing keyword: :%s" [FormatArg.str name]

/-! ## Native code and its effects -/

/-- The behaviour of the native functions behind the function pointers: what a
call does to the heap, and how it ends. The compiled program is not part of
the sources, so it is a parameter. -/
abbrev Native := Heap → Call → Heap × Result Ptr

/-- The state of the process: the heap, the calls to native functions made so
far by the code of `natalie.cpp`, in order, and the text written with
`dprintf` so far, each piece with its file descriptor. -/
structure World where
  heap : Heap
  calls : List Call := []
  written : List (Int × String) := []

/-- The indirect call `fn(&e, self, argc, args, block)` at the end of a
dispatch: the native function runs; nothing runs when the dispatch has ended
otherwise. -/
def World.run (native : Native) (w : World) (dispatch : Result Call) : World × Result Ptr :=
  match dispatch with
  | Result.ok call =>
    ({ w with heap := (native w.heap call).1, calls := w.calls ++ [call] },
      (native w.heap call).2)
  | Result.raise c m as => (w, Result.raise c m as)
  | Result.abort => (w, Result.abort)
  | Result.exit s => (w, Result.exit s)
  | Result.fault => (w, Result.fault)
  | Result.out_of_fuel => (w, Result.out_of_fuel)

/-! ## Coercions -/

/-- The two places of `to_ary` that wrap `obj`: a new `ArrayValue` onto which
`obj` is pushed. -/
def to_ary_wrap (w : World) (obj : Ptr) : World × Result Ptr :=
  let fresh := w.heap.alloc { type := ValueType.Array, klass := w.heap.genv.Array, ary := [] }
  ({ w with heap := ArrayValue_push fresh.1 fresh.2 obj }, Result.ok fresh.2)

/-- Source: `to_ary`. -/
def to_ary (fuel : Nat) (native : Native) (w : World) (envp : EnvRef) (env : Env) (obj : Ptr)
    (raise_for_non_array : Bool) : World × Result Ptr :=
  if (w.heap.cell obj).type = ValueType.Array then (w, Result.ok obj)
  else
    match respond_to fuel w.heap obj "to_ary" with
    | Result.ok true =>
      match World.run native w (send fuel w.heap envp env obj "to_ary" [] none) with
      | (w1, Result.ok ary) =>
        if (w1.heap.cell ary).type = ValueType.Array then (w1, Result.ok ary)
        else if (w1.heap.cell ary).type = ValueType.Nil ∨ ¬ raise_for_non_array then
          to_ary_wrap w1 obj
        else
          (w1, Result.raise "TypeError" "can\x27t convert %s to Array (%s#to_ary gives %s)"
            [FormatArg.str (w1.heap.cell (w1.heap.cell obj).klass).class_name,
             FormatArg.str (w1.heap.cell (w1.heap.cell obj).klass).class_name,
             FormatArg.str (w1.heap.cell (w1.heap.cell ary).klass).class_name])
      | (w1, Result.raise c m as) => (w1, Result.raise c m as)
      | (w1, Result.abort) => (w1, Result.abort)
      | (w1, Result.exit s) => (w1, Result.exit s)
      | (w1, Result.fault) => (w1, Result.fault)
      | (w1, Result.out_of_fuel) => (w1, Result.out_of_fuel)
    | Result.ok false => to_ary_wrap w obj
    | Result.raise c m as => (w, Result.raise c m as)
    | Result.abort => (w, Result.abort)
    | Result.exit s => (w, Result.exit s)
    | Result.fault => (w, Result.fault)
    | Result.out_of_fuel => (w, Result.out_of_fuel)

/-! ## Blocks -/

/-- Source: `_run_block_internal`. `the_block` is `none` for `NULL`; the call to
`abort()` comes first in that branch, so the `NAT_RAISE` after it is never
reached. -/
def _run_block_internal (envp : EnvRef) (the_block : Option Block) (args : List Ptr)
    (block : Option Ptr) : Result Call :=
  match the_block with
  | none => Result.abort
  | some the_block =>
    Result.ok
      { fn := the_block.fn
        env := new_block_env (EnvRef.block_env the_block.addr) the_block.env envp
        self := the_block.self, args := args, block := block }

/-! ## Exception pipeline -/

/-- Modelled from the spec: `Env::global_get`, not part of the sources. The
value of a global variable in the process-wide map, nil when it is not set. -/
def global_get (h : Heap) (name : String) : Ptr :=
  match assoc_get h.genv.globals name with
  | some value => value
  | none => h.genv.nil

/-- Modelled from the spec: `Value::ivar_get`, not part of the sources.
The instance variable of the given name, nil when it is not set. -/
def ivar_get (h : Heap) (obj : Ptr) (name : String) : Ptr :=
  match assoc_get (h.cell obj).ivars name with
  | some value => value
  | none => h.genv.nil

/-- The `for` loop of `run_at_exit_handlers`, with `count` iterations left: the
next one reads element `count - 1` of the array at `handlers`. The macro
`NAT_RUN_BLOCK_WITHOUT_BREAK` runs the block through `_run_block_internal` and
drops its result. -/
def run_at_exit_handlers_loop (native : Native) (envp : EnvRef) (handlers : Ptr) :
    Nat → World → World × Result Unit
  | 0, w => (w, Result.ok ())
  | i + 1, w =>
    match (w.heap.cell handlers).ary[i]? with
    | none => (w, Result.fault)
    | some proc =>
      if (w.heap.cell proc).type ≠ ValueType.Proc then (w, Result.abort)
      else
        match World.run native w
            (_run_block_internal envp (w.heap.cell proc).block [] none) with
        | (w1, Result.ok _) => run_at_exit_handlers_loop native envp handlers i w1
        | (w1, Result.raise c m as) => (w1, Result.raise c m as)
        | (w1, Result.abort) => (w1, Result.abort)
        | (w1, Result.exit s) => (w1, Result.exit s)
        | (w1, Result.fault) => (w1, Result.fault)
        | (w1, Result.out_of_fuel) => (w1, Result.out_of_fuel)

/-- Source: `run_at_exit_handlers`. The counter `i` is an `int` that starts at
`size() - 1` and runs down to `0`. -/
def run_at_exit_handlers (native : Native) (w : World) (envp : EnvRef) : World × Result Unit :=
  let at_exit_handlers := global_get w.heap "$NAT_at_exit_handlers"
  run_at_exit_handlers_loop native envp at_exit_handlers
    (wrap32 (((w.heap.cell at_exit_handlers).ary.length : Int) - 1) + 1).toNat w

/-- The `for` loop of `print_exception_with_backtrace`, with `count` iterations
left: the next one prints the line of index `count`. -/
def print_backtrace_lines (fd : Int) (lines : List Ptr) : Nat → World → World × Result Unit
  | 0, w => (w, Result.ok ())
  | i + 1, w =>
    match lines[i + 1]? with
    | none => (w, Result.fault)
    | some line =>
      if (w.heap.cell line).type ≠ ValueType.String then (w, Result.abort)
      else
        print_backtrace_lines fd lines i
          { w with
            written := w.written
              ++ [(fd, "        " ++ toString (i + 1) ++ ": from " ++ (w.heap.cell line).str
                    ++ "\n")] }

/-- Source: `print_exception_with_backtrace`. Each `dprintf` appends one piece
of text to what has been written. The counter `i` is an `int` that starts at
`size() - 1` and runs down to `1`. -/
def print_exception_with_backtrace (w : World) (exception : Ptr) : World × Result Unit :=
  let stderr := global_get w.heap "$stderr"
  let fd := (w.heap.cell stderr).fileno
  let last_piece : String :=
    (w.heap.cell exception).message ++ " ("
      ++ (w.heap.cell (w.heap.cell exception).klass).class_name ++ ")\n"
  match (w.heap.cell exception).backtrace with
  | none => (w, Result.fault)
  | some backtrace =>
    let lines := (w.heap.cell backtrace).ary
    if lines.length > 0 then
      match print_backtrace_lines fd lines (wrap32 ((lines.length : Int) - 1)).toNat
          { w with written := w.written ++ [(fd, "Traceback (most recent call last):\n")] } with
      | (w1, Result.ok _) =>
        match lines[0]? with
        | some line =>
          ({ w1 with
              written := w1.written ++ [(fd, (w1.heap.cell line).str ++ ": ")]
                ++ [(fd, last_piece)] },
            Result.ok ())
        | none => (w1, Result.fault)
      | (w1, Result.raise c m as) => (w1, Result.raise c m as)
      | (w1, Result.abort) => (w1, Result.abort)
      | (w1, Result.exit s) => (w1, Result.exit s)
      | (w1, Result.fault) => (w1, Result.fault)
      | (w1, Result.out_of_fuel) => (w1, Result.out_of_fuel)
    else ({ w with written := w.written ++ [(fd, last_piece)] }, Result.ok ())

/-- Modelled from the spec: `const_get` of the constant store on classes, not
part of the sources. The constant of the given name, `NameError` when there
is none. -/
def const_get (h : Heap) (klass : Ptr) (name : String) : Result Ptr :=
  match assoc_get (h.cell klass).constants name with
  | some value => Result.ok value
  | none => Result.raise "NameError" "uninitialized constant %s" [FormatArg.str name]

/-- The `for` loop of `is_a` over the ancestors. -/
def is_a_loop (klass_or_module : Ptr) : List Ptr → Bool
  | [] => false
  | ancestor :: rest => if klass_or_module = ancestor then true else is_a_loop klass_or_module rest

/-- Source: `is_a` on a `ModuleValue`. The heap returned holds the array of
ancestors that the call allocates. -/
def is_a (fuel : Nat) (h : Heap) (obj klass_or_module : Ptr) : Result (Heap × Bool) :=
  if obj = klass_or_module then Result.ok (h, true)
  else
    (class_ancestors fuel h (h.cell obj).klass).bind fun ancestors =>
      Result.ok (ancestors.1, is_a_loop klass_or_module (ancestors.1.cell ancestors.2).ary)

/-- Source: `handle_top_level_exception`. `env->exception` is `none` for
`NULL`. The write `env->rescue = false` goes to the calling frame, which no
later step of the function reads. -/
def handle_top_level_exception (fuel : Nat) (native : Native) (w : World) (envp : EnvRef)
    (env : Env) (run_exit_handlers : Bool) : World × Result Unit :=
  match env.exception with
  | none => (w, Result.fault)
  | some exception =>
    match (const_get w.heap w.heap.genv.Object "SystemExit").bind
        (fun system_exit => is_a fuel w.heap exception system_exit) with
    | Result.ok (h1, true) =>
      let status_obj := ivar_get h1 exception "@status"
      match (if run_exit_handlers then run_at_exit_handlers native { w with heap := h1 } envp
             else ({ w with heap := h1 }, Result.ok ())) with
      | (w2, Result.ok _) =>
        if (w2.heap.cell status_obj).type = ValueType.Integer then
          if (w2.heap.cell status_obj).integer ≥ 0 ∧ (w2.heap.cell status_obj).integer ≤ 255 then
            (w2, Result.exit (w2.heap.cell status_obj).integer)
          else (w2, Result.exit 1)
        else (w2, Result.exit 1)
      | (w2, Result.raise c m as) => (w2, Result.raise c m as)
      | (w2, Result.abort) => (w2, Result.abort)
      | (w2, Result.exit s) => (w2, Result.exit s)
      | (w2, Result.fault) => (w2, Result.fault)
      | (w2, Result.out_of_fuel) => (w2, Result.out_of_fuel)
    | Result.ok (h1, false) => print_exception_with_backtrace { w with heap := h1 } exception
    | Result.raise c m as => (w, Result.raise c m as)
    | Result.abort => (w, Result.abort)
    | Result.exit s => (w, Result.exit s)
    | Result.fault => (w, Result.fault)
    | Result.out_of_fuel => (w, Result.out_of_fuel)

/-! ## Spreading arguments -/

/-- What `arg_spread` stores through one of its out-pointers: a `Value *`, an
`int`, a C string (`none` for `NULL`), a `bool` or a `void *`. -/
inductive OutValue where
  | obj (p : Ptr)
  | int (n : Int)
  | str (text : Option String)
  | bool (b : Bool)
  | void_ptr (p : Nat)
  deriving DecidableEq, Repr

/-- Modelled from the spec: `Value::is_truthy`, not part of the sources. Only
nil and false are falsy. -/
def is_truthy (h : Heap) (obj : Ptr) : Bool :=
  decide ((h.cell obj).type ≠ ValueType.Nil ∧ (h.cell obj).type ≠ ValueType.False)

/-- Modelled from the spec: `obj->as_string()->c_str()`, with `Value::as_string`
and `StringValue::c_str` of `natalie.hpp`, not part of the sources. The cast
checks nothing and `c_str` reads the text pointer of a String object: the text
for a String; an object of another type has no such member and the read finds
a null pointer. -/
def as_string_c_str (h : Heap) (obj : Ptr) : Option String :=
  if (h.cell obj).type = ValueType.String then some (h.cell obj).str else none

/-- The body of the `for` loop of `arg_spread` over the specifiers left, with
the values stored so far, one for each out-pointer taken by `va_arg`. The
result pairs the values stored with the way the function ends.
`NAT_ASSERT_TYPE` is modelled from the spec: `TypeError` on a value of another
type; the text of its message is not in the sources. In the case `s` the store
of `obj->as_string()->c_str()` follows the `if` for every `obj`, nil included,
and is the store that lasts: for nil it goes over the `NULL` stored in the
branch. -/
def arg_spread_loop (h : Heap) (args : List Ptr) :
    List Char → Nat → List OutValue → List OutValue × Result Unit
  | [], _, stored => (stored, Result.ok ())
  | c :: arrangement, arg_index, stored =>
    let too_few : List OutValue × Result Unit :=
      (stored, Result.raise "ArgumentError" "wrong number of arguments (given %d, expected %d)"
        [FormatArg.int args.length, FormatArg.int (arg_index + 1)])
    if c = 'o' then
      match args[arg_index]? with
      | none => too_few
      | some obj =>
        arg_spread_loop h args arrangement (arg_index + 1) (stored ++ [OutValue.obj obj])
    else if c = 'i' then
      match args[arg_index]? with
      | none => too_few
      | some obj =>
        if (h.cell obj).type ≠ ValueType.Integer then
          (stored, Result.raise "TypeError" "" [FormatArg.value obj, FormatArg.str "Integer"])
        else
          arg_spread_loop h args arrangement (arg_index + 1)
            (stored ++ [OutValue.int (wrap32 (h.cell obj).integer)])
    else if c = 's' then
      match args[arg_index]? with
      | none => too_few
      | some obj =>
        if obj ≠ h.genv.nil ∧ (h.cell obj).type ≠ ValueType.String then
          (stored, Result.raise "TypeError" "" [FormatArg.value obj, FormatArg.str "String"])
        else
          arg_spread_loop h args arrangement (arg_index + 1)
            (stored ++ [OutValue.str (as_string_c_str h obj)])
    else if c = 'b' then
      match args[arg_index]? with
      | none => too_few
      | some obj =>
        arg_spread_loop h args arrangement (arg_index + 1)
          (stored ++ [OutValue.bool (is_truthy h obj)])
    else if c = 'v' then
      match args[arg_index]? with
      | none => too_few
      | some obj =>
        if (h.cell (ivar_get h obj "@_ptr")).type ≠ ValueType.VoidP then (stored, Result.abort)
        else
          arg_spread_loop h args arrangement (arg_index + 1)
            (stored ++ [OutValue.void_ptr (h.cell (ivar_get h obj "@_ptr")).void_ptr])
    else (stored, Result.abort)

/-- Source: `arg_spread`. `args` holds the `argc` arguments and `arrangement`
the characters of the format string. -/
def arg_spread (h : Heap) (args : List Ptr) (arrangement : List Char) :
    List OutValue × Result Unit :=
  arg_spread_loop h args arrangement 0 []

/-! ## Vocabulary of the statements -/

/-- The first module of `modules`, in list order, whose method table holds an
entry for `name`. -/
def first_module_with (h : Heap) (name : String) (modules : List Ptr) : Option Ptr :=
  modules.find? fun module => (hashmap_get (h.cell module).methods name).isSome

/-- The classes reached from `klass` by `superclass` links, `klass` first and
the class without a superclass last; `none` when the chain does not end within
`fuel` classes. -/
def superclass_chain : Nat → Heap → Ptr → Option (List Ptr)
  | 0, _, _ => none
  | fuel + 1, h, klass =>
    match (h.cell klass).superclass with
    | some superclass => (superclass_chain fuel h superclass).map fun rest => klass :: rest
    | none => some [klass]

/-- A heap made of the listed values, at addresses `0, 1, 2, ...`. -/
def heap_of (cells : List Value) : Heap :=
  { cell := fun p => cells.getD p default, next := cells.length }

/-- An example registry. Addresses `0 .. 5` hold nil, true, false and the
classes Integer, Object and Array; `6` is a module `M` defining `foo`; `7` is a
class `A < Object` that includes `M` and has `foo` and `bar` in its own table;
`8` is a class `B < A` without included modules, defining `baz`; `9` is
an instance of `B` and `10` an instance of `A`; `11` is a class without
superclass that includes `M` and has `bar` in its own table. -/
def registry : Heap :=
  heap_of
    [ { type := ValueType.Nil, klass := 4 },
      { type := ValueType.True, klass := 4 },
      { type := ValueType.False, klass := 4 },
      { type := ValueType.Class, klass := 4, class_name := "Integer", superclass := some 4 },
      { type := ValueType.Class, klass := 4, class_name := "Object",
        methods := [("inspect", { fn := 11 })] },
      { type := ValueType.Class, klass := 4, class_name := "Array", superclass := some 4 },
      { type := ValueType.Module, klass := 4, class_name := "M",
        methods := [("foo", { fn := 22 })] },
      { type := ValueType.Class, klass := 4, class_name := "A", superclass := some 4,
        included_modules := [6], methods := [("foo", { fn := 21 }), ("bar", { fn := 23 })] },
      { type := ValueType.Class, klass := 4, class_name := "B", superclass := some 7,
        methods := [("baz", { fn := 24 })] },
      { type := ValueType.Object, klass := 8 },
      { type := ValueType.Object, klass := 7 },
      { type := ValueType.Class, klass := 11, class_name := "Top", included_modules := [6],
        methods := [("bar", { fn := 25 })] } ]

/-- The method tables that one class contributes to the resolution walk: its
own table when it has no included modules, then the tables of its included
modules. -/
def own_tables (h : Heap) (klass : Ptr) : List Ptr :=
  (if (h.cell klass).included_modules.length = 0 then [klass] else [])
    ++ (h.cell klass).included_modules

/-- The method tables visited by the resolution walk along `chain`, in order. -/
def resolution_walk (h : Heap) : List Ptr → List Ptr
  | [] => []
  | klass :: rest => own_tables h klass ++ resolution_walk h rest

/-- The first entry for `name` met in the tables of `walk`, with the class or
module that holds it. -/
def first_entry_met (h : Heap) (name : String) (walk : List Ptr) : Option (Method × Ptr) :=
  walk.findSome? fun holder =>
    (hashmap_get (h.cell holder).methods name).map fun entry => (entry, holder)

/-- A registry where class `A` (address `6`, superclass Object) carries an
undefined marker for `foo` while Object defines `foo`; `7` is an instance of
`A`. -/
def shadowed_registry : Heap :=
  heap_of
    [ { type := ValueType.Nil, klass := 4 },
      { type := ValueType.True, klass := 4 },
      { type := ValueType.False, klass := 4 },
      { type := ValueType.Class, klass := 4, class_name := "Integer", superclass := some 4 },
      { type := ValueType.Class, klass := 4, class_name := "Object",
        methods := [("foo", { fn := 31 })] },
      { type := ValueType.Class, klass := 4, class_name := "Array", superclass := some 4 },
      { type := ValueType.Class, klass := 4, class_name := "A", superclass := some 4,
        methods := [("foo", method_from_fn 0)] },
      { type := ValueType.Object, klass := 6 } ]

/-- The class whose chain decides a dispatch on `x`: the Integer class for an
Integer, the singleton class of `x` when it has one, the class of `x`
otherwise. -/
def dispatch_class (h : Heap) (x : Ptr) : Ptr :=
  if (h.cell x).type = ValueType.Integer then h.genv.Integer
  else
    match (h.cell x).singleton_class with
    | some singleton => singleton
    | none => (h.cell x).klass

/-- A registry with a singleton class. Class `A` (address `6`, superclass
Object) defines `foo` and `bar`; the value at `8` is an instance of `A` whose
singleton class (address `7`, superclass `A`) carries an undefined marker for
`foo` and defines `baz`; `9` is an Integer. -/
def singleton_registry : Heap :=
  heap_of
    [ { type := ValueType.Nil, klass := 4 },
      { type := ValueType.True, klass := 4 },
      { type := ValueType.False, klass := 4 },
      { type := ValueType.Class, klass := 4, class_name := "Integer", superclass := some 4,
        methods := [("succ", { fn := 44 })] },
      { type := ValueType.Class, klass := 4, class_name := "Object" },
      { type := ValueType.Class, klass := 4, class_name := "Array", superclass := some 4 },
      { type := ValueType.Class, klass := 4, class_name := "A", superclass := some 4,
        methods := [("foo", { fn := 41 }), ("bar", { fn := 42 })] },
      { type := ValueType.Class, klass := 4, class_name := "A", superclass := some 6,
        methods := [("foo", method_from_fn 0), ("baz", { fn := 43 })] },
      { type := ValueType.Object, klass := 6, singleton_class := some 7 },
      { type := ValueType.Integer, klass := 3, integer := 5 } ]

/-- The first module of `modules`, in list order, whose method table holds an
entry for `name` that is not an undefined marker. -/
def first_module_defining (h : Heap) (name : String) (modules : List Ptr) : Option Ptr :=
  modules.find? fun module =>
    match hashmap_get (h.cell module).methods name with
    | some entry => !entry.undefined
    | none => false

/-- A registry where class `A` (address `8`, superclass Object) defines `foo`
and includes the modules `U` (address `6`), which carries an undefined marker
for `foo`, and `M` (address `7`), which defines `foo`; `9` is an instance of
`A`. -/
def marker_registry : Heap :=
  heap_of
    [ { type := ValueType.Nil, klass := 4 },
      { type := ValueType.True, klass := 4 },
      { type := ValueType.False, klass := 4 },
      { type := ValueType.Class, klass := 4, class_name := "Integer", superclass := some 4 },
      { type := ValueType.Class, klass := 4, class_name := "Object" },
      { type := ValueType.Class, klass := 4, class_name := "Array", superclass := some 4 },
      { type := ValueType.Module, klass := 4, class_name := "U",
        methods := [("foo", method_from_fn 0)] },
      { type := ValueType.Module, klass := 4, class_name := "M",
        methods := [("foo", { fn := 52 })] },
      { type := ValueType.Class, klass := 4, class_name := "A", superclass := some 4,
        included_modules := [6, 7], methods := [("foo", { fn := 51 })] },
      { type := ValueType.Object, klass := 8 } ]

/-- A registry in the layout the comments of `find_method` and
`class_ancestors` describe, the included-module list of a class starting with
the class itself: class `A` (address `7`, superclass Object) lists `[A, M]`,
defines `foo` itself, and `M` (address `6`) defines `foo` too; `8` is
an instance of `A`. -/
def self_listed_registry : Heap :=
  heap_of
    [ { type := ValueType.Nil, klass := 4 },
      { type := ValueType.True, klass := 4 },
      { type := ValueType.False, klass := 4 },
      { type := ValueType.Class, klass := 4, class_name := "Integer", superclass := some 4 },
      { type := ValueType.Class, klass := 4, class_name := "Object" },
      { type := ValueType.Class, klass := 4, class_name := "Array", superclass := some 4 },
      { type := ValueType.Module, klass := 4, class_name := "M",
        methods := [("foo", { fn := 62 })] },
      { type := ValueType.Class, klass := 4, class_name := "A", superclass := some 4,
        included_modules := [7, 6], methods := [("foo", { fn := 61 })] },
      { type := ValueType.Object, klass := 7 } ]

/-- A heap with arrays. Addresses `0 .. 5` as in the example registry; `6 .. 9`
hold the Integers `10`, `20`, `30`, `40`; `10` is the array `[10, 20, 30, 40]`
(of the values at `6 .. 9`), `11` the array `[10, 20]`, `12` the Integer `99`
and `13` the array `[10, 20, 30]`. -/
def array_heap : Heap :=
  heap_of
    [ { type := ValueType.Nil, klass := 4 },
      { type := ValueType.True, klass := 4 },
      { type := ValueType.False, klass := 4 },
      { type := ValueType.Class, klass := 4, class_name := "Integer", superclass := some 4 },
      { type := ValueType.Class, klass := 4, class_name := "Object" },
      { type := ValueType.Class, klass := 4, class_name := "Array", superclass := some 4 },
      { type := ValueType.Integer, klass := 3, integer := 10 },
      { type := ValueType.Integer, klass := 3, integer := 20 },
      { type := ValueType.Integer, klass := 3, integer := 30 },
      { type := ValueType.Integer, klass := 3, integer := 40 },
      { type := ValueType.Array, klass := 5, ary := [6, 7, 8, 9] },
      { type := ValueType.Array, klass := 5, ary := [6, 7] },
      { type := ValueType.Integer, klass := 3, integer := 99 },
      { type := ValueType.Array, klass := 5, ary := [6, 7, 8] } ]

/-- A heap with keyword arguments. Addresses `0 .. 5` as in the example
registry; `6` is the interned symbol `key`, `7` the Integer `42`, `8` the Hash
that maps the symbol `key` to `42`; `9` is the array `[42, hash]`, `10` the
array `[42]` and `11` the empty array. -/
def kwarg_heap : Heap :=
  { heap_of
      [ { type := ValueType.Nil, klass := 4 },
        { type := ValueType.True, klass := 4 },
        { type := ValueType.False, klass := 4 },
        { type := ValueType.Class, klass := 4, class_name := "Integer", superclass := some 4 },
        { type := ValueType.Class, klass := 4, class_name := "Object" },
        { type := ValueType.Class, klass := 4, class_name := "Array", superclass := some 4 },
        { type := ValueType.Symbol, klass := 4, str := "key" },
        { type := ValueType.Integer, klass := 3, integer := 42 },
        { type := ValueType.Hash, klass := 4, hash := [(6, 7)] },
        { type := ValueType.Array, klass := 5, ary := [7, 8] },
        { type := ValueType.Array, klass := 5, ary := [7] },
        { type := ValueType.Array, klass := 5, ary := [] } ] with
    genv := { symbols := [("key", 6)] } }

/-- A native behaviour that leaves the heap alone and returns the value at
`result` from every call. -/
def native_returning (result : Ptr) : Native :=
  fun h _ => (h, Result.ok result)

/-- A registry for `to_ary`. Addresses `0 .. 5` as in the example registry; `6`
is a class `A < Object` defining `to_ary`, `7` an instance of `A`, `8` the
Integer `5`, `9` the array `[5]` and `10` an instance of Object, which has no
`to_ary`. -/
def to_ary_registry : Heap :=
  heap_of
    [ { type := ValueType.Nil, klass := 4 },
      { type := ValueType.True, klass := 4 },
      { type := ValueType.False, klass := 4 },
      { type := ValueType.Class, klass := 4, class_name := "Integer", superclass := some 4 },
      { type := ValueType.Class, klass := 4, class_name := "Object" },
      { type := ValueType.Class, klass := 4, class_name := "Array", superclass := some 4 },
      { type := ValueType.Class, klass := 4, class_name := "A", superclass := some 4,
        methods := [("to_ary", { fn := 71 })] },
      { type := ValueType.Object, klass := 6 },
      { type := ValueType.Integer, klass := 3, integer := 5 },
      { type := ValueType.Array, klass := 5, ary := [8] },
      { type := ValueType.Object, klass := 4 } ]

/-- The call that runs the block `b` of an at-exit handler from the env at
`envp`: no arguments and no block. -/
def at_exit_call (envp : EnvRef) (b : Block) : Call :=
  { fn := b.fn, env := new_block_env (EnvRef.block_env b.addr) b.env envp,
    self := b.self, args := [], block := none }

/-- A heap with at-exit handlers. Addresses `0 .. 5` as in the example
registry; `6` and `7` are procs with the functions `81` and `82`; `8` is the
array `[proc 81, proc 82]`, bound to `$NAT_at_exit_handlers`; `9` is an empty
array. -/
def at_exit_heap : Heap :=
  { heap_of
      [ { type := ValueType.Nil, klass := 4 },
        { type := ValueType.True, klass := 4 },
        { type := ValueType.False, klass := 4 },
        { type := ValueType.Class, klass := 4, class_name := "Integer", superclass := some 4 },
        { type := ValueType.Class, klass := 4, class_name := "Object" },
        { type := ValueType.Class, klass := 4, class_name := "Array", superclass := some 4 },
        { type := ValueType.Proc, klass := 4, block := some { fn := 81, self := 0, addr := 1 } },
        { type := ValueType.Proc, klass := 4, block := some { fn := 82, self := 0, addr := 2 } },
        { type := ValueType.Array, klass := 5, ary := [6, 7] },
        { type := ValueType.Array, klass := 5, ary := [] } ] with
    genv := { globals := [("$NAT_at_exit_handlers", 8)] } }

/-- The pieces of text in the order given, put together. -/
def concat_text : List String → String
  | [] => ""
  | piece :: rest => piece ++ concat_text rest

/-- The line printed for the backtrace entry of index `i` at least `1`. -/
def traceback_line (bs : List String) (i : Nat) : String :=
  "        " ++ toString i ++ ": from " ++ bs.getD i "" ++ "\n"

/-- The lines that the spec gives for an exception with message `msg`, class
name `C` and backtrace entries `bs`: the message line alone when there is no
entry; else the header, the lines of the entries `n - 1` down to `1`, and the
line of entry `0` followed by the message. -/
def traceback_lines (msg C : String) (bs : List String) : List String :=
  if bs.length = 0 then [msg ++ " (" ++ C ++ ")\n"]
  else
    ["Traceback (most recent call last):\n"]
      ++ (List.range (bs.length - 1)).reverse.map (fun k => traceback_line bs (k + 1))
      ++ [bs.getD 0 "" ++ ": " ++ (msg ++ " (" ++ C ++ ")\n")]

/-- A heap with exceptions. Addresses `0 .. 5` as in the example registry; `6`
is the class `RuntimeError`; `7`, `8`, `9` are the Strings `a.rb:1`, `b.rb:2`,
`c.rb:3`; `10` is the array of these three and `11` an empty array; `12` is an
exception with message `boom` and the backtrace at `10`, `13` one with the
empty backtrace; `14` is the Io bound to `$stderr`, with file descriptor `2`. -/
def exception_heap : Heap :=
  { heap_of
      [ { type := ValueType.Nil, klass := 4 },
        { type := ValueType.True, klass := 4 },
        { type := ValueType.False, klass := 4 },
        { type := ValueType.Class, klass := 4, class_name := "Integer", superclass := some 4 },
        { type := ValueType.Class, klass := 4, class_name := "Object" },
        { type := ValueType.Class, klass := 4, class_name := "Array", superclass := some 4 },
        { type := ValueType.Class, klass := 4, class_name := "RuntimeError",
          superclass := some 4 },
        { type := ValueType.String, klass := 4, str := "a.rb:1" },
        { type := ValueType.String, klass := 4, str := "b.rb:2" },
        { type := ValueType.String, klass := 4, str := "c.rb:3" },
        { type := ValueType.Array, klass := 5, ary := [7, 8, 9] },
        { type := ValueType.Array, klass := 5, ary := [] },
        { type := ValueType.Exception, klass := 6, message := "boom", backtrace := some 10 },
        { type := ValueType.Exception, klass := 6, message := "boom", backtrace := some 11 },
        { type := ValueType.Io, klass := 4, fileno := 2 } ] with
    genv := { globals := [("$stderr", 14)] } }

/-- The texts of the backtrace entries of an exception, entry `0` first. -/
def backtrace_entries (h : Heap) (exception : Ptr) : List String :=
  match (h.cell exception).backtrace with
  | some backtrace => (h.cell backtrace).ary.map fun line => (h.cell line).str
  | none => []

/-- The file descriptor of the Io bound to `$stderr`. -/
def stderr_fileno (h : Heap) : Int :=
  (h.cell (global_get h "$stderr")).fileno

/-- The exit code that the spec gives for a status object: its integer when it
is an Integer between `0` and `255`, and `1` in every other case. -/
def exit_status (h : Heap) (status_obj : Ptr) : Int :=
  if (h.cell status_obj).type = ValueType.Integer ∧ 0 ≤ (h.cell status_obj).integer
      ∧ (h.cell status_obj).integer ≤ 255
  then (h.cell status_obj).integer else 1

/-- A heap with a `SystemExit`. Addresses `0 .. 5` as in the example registry,
Object holding the constant `SystemExit`; `6` is the class `SystemExit`; `7`
is the Integer `7` and `8` the Integer `300`; `9` is an exception of class
`SystemExit` with `@status = 7`, `10` one with `@status = 300` and `11` one
without `@status`; `12` is a proc with the function `91` and `13` the array
`[proc 91]`, bound to `$NAT_at_exit_handlers`. -/
def exit_heap : Heap :=
  { heap_of
      [ { type := ValueType.Nil, klass := 4 },
        { type := ValueType.True, klass := 4 },
        { type := ValueType.False, klass := 4 },
        { type := ValueType.Class, klass := 4, class_name := "Integer", superclass := some 4 },
        { type := ValueType.Class, klass := 4, class_name := "Object",
          constants := [("SystemExit", 6)] },
        { type := ValueType.Class, klass := 4, class_name := "Array", superclass := some 4 },
        { type := ValueType.Class, klass := 4, class_name := "SystemExit",
          superclass := some 4 },
        { type := ValueType.Integer, klass := 3, integer := 7 },
        { type := ValueType.Integer, klass := 3, integer := 300 },
        { type := ValueType.Exception, klass := 6, ivars := [("@status", 7)] },
        { type := ValueType.Exception, klass := 6, ivars := [("@status", 8)] },
        { type := ValueType.Exception, klass := 6 },
        { type := ValueType.Proc, klass := 4, block := some { fn := 91, self := 0, addr := 1 } },
        { type := ValueType.Array, klass := 5, ary := [12] } ] with
    genv := { globals := [("$NAT_at_exit_handlers", 13)] } }

/-- The heap `exit_heap` after `is_a` has allocated the ancestors
`[SystemExit, Object]` of the class `SystemExit`. -/
def exit_heap_after_is_a : Heap :=
  (exit_heap.alloc { type := ValueType.Array, klass := exit_heap.genv.Array, ary := [6, 4] }).1

/-- The type that a specifier of `arg_spread` requires of its argument: an
Integer for `i`, a String for `s`, a value whose `@_ptr` is a `VoidP` for `v`,
and nothing for `o` and `b`. -/
def specifier_accepts (h : Heap) (c : Char) (arg : Ptr) : Bool :=
  if c = 'i' then decide ((h.cell arg).type = ValueType.Integer)
  else if c = 's' then decide ((h.cell arg).type = ValueType.String)
  else if c = 'v' then decide ((h.cell (ivar_get h arg "@_ptr")).type = ValueType.VoidP)
  else true

/-- The conversion of an argument under a specifier of `arg_spread`. -/
def specifier_conversion (h : Heap) (c : Char) (arg : Ptr) : OutValue :=
  if c = 'o' then OutValue.obj arg
  else if c = 'i' then OutValue.int (wrap32 (h.cell arg).integer)
  else if c = 's' then OutValue.str (some (h.cell arg).str)
  else if c = 'b' then OutValue.bool (is_truthy h arg)
  else OutValue.void_ptr (h.cell (ivar_get h arg "@_ptr")).void_ptr

/-- A heap with arguments for `arg_spread`. Addresses `0 .. 5` as in the example
registry; `6` is the Integer `42`, `7` the String `hello`, `8` a `VoidP` with
the pointer `4096`, and `9` an object whose `@_ptr` is the value at `8`. -/
def spread_heap : Heap :=
  heap_of
    [ { type := ValueType.Nil, klass := 4 },
      { type := ValueType.True, klass := 4 },
      { type := ValueType.False, klass := 4 },
      { type := ValueType.Class, klass := 4, class_name := "Integer", superclass := some 4 },
      { type := ValueType.Class, klass := 4, class_name := "Object" },
      { type := ValueType.Class, klass := 4, class_name := "Array", superclass := some 4 },
      { type := ValueType.Integer, klass := 3, integer := 42 },
      { type := ValueType.String, klass := 4, str := "hello" },
      { type := ValueType.VoidP, klass := 4, void_ptr := 4096 },
      { type := ValueType.Object, klass := 4, ivars := [("@_ptr", 8)] } ]

/-- A native behaviour that leaves the heap alone, raises `RuntimeError` from
the function `fn` and returns nil from every other one. -/
def native_raising (fn : Nat) : Native :=
  fun h call =>
    if call.fn = fn then (h, Result.raise "RuntimeError" "boom" []) else (h, Result.ok h.genv.nil)

/-- A registry for `to_ary` with a singleton class. Addresses `0 .. 5` as in
the example registry; `6` is a class `A < Object` defining `to_ary`; the value
at `8` is an instance of `A` whose singleton class (address `7`, superclass
`A`) carries an undefined marker for `to_ary`. -/
def to_ary_marker_registry : Heap :=
  heap_of
    [ { type := ValueType.Nil, klass := 4 },
      { type := ValueType.True, klass := 4 },
      { type := ValueType.False, klass := 4 },
      { type := ValueType.Class, klass := 4, class_name := "Integer", superclass := some 4 },
      { type := ValueType.Class, klass := 4, class_name := "Object" },
      { type := ValueType.Class, klass := 4, class_name := "Array", superclass := some 4 },
      { type := ValueType.Class, klass := 4, class_name := "A", superclass := some 4,
        methods := [("to_ary", { fn := 71 })] },
      { type := ValueType.Class, klass := 4, class_name := "A", superclass := some 6,
        methods := [("to_ary", method_from_fn 0)] },
      { type := ValueType.Object, klass := 6, singleton_class := some 7 } ]

/-- A heap with a `SystemExit` that includes a module. Addresses `0 .. 5` as in
the example registry, Object holding the constant `SystemExit`; `6` is the
class `SystemExit`, which includes the module at `7` and does not list itself;
`8` is the Integer `7`; `9` is an exception of class `SystemExit` with
`@status = 7`, the message `exit` and the empty backtrace at `10`; `11` is the
Io bound to `$stderr`, with file descriptor `2`. -/
def module_exit_heap : Heap :=
  { heap_of
      [ { type := ValueType.Nil, klass := 4 },
        { type := ValueType.True, klass := 4 },
        { type := ValueType.False, klass := 4 },
        { type := ValueType.Class, klass := 4, class_name := "Integer", superclass := some 4 },
        { type := ValueType.Class, klass := 4, class_name := "Object",
          constants := [("SystemExit", 6)] },
        { type := ValueType.Class, klass := 4, class_name := "Array", superclass := some 4 },
        { type := ValueType.Class, klass := 4, class_name := "SystemExit",
          superclass := some 4, included_modules := [7] },
        { type := ValueType.Module, klass := 4, class_name := "M" },
        { type := ValueType.Integer, klass := 3, integer := 7 },
        { type := ValueType.Exception, klass := 6, ivars := [("@status", 8)],
          message := "exit", backtrace := some 10 },
        { type := ValueType.Array, klass := 5, ary := [] },
        { type := ValueType.Io, klass := 4, fileno := 2 } ] with
    genv := { globals := [("$stderr", 11)] } }

/-! ## Resolver: lemmas -/

theorem find_method_in_modules_eq_none (h : Heap) (name : String) (modules : List Ptr) :
    find_method_in_modules h name modules = none ↔ first_module_with h name modules = none := by
  induction modules with
  | nil => simp [find_method_in_modules, first_module_with]
  | cons module rest ih =>
    unfold find_method_in_modules
    cases hg : hashmap_get (h.cell module).methods name with
    | none =>
      simp only [first_module_with, List.find?, hg, Option.isSome_none] at ih ⊢
      exact ih
    | some method => simp [first_module_with, List.find?, hg]

theorem find_method_in_modules_of_first (h : Heap) (name : String) (modules : List Ptr)
    (module : Ptr) (entry : Method) (hfirst : first_module_with h name modules = some module)
    (hentry : hashmap_get (h.cell module).methods name = some entry) :
    find_method_in_modules h name modules = some (entry, module) := by
  induction modules with
  | nil => simp [first_module_with] at hfirst
  | cons head rest ih =>
    unfold find_method_in_modules
    cases hg : hashmap_get (h.cell head).methods name with
    | none =>
      simp only [first_module_with, List.find?, hg, Option.isSome_none] at hfirst ih ⊢
      exact ih hfirst
    | some method =>
      simp only [first_module_with, List.find?, hg, Option.isSome_some, Option.some.injEq] at hfirst
      subst hfirst
      rw [hg] at hentry
      cases hentry
      rfl

theorem find_method_succ (fuel : Nat) (h : Heap) (klass : Ptr) (name : String) :
    find_method (fuel + 1) h klass name =
      if (h.cell klass).type ≠ ValueType.Class then Result.abort
      else
        match (if (h.cell klass).included_modules.length = 0
                then hashmap_get (h.cell klass).methods name else none) with
        | some method => Result.ok (some (method, klass))
        | none =>
          match find_method_in_modules h name (h.cell klass).included_modules with
          | some found => Result.ok (some found)
          | none =>
            match (h.cell klass).superclass with
            | some superclass => find_method fuel h superclass name
            | none => Result.ok none := by
  rw [find_method]

theorem find_method_total (fuel : Nat) (h : Heap) (name : String) :
    ∀ (klass : Ptr) (chain : List Ptr), superclass_chain fuel h klass = some chain →
      (∀ c ∈ chain, (h.cell c).type = ValueType.Class) →
      ∃ r, find_method fuel h klass name = Result.ok r := by
  induction fuel with
  | zero => intro klass chain hc; simp [superclass_chain] at hc
  | succ fuel ih =>
    intro klass chain hc hty
    unfold superclass_chain at hc
    unfold find_method
    cases hs : (h.cell klass).superclass with
    | none =>
      rw [hs] at hc
      cases hc
      have hk : (h.cell klass).type = ValueType.Class := hty klass (by simp)
      simp only [hk, ne_eq, not_true_eq_false, if_false]
      split
      · exact ⟨_, rfl⟩
      · split
        · exact ⟨_, rfl⟩
        · exact ⟨_, rfl⟩
    | some superclass =>
      rw [hs] at hc
      cases hr : superclass_chain fuel h superclass with
      | none => simp [hr] at hc
      | some rest =>
        simp only [hr, Option.map_some', Option.some.injEq] at hc
        subst hc
        have hk : (h.cell klass).type = ValueType.Class := hty klass (by simp)
        simp only [hk, ne_eq, not_true_eq_false, if_false]
        split
        · exact ⟨_, rfl⟩
        · split
          · exact ⟨_, rfl⟩
          · exact ih superclass rest hr (fun c hcm => hty c (List.mem_cons_of_mem _ hcm))

theorem find_method_in_modules_eq_first_entry (h : Heap) (name : String) (modules : List Ptr) :
    find_method_in_modules h name modules = first_entry_met h name modules := by
  induction modules with
  | nil => rfl
  | cons module rest ih =>
    unfold find_method_in_modules
    simp only [first_entry_met, List.findSome?_cons] at ih ⊢
    cases hg : hashmap_get (h.cell module).methods name with
    | none => simpa using ih
    | some method => simp

theorem first_entry_met_append (h : Heap) (name : String) (xs ys : List Ptr) :
    first_entry_met h name (xs ++ ys)
      = (first_entry_met h name xs).or (first_entry_met h name ys) := by
  simp [first_entry_met, List.findSome?_append]

theorem find_method_step (fuel : Nat) (h : Heap) (klass : Ptr) (name : String) :
    find_method (fuel + 1) h klass name =
      if (h.cell klass).type ≠ ValueType.Class then Result.abort
      else
        match first_entry_met h name (own_tables h klass) with
        | some found => Result.ok (some found)
        | none =>
          match (h.cell klass).superclass with
          | some superclass => find_method fuel h superclass name
          | none => Result.ok none := by
  rw [find_method_succ]
  by_cases hk : (h.cell klass).type = ValueType.Class
  · simp only [hk, ne_eq, not_true_eq_false, if_false, own_tables, first_entry_met_append,
      find_method_in_modules_eq_first_entry]
    by_cases hlen : (h.cell klass).included_modules.length = 0
    · have hnil : (h.cell klass).included_modules = [] := List.length_eq_zero.mp hlen
      simp only [hlen, if_true, hnil]
      cases hg : hashmap_get (h.cell klass).methods name with
      | none => simp [first_entry_met, hg]
      | some e => simp [first_entry_met, hg]
    · simp only [hlen, if_false]
      cases hm : first_entry_met h name (h.cell klass).included_modules with
      | none => simp [first_entry_met]
      | some r => simp [first_entry_met]
  · simp [hk]

theorem find_method_eq_walk (name : String) (h : Heap) :
    ∀ (fuel : Nat) (klass : Ptr) (chain : List Ptr), superclass_chain fuel h klass = some chain →
      (∀ c ∈ chain, (h.cell c).type = ValueType.Class) →
      find_method fuel h klass name
        = Result.ok (first_entry_met h name (resolution_walk h chain)) := by
  intro fuel
  induction fuel with
  | zero => intro klass chain hc; simp [superclass_chain] at hc
  | succ fuel ih =>
    intro klass chain hc hty
    unfold superclass_chain at hc
    rw [find_method_step]
    have hk : (h.cell klass).type = ValueType.Class := by
      cases hs : (h.cell klass).superclass with
      | none => rw [hs] at hc; cases hc; exact hty klass (by simp)
      | some superclass =>
        rw [hs] at hc
        cases hr : superclass_chain fuel h superclass with
        | none => simp [hr] at hc
        | some rest =>
          simp only [hr, Option.map_some', Option.some.injEq] at hc
          subst hc
          exact hty klass (by simp)
    simp only [hk, ne_eq, not_true_eq_false, if_false]
    cases hs : (h.cell klass).superclass with
    | none =>
      rw [hs] at hc
      cases hc
      simp only [resolution_walk, List.append_nil]
      cases first_entry_met h name (own_tables h klass) <;> rfl
    | some superclass =>
      rw [hs] at hc
      cases hr : superclass_chain fuel h superclass with
      | none => simp [hr] at hc
      | some rest =>
        simp only [hr, Option.map_some', Option.some.injEq] at hc
        subst hc
        have hrec := ih superclass rest hr (fun c hcm => hty c (List.mem_cons_of_mem _ hcm))
        simp only [resolution_walk, first_entry_met_append, hrec]
        cases first_entry_met h name (own_tables h klass) <;> rfl

theorem find_method_ok_class (fuel : Nat) (h : Heap) (klass : Ptr) (name : String)
    (r : Option (Method × Ptr)) (hr : find_method fuel h klass name = Result.ok r) :
    (h.cell klass).type = ValueType.Class := by
  cases fuel with
  | zero => simp [find_method] at hr
  | succ fuel =>
    rw [find_method_step] at hr
    by_contra hk
    simp [hk] at hr

theorem find_method_mono (h : Heap) (name : String) :
    ∀ (fuel : Nat) (klass : Ptr) (r : Option (Method × Ptr)),
      find_method fuel h klass name = Result.ok r →
      find_method (fuel + 1) h klass name = Result.ok r := by
  intro fuel
  induction fuel with
  | zero => intro klass r hr; simp [find_method] at hr
  | succ fuel ih =>
    intro klass r hr
    rw [find_method_step] at hr ⊢
    by_cases hk : (h.cell klass).type = ValueType.Class
    · simp only [hk, ne_eq, not_true_eq_false, if_false] at hr ⊢
      cases hm : first_entry_met h name (own_tables h klass) with
      | some found => simpa [hm] using hr
      | none =>
        simp only [hm] at hr ⊢
        cases hs : (h.cell klass).superclass with
        | none => simpa [hs] using hr
        | some superclass =>
          simp only [hs] at hr ⊢
          exact ih superclass r hr
    · simp [hk] at hr

theorem find_method_none_on_chain (h : Heap) (name : String) :
    ∀ (fuel : Nat) (klass : Ptr) (n : Nat) (chain : List Ptr) (c : Ptr),
      find_method fuel h klass name = Result.ok none →
      superclass_chain n h klass = some chain → c ∈ chain →
      find_method fuel h c name = Result.ok none := by
  intro fuel
  induction fuel with
  | zero => intro klass n chain c hr; simp [find_method] at hr
  | succ fuel ih =>
    intro klass n chain c hr hc hmem
    cases n with
    | zero => simp [superclass_chain] at hc
    | succ n =>
      unfold superclass_chain at hc
      have hr0 := hr
      rw [find_method_step] at hr
      by_cases hk : (h.cell klass).type = ValueType.Class
      · simp only [hk, ne_eq, not_true_eq_false, if_false] at hr
        cases hm : first_entry_met h name (own_tables h klass) with
        | some found => simp [hm] at hr
        | none =>
          simp only [hm] at hr
          cases hs : (h.cell klass).superclass with
          | none =>
            rw [hs] at hc
            cases hc
            have hck : c = klass := by simpa using hmem
            rw [hck]
            exact hr0
          | some superclass =>
            rw [hs] at hc hr
            cases hrest : superclass_chain n h superclass with
            | none => simp [hrest] at hc
            | some rest =>
              simp only [hrest, Option.map_some', Option.some.injEq] at hc
              subst hc
              rcases List.mem_cons.mp hmem with hck | hin
              · rw [hck]
                exact hr0
              · exact find_method_mono h name fuel c none
                  (ih superclass n rest c hr hrest hin)
      · simp [hk] at hr

theorem find_method_never_raises (h : Heap) (name : String) :
    ∀ (fuel : Nat) (klass : Ptr) (c f : String) (as : List FormatArg),
      find_method fuel h klass name = Result.raise c f as → False := by
  intro fuel
  induction fuel with
  | zero => intro klass c f as hr; simp [find_method] at hr
  | succ fuel ih =>
    intro klass c f as hr
    rw [find_method_step] at hr
    by_cases hk : (h.cell klass).type = ValueType.Class
    · simp only [hk, ne_eq, not_true_eq_false, if_false] at hr
      cases hm : first_entry_met h name (own_tables h klass) with
      | some found => simp [hm] at hr
      | none =>
        simp only [hm] at hr
        cases hs : (h.cell klass).superclass with
        | none => simp [hs] at hr
        | some superclass =>
          simp only [hs] at hr
          exact ih superclass c f as hr
    · simp [hk] at hr

theorem first_entry_met_of_first_module (h : Heap) (name : String) (modules : List Ptr)
    (module : Ptr) (entry : Method) (hfirst : first_module_with h name modules = some module)
    (hentry : hashmap_get (h.cell module).methods name = some entry) :
    first_entry_met h name modules = some (entry, module) := by
  rw [← find_method_in_modules_eq_first_entry]
  exact find_method_in_modules_of_first h name modules module entry hfirst hentry

theorem first_entry_met_of_no_module (h : Heap) (name : String) (modules : List Ptr)
    (hnone : first_module_with h name modules = none) :
    first_entry_met h name modules = none := by
  rw [← find_method_in_modules_eq_first_entry]
  exact (find_method_in_modules_eq_none h name modules).mpr hnone

theorem own_tables_of_nil (h : Heap) (klass : Ptr)
    (hnil : (h.cell klass).included_modules = []) : own_tables h klass = [klass] := by
  simp [own_tables, hnil]

theorem own_tables_of_ne_nil (h : Heap) (klass : Ptr)
    (hne : (h.cell klass).included_modules ≠ []) :
    own_tables h klass = (h.cell klass).included_modules := by
  have hlen : ¬ (h.cell klass).included_modules.length = 0 := by
    simpa [List.length_eq_zero] using hne
  simp [own_tables, hlen]

/-! ## Resolver: claims -/

/-- C1. For a class `K` and a name `m`, `find_method` returns the entry of the
own table of `K` with `K` as defining module when `K` has no included modules
and its table holds `m`; else the entry of the first included module, in list
order, whose table holds `m`, with that module as defining module; else what
`find_method` returns on the superclass of `K`; and none when `K` has no
superclass. When the superclass chain of `K` ends within the fuel, a result is
returned. -/
theorem find_method_cases (fuel : Nat) (h : Heap) (K : Ptr) (m : String)
    (hK : (h.cell K).type = ValueType.Class) :
    (∀ entry, (h.cell K).included_modules = [] →
        hashmap_get (h.cell K).methods m = some entry →
        find_method (fuel + 1) h K m = Result.ok (some (entry, K)))
    ∧ (∀ M entry, first_module_with h m (h.cell K).included_modules = some M →
        hashmap_get (h.cell M).methods m = some entry →
        find_method (fuel + 1) h K m = Result.ok (some (entry, M)))
    ∧ (∀ S, ¬ ((h.cell K).included_modules = [] ∧ (hashmap_get (h.cell K).methods m).isSome) →
        first_module_with h m (h.cell K).included_modules = none →
        (h.cell K).superclass = some S →
        find_method (fuel + 1) h K m = find_method fuel h S m)
    ∧ (¬ ((h.cell K).included_modules = [] ∧ (hashmap_get (h.cell K).methods m).isSome) →
        first_module_with h m (h.cell K).included_modules = none →
        (h.cell K).superclass = none →
        find_method (fuel + 1) h K m = Result.ok none)
    ∧ (∀ chain, superclass_chain (fuel + 1) h K = some chain →
        (∀ c ∈ chain, (h.cell c).type = ValueType.Class) →
        ∃ r, find_method (fuel + 1) h K m = Result.ok r) := by
  refine ⟨?_, ?_, ?_, ?_, ?_⟩
  · intro entry hnil hown
    unfold find_method
    simp [hK, hnil, hown]
  · intro M entry hfirst hentry
    have hne : (h.cell K).included_modules ≠ [] := by
      intro hnil
      simp [hnil, first_module_with] at hfirst
    have hlen : ¬ (h.cell K).included_modules.length = 0 := by
      simpa [List.length_eq_zero] using hne
    unfold find_method
    simp [hK, hlen, find_method_in_modules_of_first h m _ M entry hfirst hentry]
  · intro S hown hfirst hsuper
    have hmods := (find_method_in_modules_eq_none h m _).mpr hfirst
    rw [find_method_succ]
    by_cases hlen : (h.cell K).included_modules.length = 0
    · have hnil : (h.cell K).included_modules = [] := List.length_eq_zero.mp hlen
      have hget : hashmap_get (h.cell K).methods m = none := by
        cases hg : hashmap_get (h.cell K).methods m with
        | none => rfl
        | some e => exact absurd ⟨hnil, by simp [hg]⟩ hown
      simp [hK, hlen, hget, hmods, hsuper]
    · simp [hK, hlen, hmods, hsuper]
  · intro hown hfirst hsuper
    have hmods := (find_method_in_modules_eq_none h m _).mpr hfirst
    rw [find_method_succ]
    by_cases hlen : (h.cell K).included_modules.length = 0
    · have hnil : (h.cell K).included_modules = [] := List.length_eq_zero.mp hlen
      have hget : hashmap_get (h.cell K).methods m = none := by
        cases hg : hashmap_get (h.cell K).methods m with
        | none => rfl
        | some e => exact absurd ⟨hnil, by simp [hg]⟩ hown
      simp [hK, hlen, hget, hmods, hsuper]
    · simp [hK, hlen, hmods, hsuper]
  · intro chain hc hty
    exact find_method_total (fuel + 1) h m K chain hc hty

/-- Witness of C1 on the example registry: `baz` on `B` (own table), `foo` on
`A` (module `M` first), `foo` on `B` (passed to the superclass `A`), `zzz` on
Object (none), and a result for `bar` on `B` within fuel 3. -/
theorem find_method_cases_witness :
    find_method 3 registry 8 "baz" = Result.ok (some ({ fn := 24 }, 8))
    ∧ find_method 3 registry 7 "foo" = Result.ok (some ({ fn := 22 }, 6))
    ∧ find_method 3 registry 8 "foo" = find_method 2 registry 7 "foo"
    ∧ find_method 3 registry 4 "zzz" = Result.ok none
    ∧ (∃ r, find_method 3 registry 8 "bar" = Result.ok r) :=
  ⟨(find_method_cases 2 registry 8 "baz" (by decide)).1 _ (by decide) (by decide),
   (find_method_cases 2 registry 7 "foo" (by decide)).2.1 6 _ (by decide) (by decide),
   (find_method_cases 2 registry 8 "foo" (by decide)).2.2.1 7 (by decide) (by decide) (by decide),
   (find_method_cases 2 registry 4 "zzz" (by decide)).2.2.2.1 (by decide) (by decide) (by decide),
   (find_method_cases 2 registry 8 "bar" (by decide)).2.2.2.2 [8, 7, 4] (by decide) (by decide)⟩

/-- C2. When the first entry for `m` met by the resolution walk from `K` (which
is what `find_method` returns) is marked undefined,
`find_method_without_undefined` returns none, whatever the tables further up
the chain hold; in every other case it returns what `find_method` returns. -/
theorem find_method_without_undefined_cases (fuel : Nat) (h : Heap) (K : Ptr) (m : String) :
    (∀ chain, superclass_chain fuel h K = some chain →
        (∀ c ∈ chain, (h.cell c).type = ValueType.Class) →
        find_method fuel h K m = Result.ok (first_entry_met h m (resolution_walk h chain)))
    ∧ (∀ entry M, find_method fuel h K m = Result.ok (some (entry, M)) →
        entry.undefined = true →
        find_method_without_undefined fuel h K m = Result.ok none)
    ∧ ((∀ entry M, find_method fuel h K m = Result.ok (some (entry, M)) →
          entry.undefined = false) →
        find_method_without_undefined fuel h K m = find_method fuel h K m) := by
  refine ⟨fun chain hc hty => find_method_eq_walk m h fuel K chain hc hty, ?_, ?_⟩
  · intro entry M hfound hundef
    simp [find_method_without_undefined, hfound, hundef]
  · intro hdef
    unfold find_method_without_undefined
    cases hfound : find_method fuel h K m with
    | ok found =>
      cases found with
      | none => rfl
      | some pair =>
        obtain ⟨entry, M⟩ := pair
        simp [hdef entry M hfound]
    | raise c f as => rfl
    | abort => rfl
    | exit st => rfl
    | fault => rfl
    | out_of_fuel => rfl

/-- Witness of C2: in `shadowed_registry` the walk from `A` first meets the
undefined marker of `A`, so the lookup without undefined entries returns none
although Object, further up, defines `foo`; from Object itself both lookups
return the definition. -/
theorem find_method_without_undefined_cases_witness :
    find_method 2 shadowed_registry 6 "foo"
        = Result.ok (first_entry_met shadowed_registry "foo"
            (resolution_walk shadowed_registry [6, 4]))
    ∧ hashmap_get (shadowed_registry.cell 4).methods "foo" = some { fn := 31 }
    ∧ find_method_without_undefined 2 shadowed_registry 6 "foo" = Result.ok none
    ∧ find_method_without_undefined 2 shadowed_registry 4 "foo"
        = find_method 2 shadowed_registry 4 "foo" :=
  ⟨(find_method_without_undefined_cases 2 shadowed_registry 6 "foo").1 [6, 4]
      (by decide) (by decide),
   by decide,
   (find_method_without_undefined_cases 2 shadowed_registry 6 "foo").2.1
      (method_from_fn 0) 6 (by decide) (by decide),
   (find_method_without_undefined_cases 2 shadowed_registry 4 "foo").2.2
      (by
        intro entry M hfound
        have hval : find_method 2 shadowed_registry 4 "foo"
            = Result.ok (some ({ fn := 31 }, 4)) := by decide
        rw [hval] at hfound
        cases hfound
        rfl)⟩

/-! ## Dispatcher: lemmas -/

theorem find_method_without_undefined_some (fuel : Nat) (h : Heap) (klass : Ptr) (name : String)
    (method : Method) (matching : Ptr) :
    find_method_without_undefined fuel h klass name = Result.ok (some (method, matching))
      ↔ find_method fuel h klass name = Result.ok (some (method, matching))
          ∧ method.undefined = false := by
  unfold find_method_without_undefined
  cases hfound : find_method fuel h klass name with
  | ok found =>
    cases found with
    | none => simp
    | some pair =>
      obtain ⟨e, D⟩ := pair
      cases hu : e.undefined with
      | true =>
        simp only [hu, if_true, Result.ok.injEq, Option.some.injEq, Prod.mk.injEq]
        constructor
        · intro hc; cases hc
        · rintro ⟨⟨he, _⟩, hm⟩
          rw [← he, hu] at hm
          cases hm
      | false =>
        simp only [hu, Bool.false_eq_true, if_false, Result.ok.injEq, Option.some.injEq,
          Prod.mk.injEq]
        constructor
        · rintro ⟨he, hD⟩
          exact ⟨⟨he, hD⟩, by rw [← he, hu]⟩
        · rintro ⟨⟨he, hD⟩, _⟩
          exact ⟨he, hD⟩
  | raise c f as => simp
  | abort => simp
  | exit st => simp
  | fault => simp
  | out_of_fuel => simp

theorem find_method_without_undefined_none (fuel : Nat) (h : Heap) (klass : Ptr)
    (name : String) :
    find_method_without_undefined fuel h klass name = Result.ok none
      ↔ find_method fuel h klass name = Result.ok none
          ∨ ∃ method matching, find_method fuel h klass name = Result.ok (some (method, matching))
              ∧ method.undefined = true := by
  unfold find_method_without_undefined
  cases hfound : find_method fuel h klass name with
  | ok found =>
    cases found with
    | none => simp
    | some pair =>
      obtain ⟨e, D⟩ := pair
      cases hu : e.undefined with
      | true =>
        simp only [hu, if_true, Result.ok.injEq, Option.some.injEq, Prod.mk.injEq, true_iff]
        exact Or.inr ⟨e, D, ⟨rfl, rfl⟩, hu⟩
      | false =>
        simp only [hu, Bool.false_eq_true, if_false, Result.ok.injEq, Option.some.injEq,
          Prod.mk.injEq]
        constructor
        · intro hc; cases hc
        · rintro (hc | ⟨e2, D2, ⟨he, _⟩, hm⟩)
          · cases hc
          · rw [← he, hu] at hm
            cases hm
  | raise c f as => simp
  | abort => simp
  | exit st => simp
  | fault => simp
  | out_of_fuel => simp

/-- What `call_method_on_class` does, read off the result of
`find_method_without_undefined` on the same class. -/
theorem call_method_on_class_cases (fuel : Nat) (h : Heap) (envp : EnvRef) (env : Env)
    (klass instance_class : Ptr) (name : String) (self : Ptr) (args : List Ptr)
    (block : Option Ptr) :
    (∀ method matching,
        find_method_without_undefined fuel h klass name = Result.ok (some (method, matching)) →
        ∃ e, call_method_on_class fuel h envp env klass instance_class name self args block
          = Result.ok { fn := method.fn, env := e, self := self, args := args, block := block })
    ∧ (find_method_without_undefined fuel h klass name = Result.ok none →
        call_method_on_class fuel h envp env klass instance_class name self args block
          = Result.raise "NoMethodError" "undefined method \x60%s\x27 for %v"
              [FormatArg.str name, FormatArg.value instance_class])
    ∧ (∀ call, call_method_on_class fuel h envp env klass instance_class name self args block
          = Result.ok call →
        ∃ method matching,
          find_method_without_undefined fuel h klass name = Result.ok (some (method, matching))
            ∧ call.fn = method.fn)
    ∧ (∀ c f as, call_method_on_class fuel h envp env klass instance_class name self args block
          = Result.raise c f as →
        c = "NoMethodError" ∧ find_method_without_undefined fuel h klass name = Result.ok none) := by
  refine ⟨?_, ?_, ?_, ?_⟩
  · intro method matching hfound
    obtain ⟨hfm, hdef⟩ := (find_method_without_undefined_some fuel h klass name method matching).mp hfound
    have hk := find_method_ok_class fuel h klass name _ hfm
    unfold call_method_on_class
    simp only [hk, hfm, hdef, ne_eq, not_true_eq_false, if_false, Bool.not_false, if_true]
    exact ⟨_, rfl⟩
  · intro hnone
    rcases (find_method_without_undefined_none fuel h klass name).mp hnone with
      hfm | ⟨method, matching, hfm, hundef⟩
    · have hk := find_method_ok_class fuel h klass name _ hfm
      simp [call_method_on_class, hk, hfm]
    · have hk := find_method_ok_class fuel h klass name _ hfm
      simp [call_method_on_class, hk, hfm, hundef]
  · intro call hcall
    unfold call_method_on_class at hcall
    by_cases hk : (h.cell klass).type = ValueType.Class
    · simp only [hk, ne_eq, not_true_eq_false, if_false] at hcall
      cases hfm : find_method fuel h klass name with
      | ok found =>
        cases found with
        | none => simp [hfm] at hcall
        | some pair =>
          obtain ⟨method, matching⟩ := pair
          cases hu : method.undefined with
          | true => simp [hfm, hu] at hcall
          | false =>
            simp only [hfm, hu, Bool.not_false, if_true, Result.ok.injEq] at hcall
            refine ⟨method, matching,
              (find_method_without_undefined_some fuel h klass name method matching).mpr ⟨hfm, hu⟩, ?_⟩
            rw [← hcall]
      | raise c f as => simp [hfm] at hcall
      | abort => simp [hfm] at hcall
      | exit st => simp [hfm] at hcall
      | fault => simp [hfm] at hcall
      | out_of_fuel => simp [hfm] at hcall
    · simp [hk] at hcall
  · intro c f as hraise
    unfold call_method_on_class at hraise
    by_cases hk : (h.cell klass).type = ValueType.Class
    · simp only [hk, ne_eq, not_true_eq_false, if_false] at hraise
      cases hfm : find_method fuel h klass name with
      | ok found =>
        cases found with
        | none =>
          simp only [hfm, Result.raise.injEq] at hraise
          exact ⟨hraise.1.symm,
            (find_method_without_undefined_none fuel h klass name).mpr (Or.inl hfm)⟩
        | some pair =>
          obtain ⟨method, matching⟩ := pair
          cases hu : method.undefined with
          | true =>
            simp only [hfm, hu, Bool.not_true, Bool.false_eq_true, if_false,
              Result.raise.injEq] at hraise
            exact ⟨hraise.1.symm,
              (find_method_without_undefined_none fuel h klass name).mpr
                (Or.inr ⟨method, matching, hfm, hu⟩)⟩
          | false => simp [hfm, hu] at hraise
      | raise c2 f2 as2 => exact (find_method_never_raises h name fuel klass c2 f2 as2 hfm).elim
      | abort => simp [hfm] at hraise
      | exit st => simp [hfm] at hraise
      | fault => simp [hfm] at hraise
      | out_of_fuel => simp [hfm] at hraise
    · simp [hk] at hraise

/-- The outcomes of `send` read off the lookup on the dispatch class, when the
class of `x` lies on the superclass chain of its singleton class. -/
theorem send_dispatch_cases (fuel : Nat) (h : Heap)
    (envp : EnvRef) (env : Env) (x : Ptr) (m : String) (args : List Ptr) (block : Option Ptr)
    (hsing : ∀ s, (h.cell x).type ≠ ValueType.Integer → (h.cell x).singleton_class = some s →
      ∃ n chain, superclass_chain n h s = some chain ∧ (h.cell x).klass ∈ chain) :
    (∀ M D, find_method_without_undefined fuel h (dispatch_class h x) m = Result.ok (some (M, D)) →
        ∃ e, send fuel h envp env x m args block
          = Result.ok { fn := M.fn, env := e, self := x, args := args, block := block })
    ∧ (∀ call, send fuel h envp env x m args block = Result.ok call →
        ∃ M D, find_method_without_undefined fuel h (dispatch_class h x) m
            = Result.ok (some (M, D)) ∧ call.fn = M.fn)
    ∧ (find_method_without_undefined fuel h (dispatch_class h x) m = Result.ok none →
        ∃ f as, send fuel h envp env x m args block = Result.raise "NoMethodError" f as)
    ∧ (∀ c f as, send fuel h envp env x m args block = Result.raise c f as →
        c = "NoMethodError"
          ∧ find_method_without_undefined fuel h (dispatch_class h x) m = Result.ok none) := by
  by_cases hint : (h.cell x).type = ValueType.Integer
  · have hS : dispatch_class h x = h.genv.Integer := by simp [dispatch_class, hint]
    have hsend : send fuel h envp env x m args block
        = call_method_on_class fuel h envp env h.genv.Integer h.genv.Integer m x args block := by
      simp [send, hint]
    rw [hS, hsend]
    obtain ⟨h1, h2, h3, h4⟩ := call_method_on_class_cases fuel h envp env h.genv.Integer
      h.genv.Integer m x args block
    exact ⟨h1, h3, fun hn => ⟨_, _, h2 hn⟩, h4⟩
  · cases hsc : (h.cell x).singleton_class with
    | none =>
      have hS : dispatch_class h x = (h.cell x).klass := by simp [dispatch_class, hint, hsc]
      have hsend : send fuel h envp env x m args block
          = call_method_on_class fuel h envp env (h.cell x).klass (h.cell x).klass m x args
              block := by
        simp [send, hint, hsc]
      rw [hS, hsend]
      obtain ⟨h1, h2, h3, h4⟩ := call_method_on_class_cases fuel h envp env (h.cell x).klass
        (h.cell x).klass m x args block
      exact ⟨h1, h3, fun hn => ⟨_, _, h2 hn⟩, h4⟩
    | some s =>
      have hS : dispatch_class h x = s := by simp [dispatch_class, hint, hsc]
      rw [hS]
      cases hfm : find_method fuel h s m with
      | ok found =>
        cases found with
        | none =>
          have hsend : send fuel h envp env x m args block
              = call_method_on_class fuel h envp env (h.cell x).klass (h.cell x).klass m x args
                  block := by
            simp [send, hint, hsc, hfm]
          obtain ⟨n, chain, hchain, hmem⟩ := hsing s hint hsc
          have hklass : find_method fuel h (h.cell x).klass m = Result.ok none :=
            find_method_none_on_chain h m fuel s n chain _ hfm hchain hmem
          have hs_none : find_method_without_undefined fuel h s m = Result.ok none :=
            (find_method_without_undefined_none fuel h s m).mpr (Or.inl hfm)
          have hk_none : find_method_without_undefined fuel h (h.cell x).klass m
              = Result.ok none :=
            (find_method_without_undefined_none fuel h _ m).mpr (Or.inl hklass)
          obtain ⟨_, h2, h3, _⟩ := call_method_on_class_cases fuel h envp env (h.cell x).klass
            (h.cell x).klass m x args block
          rw [hsend]
          refine ⟨?_, ?_, fun _ => ⟨_, _, h2 hk_none⟩, ?_⟩
          · intro M D hfound
            rw [hs_none] at hfound
            cases hfound
          · intro call hcall
            obtain ⟨M, D, hfound, _⟩ := h3 call hcall
            rw [hk_none] at hfound
            cases hfound
          · intro c f as hraise
            rw [h2 hk_none] at hraise
            cases hraise
            exact ⟨rfl, hs_none⟩
        | some pair =>
          obtain ⟨M0, D0⟩ := pair
          cases hu : M0.undefined with
          | true =>
            have hsend : send fuel h envp env x m args block
                = Result.raise "NoMethodError" "undefined method \x60%s\x27 for %s:Class"
                    [FormatArg.str m, FormatArg.str (h.cell x).class_name] := by
              simp [send, hint, hsc, hfm, hu]
            have hs_none : find_method_without_undefined fuel h s m = Result.ok none :=
              (find_method_without_undefined_none fuel h s m).mpr (Or.inr ⟨M0, D0, hfm, hu⟩)
            rw [hsend]
            refine ⟨?_, ?_, fun _ => ⟨_, _, rfl⟩, ?_⟩
            · intro M D hfound
              rw [hs_none] at hfound
              cases hfound
            · intro call hcall
              cases hcall
            · intro c f as hraise
              cases hraise
              exact ⟨rfl, hs_none⟩
          | false =>
            have hsend : send fuel h envp env x m args block
                = call_method_on_class fuel h envp env s (h.cell x).klass m x args block := by
              simp [send, hint, hsc, hfm, hu]
            rw [hsend]
            obtain ⟨h1, h2, h3, h4⟩ := call_method_on_class_cases fuel h envp env s
              (h.cell x).klass m x args block
            exact ⟨h1, h3, fun hn => ⟨_, _, h2 hn⟩, h4⟩
      | raise c0 f0 as0 => exact (find_method_never_raises h m fuel s c0 f0 as0 hfm).elim
      | abort =>
        have hsend : send fuel h envp env x m args block = Result.abort := by
          simp [send, hint, hsc, hfm]
        have hlook : find_method_without_undefined fuel h s m = Result.abort := by
          simp [find_method_without_undefined, hfm]
        rw [hsend, hlook]
        exact ⟨fun _ _ hc => (by cases hc), fun _ hc => (by cases hc), fun hc => (by cases hc),
          fun _ _ _ hc => (by cases hc)⟩
      | exit st =>
        have hsend : send fuel h envp env x m args block = Result.exit st := by
          simp [send, hint, hsc, hfm]
        have hlook : find_method_without_undefined fuel h s m = Result.exit st := by
          simp [find_method_without_undefined, hfm]
        rw [hsend, hlook]
        exact ⟨fun _ _ hc => (by cases hc), fun _ hc => (by cases hc), fun hc => (by cases hc),
          fun _ _ _ hc => (by cases hc)⟩
      | fault =>
        have hsend : send fuel h envp env x m args block = Result.fault := by
          simp [send, hint, hsc, hfm]
        have hlook : find_method_without_undefined fuel h s m = Result.fault := by
          simp [find_method_without_undefined, hfm]
        rw [hsend, hlook]
        exact ⟨fun _ _ hc => (by cases hc), fun _ hc => (by cases hc), fun hc => (by cases hc),
          fun _ _ _ hc => (by cases hc)⟩
      | out_of_fuel =>
        have hsend : send fuel h envp env x m args block = Result.out_of_fuel := by
          simp [send, hint, hsc, hfm]
        have hlook : find_method_without_undefined fuel h s m = Result.out_of_fuel := by
          simp [find_method_without_undefined, hfm]
        rw [hsend, hlook]
        exact ⟨fun _ _ hc => (by cases hc), fun _ hc => (by cases hc), fun hc => (by cases hc),
          fun _ _ _ hc => (by cases hc)⟩

/-! ## Dispatcher: claims -/

/-- C3. Let `S` be the Integer class when `x` is an Integer, the singleton
class of `x` when it has one, and the class of `x` otherwise, the class of `x`
lying on the superclass chain of its singleton class. Then `send` invokes the
function of the record `M` exactly when `find_method_without_undefined` on `S`
returns `M`, and raises `NoMethodError` exactly when it returns none; one of
the two happens whenever the superclass chain of `S` ends within the fuel. -/
theorem send_resolves_like_find_method_without_undefined (fuel : Nat) (h : Heap)
    (envp : EnvRef) (env : Env) (x : Ptr) (m : String) (args : List Ptr) (block : Option Ptr)
    (hsing : ∀ s, (h.cell x).type ≠ ValueType.Integer → (h.cell x).singleton_class = some s →
      ∃ n chain, superclass_chain n h s = some chain ∧ (h.cell x).klass ∈ chain) :
    (∀ M D, find_method_without_undefined fuel h (dispatch_class h x) m = Result.ok (some (M, D)) →
        ∃ e, send fuel h envp env x m args block
          = Result.ok { fn := M.fn, env := e, self := x, args := args, block := block })
    ∧ (∀ call, send fuel h envp env x m args block = Result.ok call →
        ∃ M D, find_method_without_undefined fuel h (dispatch_class h x) m
            = Result.ok (some (M, D)) ∧ call.fn = M.fn)
    ∧ (find_method_without_undefined fuel h (dispatch_class h x) m = Result.ok none →
        ∃ f as, send fuel h envp env x m args block = Result.raise "NoMethodError" f as)
    ∧ (∀ c f as, send fuel h envp env x m args block = Result.raise c f as →
        c = "NoMethodError"
          ∧ find_method_without_undefined fuel h (dispatch_class h x) m = Result.ok none)
    ∧ (∀ chain, superclass_chain fuel h (dispatch_class h x) = some chain →
        (∀ c ∈ chain, (h.cell c).type = ValueType.Class) →
        (∃ call, send fuel h envp env x m args block = Result.ok call)
          ∨ ∃ f as, send fuel h envp env x m args block = Result.raise "NoMethodError" f as) := by
  obtain ⟨hinvoke, hinvoked, hraise, hraised⟩ :=
    send_dispatch_cases fuel h envp env x m args block hsing
  refine ⟨hinvoke, hinvoked, hraise, hraised, ?_⟩
  intro chain hchain hty
  obtain ⟨r, hr⟩ := find_method_total fuel h m (dispatch_class h x) chain hchain hty
  cases r with
  | none =>
    exact Or.inr (hraise ((find_method_without_undefined_none fuel h _ m).mpr (Or.inl hr)))
  | some pair =>
    obtain ⟨M, D⟩ := pair
    cases hu : M.undefined with
    | true =>
      exact Or.inr (hraise ((find_method_without_undefined_none fuel h _ m).mpr
        (Or.inr ⟨M, D, hr, hu⟩)))
    | false =>
      obtain ⟨e, he⟩ := hinvoke M D
        ((find_method_without_undefined_some fuel h _ m M D).mpr ⟨hr, hu⟩)
      exact Or.inl ⟨_, he⟩

/-- Witness of C3 on `singleton_registry`, for the value at `8` whose singleton
class `7` has superclass `A`: `baz` is found on the singleton class and its
function `43` is invoked; `zzz` is found nowhere and `NoMethodError` is
raised. -/
theorem send_resolves_like_find_method_without_undefined_witness :
    (∃ e, send 3 singleton_registry (EnvRef.frame 0) {} 8 "baz" [] none
        = Result.ok { fn := 43, env := e, self := 8, args := [], block := none })
    ∧ (∃ f as, send 3 singleton_registry (EnvRef.frame 0) {} 8 "zzz" [] none
        = Result.raise "NoMethodError" f as) :=
  ⟨(send_resolves_like_find_method_without_undefined 3 singleton_registry (EnvRef.frame 0) {} 8
      "baz" [] none
      (fun _ _ hs => ⟨3, [7, 6, 4],
        (by
          have hcell : (singleton_registry.cell 8).singleton_class = some 7 := by decide
          rw [hcell] at hs
          cases hs
          decide),
        (by decide)⟩)).1 { fn := 43 } 7 (by decide),
   (send_resolves_like_find_method_without_undefined 3 singleton_registry (EnvRef.frame 0) {} 8
      "zzz" [] none
      (fun _ _ hs => ⟨3, [7, 6, 4],
        (by
          have hcell : (singleton_registry.cell 8).singleton_class = some 7 := by decide
          rw [hcell] at hs
          cases hs
          decide),
        (by decide)⟩)).2.2.1 (by decide)⟩

/-! ## Registry: lemmas -/

theorem hashmap_get_put (methods : List (String × Method)) (name : String) (method : Method) :
    hashmap_get (hashmap_put methods name method) name = some method := by
  simp [hashmap_put, hashmap_get]

theorem undefine_method_cell (h : Heap) (A : Ptr) (m : String)
    (hmain : h.genv.is_main_object A = false) (q : Ptr) :
    (undefine_method h A m).cell q =
      if q = A then
        { h.cell A with
          methods := hashmap_put (hashmap_remove (h.cell A).methods m) m (method_from_fn 0) }
      else h.cell q := by
  simp [undefine_method, define_method, hmain, Heap.write]

theorem undefine_method_genv (h : Heap) (A : Ptr) (m : String) :
    (undefine_method h A m).genv = h.genv := by
  simp [undefine_method, define_method, Heap.write]

theorem undefine_method_header (h : Heap) (A : Ptr) (m : String)
    (hmain : h.genv.is_main_object A = false) (q : Ptr) :
    ((undefine_method h A m).cell q).type = (h.cell q).type
    ∧ ((undefine_method h A m).cell q).klass = (h.cell q).klass
    ∧ ((undefine_method h A m).cell q).singleton_class = (h.cell q).singleton_class
    ∧ ((undefine_method h A m).cell q).included_modules = (h.cell q).included_modules
    ∧ ((undefine_method h A m).cell q).superclass = (h.cell q).superclass := by
  rw [undefine_method_cell h A m hmain q]
  by_cases hq : q = A
  · subst hq
    simp
  · simp [hq]

theorem undefine_method_own_entry (h : Heap) (A : Ptr) (m : String)
    (hmain : h.genv.is_main_object A = false) :
    hashmap_get ((undefine_method h A m).cell A).methods m = some (method_from_fn 0) := by
  rw [undefine_method_cell h A m hmain A]
  simp [hashmap_get_put]

theorem undefine_method_first_entry (h : Heap) (A : Ptr) (m : String)
    (hmain : h.genv.is_main_object A = false) (post : List Ptr) :
    ∀ pre : List Ptr, (∀ M ∈ pre, hashmap_get (h.cell M).methods m = none) →
      first_entry_met (undefine_method h A m) m (pre ++ A :: post)
        = some (method_from_fn 0, A) := by
  intro pre
  induction pre with
  | nil =>
    intro _
    simp [first_entry_met, List.findSome?_cons, undefine_method_own_entry h A m hmain]
  | cons M rest ih =>
    intro hpre
    have hrest := ih (fun M' hM' => hpre M' (List.mem_cons_of_mem _ hM'))
    by_cases hMA : M = A
    · subst hMA
      simp [first_entry_met, List.findSome?_cons, undefine_method_own_entry h M m hmain]
    · have hcell : (undefine_method h A m).cell M = h.cell M := by
        rw [undefine_method_cell h A m hmain M]
        simp [hMA]
      have hnone : hashmap_get (h.cell M).methods m = none := hpre M (by simp)
      simp only [first_entry_met, List.cons_append, List.findSome?_cons, hcell, hnone,
        Option.map_none'] at hrest ⊢
      exact hrest

/-- After `undefine_method` on a class whose own table is the first that the
resolution walk reads an entry from, `find_method` returns the undefined
marker. -/
theorem find_method_after_undefine (fuel : Nat) (h : Heap) (A : Ptr) (m : String)
    (hA : (h.cell A).type = ValueType.Class) (hmain : h.genv.is_main_object A = false)
    (hwalk : (h.cell A).included_modules = []
      ∨ ∃ pre post, (h.cell A).included_modules = pre ++ A :: post
          ∧ ∀ M ∈ pre, hashmap_get (h.cell M).methods m = none) :
    find_method (fuel + 1) (undefine_method h A m) A m
      = Result.ok (some (method_from_fn 0, A)) := by
  obtain ⟨hty, _, _, hinc, _⟩ := undefine_method_header h A m hmain A
  rw [find_method_step]
  simp only [hty, hA, ne_eq, not_true_eq_false, if_false]
  have hfirst : first_entry_met (undefine_method h A m) m (own_tables (undefine_method h A m) A)
      = some (method_from_fn 0, A) := by
    rcases hwalk with hnil | ⟨pre, post, hlist, hpre⟩
    · have := undefine_method_first_entry h A m hmain [] [] (by simp)
      simpa [own_tables, hinc, hnil] using this
    · have hlen : ¬ (pre ++ A :: post).length = 0 := by simp
      have := undefine_method_first_entry h A m hmain post pre hpre
      simpa [own_tables, hinc, hlist, hlen] using this
  rw [hfirst]

/-! ## Registry: claims -/

/-- C4, counterexample. In the example registry class `A` (address `7`) includes
module `M`, which defines `foo`, and the list does not contain `A`; the value
at `10` is an instance of `A` without singleton class. After
`undefine_method(A, foo)` the marker sits in the own table of `A`, which the
walk does not read: `respond_to` is true and `send` invokes the function `22`
of `M`. -/
theorem undefine_method_unseen_behind_modules :
    (registry.cell 10).klass = 7
    ∧ (registry.cell 10).singleton_class = none
    ∧ (registry.cell 7).included_modules = [6]
    ∧ hashmap_get ((undefine_method registry 7 "foo").cell 7).methods "foo"
        = some (method_from_fn 0)
    ∧ respond_to 3 (undefine_method registry 7 "foo") 10 "foo" = Result.ok true
    ∧ (send 3 (undefine_method registry 7 "foo") (EnvRef.frame 0) {} 10 "foo" [] none).bind
        (fun call => Result.ok call.fn) = Result.ok 22 := by
  decide

/-- C4, amended. For a class `A` whose included-module list is empty, or lists
`A` itself with no entry for `m` in the modules listed before it, and
an instance `x` of `A` without singleton class: after `undefine_method(A, m)`,
`respond_to(x, m)` is false and `send(x, m)` raises `NoMethodError`, whatever
the superclasses of `A` and the modules listed after `A` define for `m`. -/
theorem undefine_method_blocks_dispatch (fuel : Nat) (h : Heap) (envp : EnvRef) (env : Env)
    (A x : Ptr) (m : String) (args : List Ptr) (block : Option Ptr)
    (hA : (h.cell A).type = ValueType.Class) (hmain : h.genv.is_main_object A = false)
    (hx : (h.cell x).klass = A) (hsingle : (h.cell x).singleton_class = none)
    (hint : (h.cell x).type = ValueType.Integer → h.genv.Integer = A)
    (hwalk : (h.cell A).included_modules = []
      ∨ ∃ pre post, (h.cell A).included_modules = pre ++ A :: post
          ∧ ∀ M ∈ pre, hashmap_get (h.cell M).methods m = none) :
    respond_to (fuel + 1) (undefine_method h A m) x m = Result.ok false
    ∧ send (fuel + 1) (undefine_method h A m) envp env x m args block
        = Result.raise "NoMethodError" "undefined method \x60%s\x27 for %v"
            [FormatArg.str m, FormatArg.value A] := by
  have hfm := find_method_after_undefine fuel h A m hA hmain hwalk
  have hmarker : (method_from_fn 0).undefined = true := by simp [method_from_fn]
  have hlook : find_method_without_undefined (fuel + 1) (undefine_method h A m) A m
      = Result.ok none :=
    (find_method_without_undefined_none _ _ A m).mpr (Or.inr ⟨_, _, hfm, hmarker⟩)
  obtain ⟨hty, hkl, hsc, _, _⟩ := undefine_method_header h A m hmain x
  have hgenv := undefine_method_genv h A m
  have hcall := (call_method_on_class_cases (fuel + 1) (undefine_method h A m) envp env A A m x
    args block).2.1 hlook
  by_cases hI : (h.cell x).type = ValueType.Integer
  · have hIA := hint hI
    constructor
    · simp [respond_to, hty, hI, hgenv, hIA, hlook, Result.bind]
    · simp only [send, hty, hI, hgenv, hIA, if_true]
      exact hcall
  · constructor
    · simp [respond_to, hty, hI, hkl, hsc, hx, hsingle, hlook, Result.bind]
    · simp only [send, hty, hI, hkl, hsc, hx, hsingle, if_false]
      exact hcall

/-- Witness of C4, amended: in `shadowed_registry` the class Object (address
`4`) has no included modules and defines `foo`, and the value at `0` is
an instance of it; in `self_listed_registry` class `A` (address `7`) lists
`[A, M]`, both defining `foo`, and `8` is an instance of `A`. -/
theorem undefine_method_blocks_dispatch_witness :
    (respond_to 2 (undefine_method shadowed_registry 4 "foo") 0 "foo" = Result.ok false
      ∧ send 2 (undefine_method shadowed_registry 4 "foo") (EnvRef.frame 0) {} 0 "foo" [] none
          = Result.raise "NoMethodError" "undefined method \x60%s\x27 for %v"
              [FormatArg.str "foo", FormatArg.value 4])
    ∧ (respond_to 2 (undefine_method self_listed_registry 7 "foo") 8 "foo" = Result.ok false
      ∧ send 2 (undefine_method self_listed_registry 7 "foo") (EnvRef.frame 0) {} 8 "foo" []
            none
          = Result.raise "NoMethodError" "undefined method \x60%s\x27 for %v"
              [FormatArg.str "foo", FormatArg.value 7]) :=
  ⟨undefine_method_blocks_dispatch 1 shadowed_registry (EnvRef.frame 0) {} 4 0 "foo" [] none
      (by decide) (by decide) (by decide) (by decide) (by decide) (Or.inl (by decide)),
   undefine_method_blocks_dispatch 1 self_listed_registry (EnvRef.frame 0) {} 7 8 "foo" [] none
      (by decide) (by decide) (by decide) (by decide) (by decide)
      (Or.inr ⟨[], [6], (by decide), (by simp)⟩)⟩

/-- C5, counterexample. In `marker_registry` class `A` (address `8`) defines
`foo` and includes `[U, M]`; `U` carries an undefined marker for `foo` and `M`
is the first included module that defines `foo`. The walk stops at the marker
of `U`: `send` on the instance at `9` raises `NoMethodError` and invokes
neither the function `52` of `M` nor any other. -/
theorem send_stops_at_marker_of_earlier_module :
    (marker_registry.cell 9).klass = 8
    ∧ (marker_registry.cell 9).singleton_class = none
    ∧ (marker_registry.cell 8).included_modules = [6, 7]
    ∧ hashmap_get (marker_registry.cell 8).methods "foo" = some { fn := 51 }
    ∧ first_module_defining marker_registry "foo" [6, 7] = some 7
    ∧ hashmap_get (marker_registry.cell 7).methods "foo" = some { fn := 52 }
    ∧ first_module_with marker_registry "foo" [6, 7] = some 6
    ∧ send 3 marker_registry (EnvRef.frame 0) {} 9 "foo" [] none
        = Result.raise "NoMethodError" "undefined method \x60%s\x27 for %v"
            [FormatArg.str "foo", FormatArg.value 8] := by
  decide

/-- C5, amended. For a class `A` and a name `m`, let `M` be the first included
module of `A` whose table holds an entry for `m`, that entry being a
definition and not an undefined marker. Then `send` on an instance of `A`
without singleton class invokes the function of the entry of `M`, with the
closure env taken from `M`, whatever the own table of `A` holds for `m`. -/
theorem send_prefers_included_module (fuel : Nat) (h : Heap) (envp : EnvRef) (env : Env)
    (A x M : Ptr) (m : String) (entry : Method) (args : List Ptr) (block : Option Ptr)
    (hA : (h.cell A).type = ValueType.Class)
    (hx : (h.cell x).klass = A) (hsingle : (h.cell x).singleton_class = none)
    (hint : (h.cell x).type = ValueType.Integer → h.genv.Integer = A)
    (hfirst : first_module_with h m (h.cell A).included_modules = some M)
    (hentry : hashmap_get (h.cell M).methods m = some entry)
    (hdef : entry.undefined = false) :
    ∃ e, send (fuel + 1) h envp env x m args block
        = Result.ok { fn := entry.fn, env := e, self := x, args := args, block := block }
      ∧ e.outer = some (if NAT_OBJ_HAS_ENV entry then EnvRef.method_env M m
                        else EnvRef.module_env M) := by
  have hne : (h.cell A).included_modules ≠ [] := by
    intro hnil
    simp [hnil, first_module_with] at hfirst
  have hfm : find_method (fuel + 1) h A m = Result.ok (some (entry, M)) := by
    rw [find_method_step]
    simp [hA, own_tables_of_ne_nil h A hne, first_entry_met_of_first_module h m _ M entry hfirst hentry]
  have hcall : ∃ e, call_method_on_class (fuel + 1) h envp env A A m x args block
        = Result.ok { fn := entry.fn, env := e, self := x, args := args, block := block }
      ∧ e.outer = some (if NAT_OBJ_HAS_ENV entry then EnvRef.method_env M m
                        else EnvRef.module_env M) := by
    unfold call_method_on_class
    simp only [hA, hfm, hdef, ne_eq, not_true_eq_false, if_false, Bool.not_false, if_true]
    refine ⟨_, rfl, ?_⟩
    by_cases henv : NAT_OBJ_HAS_ENV entry = true
    · simp [henv, new_block_env]
    · simp [henv, new_block_env]
  by_cases hI : (h.cell x).type = ValueType.Integer
  · have hIA := hint hI
    simp only [send, hI, hIA, if_true]
    exact hcall
  · simp only [send, hI, hx, hsingle, if_false]
    exact hcall

/-- Witness of C5, amended, on the example registry: class `A` (address `7`)
has `foo` in its own table (function `21`) and includes `M`, which defines
`foo` (function `22`); `send` on the instance at `10` invokes `22` with the env
of `M` as closure env. -/
theorem send_prefers_included_module_witness :
    ∃ e, send 3 registry (EnvRef.frame 0) {} 10 "foo" [] none
        = Result.ok { fn := 22, env := e, self := 10, args := [], block := none }
      ∧ e.outer = some (EnvRef.module_env 6) :=
  send_prefers_included_module 2 registry (EnvRef.frame 0) {} 7 10 6 "foo" { fn := 22 } [] none
    (by decide) (by decide) (by decide) (by decide) (by decide) (by decide) (by decide)

/-- C6, counterexample. In the example registry the class at `11` holds a
non-undefined entry for `bar` in its own table, its included-module list `[M]`
is non-empty and does not contain the class, and `M` holds no entry for `bar`;
`find_method` returns none and not the own entry. -/
theorem find_method_skips_own_table_behind_modules :
    (registry.cell 11).type = ValueType.Class
    ∧ hashmap_get (registry.cell 11).methods "bar" = some { fn := 25 }
    ∧ ({ fn := 25 } : Method).undefined = false
    ∧ (registry.cell 11).included_modules = [6]
    ∧ first_module_with registry "bar" (registry.cell 11).included_modules = none
    ∧ find_method 3 registry 11 "bar" = Result.ok none
    ∧ find_method 3 registry 11 "bar" ≠ Result.ok (some ({ fn := 25 }, 11)) := by
  decide

/-- The own entry of `K` is the first entry met in a list that holds `K` after
modules without an entry for `m`. -/
theorem first_entry_met_of_listed (h : Heap) (K : Ptr) (m : String) (entry : Method)
    (hown : hashmap_get (h.cell K).methods m = some entry) (post : List Ptr) :
    ∀ pre : List Ptr, (∀ M ∈ pre, hashmap_get (h.cell M).methods m = none) →
      first_entry_met h m (pre ++ K :: post) = some (entry, K) := by
  intro pre
  induction pre with
  | nil =>
    intro _
    simp [first_entry_met, List.findSome?_cons, hown]
  | cons M rest ih =>
    intro hpre
    have hrest := ih (fun M' hM' => hpre M' (List.mem_cons_of_mem _ hM'))
    have hnone : hashmap_get (h.cell M).methods m = none := hpre M (by simp)
    simp only [first_entry_met, List.cons_append, List.findSome?_cons, hnone,
      Option.map_none'] at hrest ⊢
    exact hrest

/-- C6, amended. For a class `K` whose own table holds an entry for `m`,
`find_method` returns that entry with defining module `K` when the
included-module list of `K` is empty, and when the list contains `K` itself and
no module listed before `K` holds an entry for `m`. -/
theorem find_method_own_table_cases (fuel : Nat) (h : Heap) (K : Ptr) (m : String)
    (entry : Method) (hK : (h.cell K).type = ValueType.Class)
    (hown : hashmap_get (h.cell K).methods m = some entry)
    (hwalk : (h.cell K).included_modules = []
      ∨ ∃ pre post, (h.cell K).included_modules = pre ++ K :: post
          ∧ ∀ M ∈ pre, hashmap_get (h.cell M).methods m = none) :
    find_method (fuel + 1) h K m = Result.ok (some (entry, K)) := by
  rw [find_method_step]
  rcases hwalk with hnil | ⟨pre, post, hlist, hpre⟩
  · simp [hK, own_tables_of_nil h K hnil, first_entry_met, hown]
  · have hne : (h.cell K).included_modules ≠ [] := by
      rw [hlist]
      simp
    rw [own_tables_of_ne_nil h K hne, hlist,
      first_entry_met_of_listed h K m entry hown post pre hpre]
    simp [hK]

/-- Witness of C6, amended. In the example registry class `B` (address `8`) has
no included modules and `baz` in its own table; in `self_listed_registry` class
`A` (address `7`) lists `[A, M]` and has `foo` in its own table, which
`find_method` returns although `M` defines `foo` too. -/
theorem find_method_own_table_cases_witness :
    find_method 3 registry 8 "baz" = Result.ok (some ({ fn := 24 }, 8))
    ∧ find_method 3 self_listed_registry 7 "foo" = Result.ok (some ({ fn := 61 }, 7)) :=
  ⟨find_method_own_table_cases 2 registry 8 "baz" { fn := 24 } (by decide) (by decide)
      (Or.inl (by decide)),
   find_method_own_table_cases 2 self_listed_registry 7 "foo" { fn := 61 } (by decide)
      (by decide) (Or.inr ⟨[], [6], (by decide), (by simp)⟩)⟩

/-! ## Ancestors: lemmas -/

theorem superclass_chain_succ (fuel : Nat) (h : Heap) (klass : Ptr) :
    superclass_chain (fuel + 1) h klass =
      match (h.cell klass).superclass with
      | some superclass => (superclass_chain fuel h superclass).map fun rest => klass :: rest
      | none => some [klass] := by
  rw [superclass_chain]

theorem superclass_chain_unique (h : Heap) :
    ∀ (n n' : Nat) (klass : Ptr) (c c' : List Ptr),
      superclass_chain n h klass = some c → superclass_chain n' h klass = some c' → c = c' := by
  intro n
  induction n with
  | zero => intro n' klass c c' hc; simp [superclass_chain] at hc
  | succ n ih =>
    intro n' klass c c' hc hc'
    cases n' with
    | zero => simp [superclass_chain] at hc'
    | succ n' =>
      rw [superclass_chain_succ] at hc hc'
      cases hs : (h.cell klass).superclass with
      | none =>
        rw [hs] at hc hc'
        cases hc
        cases hc'
        rfl
      | some superclass =>
        rw [hs] at hc hc'
        cases hr : superclass_chain n h superclass with
        | none => simp [hr] at hc
        | some rest =>
          cases hr' : superclass_chain n' h superclass with
          | none => simp [hr'] at hc'
          | some rest' =>
            simp only [hr, hr', Option.map_some', Option.some.injEq] at hc hc'
            rw [← hc, ← hc', ih n' superclass rest rest' hr hr']

theorem superclass_chain_tail (h : Heap) :
    ∀ (n : Nat) (klass : Ptr) (c : List Ptr), superclass_chain n h klass = some c →
      ∃ rest, c = klass :: rest
        ∧ ∀ k ∈ rest, ∃ n' c', superclass_chain n' h k = some c' ∧ c'.length < c.length := by
  intro n
  induction n with
  | zero => intro klass c hc; simp [superclass_chain] at hc
  | succ n ih =>
    intro klass c hc
    rw [superclass_chain_succ] at hc
    cases hs : (h.cell klass).superclass with
    | none =>
      rw [hs] at hc
      cases hc
      exact ⟨[], rfl, by simp⟩
    | some superclass =>
      rw [hs] at hc
      cases hr : superclass_chain n h superclass with
      | none => simp [hr] at hc
      | some rest =>
        simp only [hr, Option.map_some', Option.some.injEq] at hc
        subst hc
        obtain ⟨rest', hrest, htail⟩ := ih superclass rest hr
        refine ⟨rest, rfl, ?_⟩
        intro k hk
        rw [hrest] at hk
        rcases List.mem_cons.mp hk with hks | hkr
        · subst hks
          exact ⟨n, rest, hr, by simp⟩
        · obtain ⟨n', c', hc', hlt⟩ := htail k hkr
          exact ⟨n', c', hc', by simp only [List.length_cons]; omega⟩

theorem superclass_chain_head_once (h : Heap) (n : Nat) (klass : Ptr) (c : List Ptr)
    (hc : superclass_chain n h klass = some c) :
    ∃ rest, c = klass :: rest ∧ klass ∉ rest := by
  obtain ⟨rest, hrest, htail⟩ := superclass_chain_tail h n klass c hc
  refine ⟨rest, hrest, ?_⟩
  intro hmem
  obtain ⟨n', c', hc', hlt⟩ := htail klass hmem
  have := superclass_chain_unique h n n' klass c c' hc hc'
  rw [this] at hlt
  exact Nat.lt_irrefl _ hlt

theorem class_ancestors_loop_eq_walk (h : Heap) :
    ∀ (fuel : Nat) (klass : Ptr) (chain : List Ptr), superclass_chain fuel h klass = some chain →
      class_ancestors_loop fuel h klass = Result.ok (resolution_walk h chain) := by
  intro fuel
  induction fuel with
  | zero => intro klass chain hc; simp [superclass_chain] at hc
  | succ fuel ih =>
    intro klass chain hc
    rw [superclass_chain_succ] at hc
    unfold class_ancestors_loop
    cases hs : (h.cell klass).superclass with
    | none =>
      rw [hs] at hc
      cases hc
      simp [resolution_walk, own_tables]
    | some superclass =>
      rw [hs] at hc
      cases hr : superclass_chain fuel h superclass with
      | none => simp [hr] at hc
      | some rest =>
        simp only [hr, Option.map_some', Option.some.injEq] at hc
        subst hc
        simp [ih superclass rest hr, Result.bind, resolution_walk, own_tables]

theorem own_tables_ne_nil (h : Heap) (klass : Ptr) : own_tables h klass ≠ [] := by
  by_cases hnil : (h.cell klass).included_modules = []
  · simp [own_tables_of_nil h klass hnil]
  · rw [own_tables_of_ne_nil h klass hnil]
    exact hnil

theorem own_tables_getLast (h : Heap) (klass : Ptr) :
    (own_tables h klass).getLast? =
      if (h.cell klass).included_modules = [] then some klass
      else (h.cell klass).included_modules.getLast? := by
  by_cases hnil : (h.cell klass).included_modules = []
  · simp [own_tables_of_nil h klass hnil, hnil]
  · simp [own_tables_of_ne_nil h klass hnil, hnil]

theorem resolution_walk_getLast (h : Heap) :
    ∀ (chain : List Ptr) (top : Ptr), chain.getLast? = some top →
      (resolution_walk h chain).getLast? = (own_tables h top).getLast? := by
  intro chain
  induction chain with
  | nil => intro top ht; simp at ht
  | cons klass rest ih =>
    intro top ht
    cases rest with
    | nil =>
      simp only [List.getLast?_singleton, Option.some.injEq] at ht
      subst ht
      simp [resolution_walk]
    | cons next rest' =>
      have ht' : (next :: rest').getLast? = some top := by
        simpa [List.getLast?_cons_cons] using ht
      have hrec := ih top ht'
      have hne : resolution_walk h (next :: rest') ≠ [] := by
        intro hnil
        rw [hnil] at hrec
        have := own_tables_ne_nil h top
        simp only [List.getLast?_nil] at hrec
        exact this (List.getLast?_eq_none_iff.mp hrec.symm)
      rw [resolution_walk, List.getLast?_append_of_ne_nil _ hne]
      exact hrec

theorem resolution_walk_count_zero (h : Heap) (K : Ptr) :
    ∀ chain : List Ptr, K ∉ chain → (∀ c ∈ chain, K ∉ (h.cell c).included_modules) →
      (resolution_walk h chain).count K = 0 := by
  intro chain
  induction chain with
  | nil => intro _ _; simp [resolution_walk]
  | cons klass rest ih =>
    intro hnot hinc
    have hne : K ≠ klass := fun hk => hnot (by simp [hk])
    have hrest := ih (fun hm => hnot (List.mem_cons_of_mem _ hm))
      (fun c hc => hinc c (List.mem_cons_of_mem _ hc))
    have hown : (own_tables h klass).count K = 0 := by
      rw [List.count_eq_zero]
      by_cases hnil : (h.cell klass).included_modules = []
      · rw [own_tables_of_nil h klass hnil]
        simpa using hne
      · rw [own_tables_of_ne_nil h klass hnil]
        exact hinc klass (by simp)
    rw [resolution_walk, List.count_append, hown, hrest]

/-! ## Ancestors: claims -/

/-- C7, counterexample. In the example registry the class at `11` has no
superclass, so it is the top class of its own chain, and it includes `M`
(address `6`): `class_ancestors` yields `[M]`, which does not contain the
class and whose last element is `M`. -/
theorem class_ancestors_omits_class_with_modules :
    superclass_chain 3 registry 11 = some [11]
    ∧ (class_ancestors 3 registry 11).bind
        (fun r => Result.ok ((r.1.cell r.2).ary, (r.1.cell r.2).ary.count 11,
          (r.1.cell r.2).ary.getLast?))
        = Result.ok ([6], 0, some 6) := by
  decide

/-- C7, amended. For every class `K` whose superclass chain ends,
`class_ancestors` returns a new array whose last element is the top class of
the chain when that class has no included modules, and the last included
module of the top class otherwise. The array contains `K` exactly once when the
included-module list of `K` is empty or contains `K` exactly once, and no other
class of the chain lists `K` among its included modules. -/
theorem class_ancestors_contents (fuel : Nat) (h : Heap) (K top : Ptr) (chain : List Ptr)
    (hchain : superclass_chain fuel h K = some chain)
    (htop : chain.getLast? = some top) :
    ∃ h1 p, class_ancestors fuel h K = Result.ok (h1, p)
      ∧ p = h.next
      ∧ (h1.cell p).type = ValueType.Array
      ∧ (h1.cell p).ary.getLast? =
          (if (h.cell top).included_modules = [] then some top
           else (h.cell top).included_modules.getLast?)
      ∧ (((h.cell K).included_modules = [] ∨ (h.cell K).included_modules.count K = 1) →
          (∀ c ∈ chain, c ≠ K → K ∉ (h.cell c).included_modules) →
          (h1.cell p).ary.count K = 1) := by
  have hloop := class_ancestors_loop_eq_walk h fuel K chain hchain
  refine ⟨_, _, by simp only [class_ancestors, hloop, Result.bind]; rfl, rfl, ?_, ?_, ?_⟩
  · simp [Heap.alloc]
  · simp only [Heap.alloc, if_true]
    rw [resolution_walk_getLast h chain top htop, own_tables_getLast]
  · intro hK hothers
    obtain ⟨rest, hrest, hnotin⟩ := superclass_chain_head_once h fuel K chain hchain
    have hzero : (resolution_walk h rest).count K = 0 := by
      apply resolution_walk_count_zero h K rest hnotin
      intro c hc
      apply hothers c (by rw [hrest]; exact List.mem_cons_of_mem _ hc)
      intro hcK
      exact hnotin (hcK ▸ hc)
    have hown : (own_tables h K).count K = 1 := by
      rcases hK with hnil | hone
      · simp [own_tables_of_nil h K hnil]
      · have hne : (h.cell K).included_modules ≠ [] := by
          intro hnil
          simp [hnil] at hone
        rw [own_tables_of_ne_nil h K hne]
        exact hone
    simp only [Heap.alloc, if_true, hrest, resolution_walk, List.count_append, hown, hzero]

/-- Witness of C7, amended. In the example registry class `B` (address `8`) has
no included modules and chain `[B, A, Object]`, Object having no included
modules: the ancestors hold `B` once and end with Object. The class at `11` is
the top of its own chain and includes `M` (address `6`): its ancestors end with
`M`. -/
theorem class_ancestors_contents_witness :
    (∃ h1 p, class_ancestors 3 registry 8 = Result.ok (h1, p)
      ∧ p = registry.next
      ∧ (h1.cell p).type = ValueType.Array
      ∧ (h1.cell p).ary.getLast? = some 4
      ∧ (h1.cell p).ary.count 8 = 1)
    ∧ (∃ h1 p, class_ancestors 3 registry 11 = Result.ok (h1, p)
      ∧ (h1.cell p).ary.getLast? = some 6) := by
  constructor
  · obtain ⟨h1, p, hrun, hp, hty, hlast, hcount⟩ :=
      class_ancestors_contents 3 registry 8 4 [8, 7, 4] (by decide) (by decide)
    exact ⟨h1, p, hrun, hp, hty, hlast.trans (by decide),
      hcount (Or.inl (by decide)) (by decide)⟩
  · obtain ⟨h1, p, hrun, _, _, hlast, _⟩ :=
      class_ancestors_contents 3 registry 11 11 [11] (by decide) (by decide)
    exact ⟨h1, p, hrun, hlast.trans (by decide)⟩

/-! ## Argument binder: lemmas -/

theorem wrap32_of_range (x : Int) (hlo : -2147483648 ≤ x) (hhi : x ≤ 2147483647) :
    wrap32 x = x := by
  unfold wrap32
  omega

theorem ary_at_of_lt (xs : List Ptr) (index : Int) (h0 : 0 ≤ index)
    (hlt : index < (xs.length : Int)) :
    ∃ e, xs[index.toNat]? = some e ∧ ary_at xs index = some e := by
  have hnat : index.toNat < xs.length := by omega
  exact ⟨xs[index.toNat], List.getElem?_eq_getElem hnat, by simp [ary_at, h0, hnat]⟩

/-- One step of `arg_value_by_path` on an array, without splat: the early return
of the default, or the element at the position computed from the index. -/
theorem arg_value_by_path_single (h : Heap) (value default_value : Ptr)
    (total_count default_count i : Int) (defaults_on_right : Bool)
    (harray : (h.cell value).type = ValueType.Array)
    (hsize : ((h.cell value).ary.length : Int) ≤ h.genv.NAT_MAX_INT) :
    arg_value_by_path h value default_value false total_count default_count defaults_on_right
        0 [i] =
      if default_value ≠ h.genv.nil
          ∧ i ≥ wrap32 (((h.cell value).ary.length : Int) - wrap32 (total_count - default_count))
          ∧ i < default_count ∧ defaults_on_right = false then
        Result.ok (h, default_value)
      else
        if index_from_right (h.cell value).ary.length total_count
            (shift_index_left 0 1 (!defaults_on_right) (h.cell value).ary.length
              (wrap32 (total_count - default_count)) default_count i) < 0 then
          Result.ok (h, default_value)
        else if index_from_right (h.cell value).ary.length total_count
            (shift_index_left 0 1 (!defaults_on_right) (h.cell value).ary.length
              (wrap32 (total_count - default_count)) default_count i)
              < ((h.cell value).ary.length : Int) then
          match ary_at (h.cell value).ary
              (index_from_right (h.cell value).ary.length total_count
                (shift_index_left 0 1 (!defaults_on_right) (h.cell value).ary.length
                  (wrap32 (total_count - default_count)) default_count i)) with
          | some element => Result.ok (h, element)
          | none => Result.fault
        else Result.ok (h, default_value) := by
  simp only [arg_value_by_path, arg_value_by_path_loop, harray, hsize, List.length_singleton,
    Nat.cast_one, Bool.false_eq_true, false_and, if_false, if_true, not_true_eq_false,
    decide_eq_true_eq, Bool.not_eq_true', ge_iff_le]

/-- The shift of a single-step index with defaults on the left, when the array
holds at least the required values and at most `total_count`. -/
theorem shift_index_left_of_defaults_on_left (n total_count default_count i : Int)
    (hn0 : 0 ≤ n) (hcount : default_count ≤ total_count)
    (hreq : total_count - default_count ≤ n) (hn : n ≤ total_count)
    (htotal : total_count ≤ 2147483647) (hi0 : 0 ≤ i) (hi : i < total_count) :
    shift_index_left 0 1 true n (wrap32 (total_count - default_count)) default_count i =
      if i < n - (total_count - default_count) then i
      else i - (default_count - (n - (total_count - default_count))) := by
  have hr : wrap32 (total_count - default_count) = total_count - default_count :=
    wrap32_of_range _ (by omega) (by omega)
  have hx : wrap32 (n - (total_count - default_count)) = n - (total_count - default_count) :=
    wrap32_of_range _ (by omega) (by omega)
  have hd : wrap32 (default_count - (n - (total_count - default_count)))
      = default_count - (n - (total_count - default_count)) :=
    wrap32_of_range _ (by omega) (by omega)
  have hs : wrap32 (i - (default_count - (n - (total_count - default_count))))
      = i - (default_count - (n - (total_count - default_count))) :=
    wrap32_of_range _ (by omega) (by omega)
  have hm : wrap32 (i - default_count) = i - default_count :=
    wrap32_of_range _ (by omega) (by omega)
  simp only [shift_index_left, hr, hx, hd, hs, hm, and_self, if_true, true_and, and_true]
  split_ifs <;> omega

theorem index_from_right_of_nonneg (ary_len total_count index : Int) (h0 : 0 ≤ index) :
    index_from_right ary_len total_count index = index := by
  have hneg : ¬ index < 0 := by omega
  simp [index_from_right, hneg]

theorem splat_value_loop_spec (xs : List Ptr) (p : Ptr) :
    ∀ (count : Nat) (s : Int) (h0 : Heap), 0 ≤ s → s.toNat + count ≤ xs.length →
      ∃ h1, splat_value_loop xs p count s h0 = Result.ok h1
        ∧ (h1.cell p).ary = (h0.cell p).ary ++ (xs.drop s.toNat).take count
        ∧ (h1.cell p).type = (h0.cell p).type
        ∧ (∀ q, q ≠ p → h1.cell q = h0.cell q)
        ∧ h1.next = h0.next := by
  intro count
  induction count with
  | zero =>
    intro s h0 _ _
    exact ⟨h0, rfl, by simp, rfl, fun _ _ => rfl, rfl⟩
  | succ count ih =>
    intro s h0 hs hlen
    have hlt : s.toNat < xs.length := by omega
    have hat : ary_at xs s = some xs[s.toNat] := by
      simp [ary_at, hs, List.getElem?_eq_getElem hlt]
    have hnext : (s + 1).toNat = s.toNat + 1 := by omega
    obtain ⟨h1, hrun, hary, hty, hother, hnx⟩ :=
      ih (s + 1) (ArrayValue_push h0 p xs[s.toNat]) (by omega) (by omega)
    refine ⟨h1, ?_, ?_, ?_, ?_, ?_⟩
    · rw [splat_value_loop, hat]
      exact hrun
    · rw [hary, hnext, List.drop_eq_getElem_cons hlt, List.take_succ_cons]
      simp [ArrayValue_push, Heap.write]
    · rw [hty]
      simp [ArrayValue_push, Heap.write]
    · intro q hq
      rw [hother q hq]
      simp [ArrayValue_push, Heap.write, hq]
    · rw [hnx]
      simp [ArrayValue_push, Heap.write]

/-! ## Argument binder: claims -/

/-- C8. Defaults on the left, single-step path `[i]`, no splat, a default other
than nil: for an array `value` of length `n` with
`required = total - default_count`, `0 <= required <= n <= total` and
`extra = n - required`, `arg_value_by_path` at `0 <= i < total` returns
`value[i]` when `i < extra`, `default` when `extra <= i < default_count`, and
`value[i - (default_count - extra)]` when `i >= default_count`. -/
theorem arg_value_by_path_defaults_on_left (h : Heap) (value default_value : Ptr)
    (total_count default_count i : Int)
    (harray : (h.cell value).type = ValueType.Array)
    (hsize : ((h.cell value).ary.length : Int) ≤ h.genv.NAT_MAX_INT)
    (hdefault : default_value ≠ h.genv.nil)
    (hcount : default_count ≤ total_count)
    (hreq : total_count - default_count ≤ ((h.cell value).ary.length : Int))
    (hn : ((h.cell value).ary.length : Int) ≤ total_count)
    (htotal : total_count ≤ 2147483647)
    (hi0 : 0 ≤ i) (hi : i < total_count) :
    (i < ((h.cell value).ary.length : Int) - (total_count - default_count) →
      ∃ e, (h.cell value).ary[i.toNat]? = some e
        ∧ arg_value_by_path h value default_value false total_count default_count false 0 [i]
            = Result.ok (h, e))
    ∧ (((h.cell value).ary.length : Int) - (total_count - default_count) ≤ i →
        i < default_count →
        arg_value_by_path h value default_value false total_count default_count false 0 [i]
          = Result.ok (h, default_value))
    ∧ (default_count ≤ i →
        ∃ e, (h.cell value).ary[(i - (default_count
                - (((h.cell value).ary.length : Int) - (total_count - default_count)))).toNat]?
              = some e
          ∧ arg_value_by_path h value default_value false total_count default_count false 0 [i]
              = Result.ok (h, e)) := by
  have hr : wrap32 (total_count - default_count) = total_count - default_count :=
    wrap32_of_range _ (by omega) (by omega)
  have hx : wrap32 (((h.cell value).ary.length : Int) - (total_count - default_count))
      = ((h.cell value).ary.length : Int) - (total_count - default_count) :=
    wrap32_of_range _ (by omega) (by omega)
  have hshift := shift_index_left_of_defaults_on_left ((h.cell value).ary.length : Int)
    total_count default_count i (by omega) hcount hreq hn htotal hi0 hi
  have hstep := arg_value_by_path_single h value default_value total_count default_count i false
    harray hsize
  simp only [Bool.not_false] at hstep
  rw [hshift, hr, hx] at hstep
  refine ⟨?_, ?_, ?_⟩
  · intro hlt
    obtain ⟨e, he, hat⟩ := ary_at_of_lt (h.cell value).ary i hi0 (by omega)
    refine ⟨e, he, ?_⟩
    have hearly : ¬ (default_value ≠ h.genv.nil
        ∧ i ≥ ((h.cell value).ary.length : Int) - (total_count - default_count)
        ∧ i < default_count ∧ True) := by
      intro hc
      omega
    have hpos : index_from_right (h.cell value).ary.length total_count i = i :=
      index_from_right_of_nonneg _ _ _ hi0
    have hneg : ¬ i < 0 := by omega
    have hin : i < ((h.cell value).ary.length : Int) := by omega
    rw [hstep, if_neg hearly]
    simp only [hlt, if_true, hpos, hneg, if_false, hin, hat]
  · intro hge hlt
    have hearly : default_value ≠ h.genv.nil
        ∧ i ≥ ((h.cell value).ary.length : Int) - (total_count - default_count)
        ∧ i < default_count ∧ True := ⟨hdefault, hge, hlt, trivial⟩
    rw [hstep, if_pos hearly]
  · intro hge
    have hnlt : ¬ i < ((h.cell value).ary.length : Int) - (total_count - default_count) := by
      omega
    obtain ⟨e, he, hat⟩ := ary_at_of_lt (h.cell value).ary
      (i - (default_count - (((h.cell value).ary.length : Int) - (total_count - default_count))))
      (by omega) (by omega)
    refine ⟨e, he, ?_⟩
    have hearly : ¬ (default_value ≠ h.genv.nil
        ∧ i ≥ ((h.cell value).ary.length : Int) - (total_count - default_count)
        ∧ i < default_count ∧ True) := by
      intro hc
      omega
    have hpos : index_from_right (h.cell value).ary.length total_count
        (i - (default_count
          - (((h.cell value).ary.length : Int) - (total_count - default_count))))
        = i - (default_count
          - (((h.cell value).ary.length : Int) - (total_count - default_count))) :=
      index_from_right_of_nonneg _ _ _ (by omega)
    have hneg : ¬ (i - (default_count
          - (((h.cell value).ary.length : Int) - (total_count - default_count)))) < 0 := by
      omega
    have hin : (i - (default_count
          - (((h.cell value).ary.length : Int) - (total_count - default_count))))
        < ((h.cell value).ary.length : Int) := by omega
    rw [hstep, if_neg hearly]
    simp only [hnlt, if_false, hpos, hneg, hin, if_true, hat]

/-- Witness of C8 on `array_heap`, with default `99` (address `12`), `total = 3`
and `default_count = 1`: on `[10, 20, 30]` (address `13`, `extra = 1`) the path
`[0]` yields `value[0]`; on `[10, 20]` (address `11`, `extra = 0`) the path
`[0]` yields the default and the path `[1]` yields `value[0]`. -/
theorem arg_value_by_path_defaults_on_left_witness :
    (∃ e, (array_heap.cell 13).ary[(0 : Int).toNat]? = some e
      ∧ arg_value_by_path array_heap 13 12 false 3 1 false 0 [0] = Result.ok (array_heap, e))
    ∧ arg_value_by_path array_heap 11 12 false 3 1 false 0 [0] = Result.ok (array_heap, 12)
    ∧ (∃ e, (array_heap.cell 11).ary[((1 : Int) - (1 - ((2 : Int) - (3 - 1)))).toNat]? = some e
      ∧ arg_value_by_path array_heap 11 12 false 3 1 false 0 [1] = Result.ok (array_heap, e)) :=
  ⟨(arg_value_by_path_defaults_on_left array_heap 13 12 3 1 0 (by decide) (by decide)
      (by decide) (by decide) (by decide) (by decide) (by decide) (by decide) (by decide)).1
      (by decide),
   (arg_value_by_path_defaults_on_left array_heap 11 12 3 1 0 (by decide) (by decide)
      (by decide) (by decide) (by decide) (by decide) (by decide) (by decide) (by decide)).2.1
      (by decide) (by decide),
   (arg_value_by_path_defaults_on_left array_heap 11 12 3 1 1 (by decide) (by decide)
      (by decide) (by decide) (by decide) (by decide) (by decide) (by decide) (by decide)).2.2
      (by decide)⟩

/-- C9. Defaults on the right, single-step path `[i]` with `i >= 0`, no splat:
for an array `value` of length `n`, `arg_value_by_path` returns `value[i]` when
`i < n` and `default` when `i >= n`, for every default, `total` and
`default_count`; the heap is left as it was. -/
theorem arg_value_by_path_defaults_on_right (h : Heap) (value default_value : Ptr)
    (total_count default_count i : Int)
    (harray : (h.cell value).type = ValueType.Array)
    (hsize : ((h.cell value).ary.length : Int) ≤ h.genv.NAT_MAX_INT)
    (hi : 0 ≤ i) :
    (i < ((h.cell value).ary.length : Int) →
      ∃ e, (h.cell value).ary[i.toNat]? = some e
        ∧ arg_value_by_path h value default_value false total_count default_count true 0 [i]
            = Result.ok (h, e))
    ∧ (((h.cell value).ary.length : Int) ≤ i →
        arg_value_by_path h value default_value false total_count default_count true 0 [i]
          = Result.ok (h, default_value)) := by
  constructor
  · intro hlt
    obtain ⟨e, he, hat⟩ := ary_at_of_lt (h.cell value).ary i hi hlt
    refine ⟨e, he, ?_⟩
    have hneg : ¬ i < 0 := by omega
    simp [arg_value_by_path, arg_value_by_path_loop, shift_index_left, index_from_right,
      harray, hsize, hneg, hlt, hat]
  · intro hge
    have hneg : ¬ i < 0 := by omega
    have hnlt : ¬ i < ((h.cell value).ary.length : Int) := by omega
    simp [arg_value_by_path, arg_value_by_path_loop, shift_index_left, index_from_right,
      harray, hsize, hneg, hnlt]

/-- Witness of C9 on `array_heap`: with `value = [10, 20, 30]` (address `13`),
default `99` (address `12`), `total = 3`, `default_count = 1`, the path `[1]`
yields the element `20` (address `7`), and the path `[3]` the default. -/
theorem arg_value_by_path_defaults_on_right_witness :
    (∃ e, (array_heap.cell 13).ary[(1 : Int).toNat]? = some e
      ∧ arg_value_by_path array_heap 13 12 false 3 1 true 0 [1] = Result.ok (array_heap, e))
    ∧ arg_value_by_path array_heap 13 12 false 3 1 true 0 [3] = Result.ok (array_heap, 12) :=
  ⟨(arg_value_by_path_defaults_on_right array_heap 13 12 3 1 1 (by decide) (by decide)
      (by decide)).1 (by decide),
   (arg_value_by_path_defaults_on_right array_heap 13 12 3 1 3 (by decide) (by decide)
      (by decide)).2 (by decide)⟩

/-- C10. Splat slot, single-step path `[i]` with `i >= 0` and
`offset_from_end >= 0`: `arg_value_by_path` returns a new array, at the first
unused address, and leaves every other value of the heap (the input array
included) as it was. When `value` is an array of length `len` the new array
holds `value[i], ..., value[len - offset_from_end - 1]` in order and has length
`max(0, len - offset_from_end - i)`; when `value` is not an array, or
`i >= len - offset_from_end`, it is empty. -/
theorem arg_value_by_path_splat (h : Heap) (value default_value : Ptr)
    (total_count default_count : Int) (defaults_on_right : Bool) (offset_from_end i : Int)
    (hi : 0 ≤ i) (hoff : 0 ≤ offset_from_end) :
    ∃ h1, arg_value_by_path h value default_value true total_count default_count
          defaults_on_right offset_from_end [i] = Result.ok (h1, h.next)
      ∧ h1.next = h.next + 1
      ∧ (∀ q, q ≠ h.next → h1.cell q = h.cell q)
      ∧ (value < h.next → h1.cell value = h.cell value)
      ∧ (h1.cell h.next).type = ValueType.Array
      ∧ ((h.cell value).type = ValueType.Array →
          (h1.cell h.next).ary
              = ((h.cell value).ary.drop i.toNat).take
                  (((h.cell value).ary.length : Int) - offset_from_end - i).toNat
            ∧ ((h1.cell h.next).ary.length : Int)
                = max 0 (((h.cell value).ary.length : Int) - offset_from_end - i)
            ∧ ∀ k : Nat, (k : Int) < ((h.cell value).ary.length : Int) - offset_from_end - i →
                (h1.cell h.next).ary[k]? = (h.cell value).ary[i.toNat + k]?)
      ∧ ((h.cell value).type ≠ ValueType.Array
            ∨ ((h.cell value).ary.length : Int) - offset_from_end ≤ i →
          (h1.cell h.next).ary = []) := by
  have hstep : arg_value_by_path h value default_value true total_count default_count
      defaults_on_right offset_from_end [i] = splat_value h value i offset_from_end := by
    simp [arg_value_by_path, arg_value_by_path_loop]
  rw [hstep]
  by_cases hcond : (h.cell value).type = ValueType.Array
      ∧ i < ((h.cell value).ary.length : Int) - offset_from_end
  · obtain ⟨harray, hlt⟩ := hcond
    obtain ⟨h1, hrun, hary, hty, hother, hnx⟩ :=
      splat_value_loop_spec (h.cell value).ary h.next
        (((h.cell value).ary.length : Int) - offset_from_end - i).toNat i
        (h.alloc { type := ValueType.Array, klass := h.genv.Array, ary := [] }).1 hi (by omega)
    have hfresh : ((h.alloc { type := ValueType.Array, klass := h.genv.Array, ary := [] }).1.cell
        h.next) = { type := ValueType.Array, klass := h.genv.Array, ary := [] } := by
      simp [Heap.alloc]
    have hary1 : (h1.cell h.next).ary
        = ((h.cell value).ary.drop i.toNat).take
            (((h.cell value).ary.length : Int) - offset_from_end - i).toNat := by
      rw [hary, hfresh]
      simp
    refine ⟨h1, ?_, ?_, ?_, ?_, ?_, ?_, ?_⟩
    · have hrun1 : splat_value_loop (h.cell value).ary h.next
          (((h.cell value).ary.length : Int) - offset_from_end - i).toNat i
          (h.alloc { type := ValueType.Array, klass := h.genv.Array, ary := [] }).1
            = Result.ok h1 := hrun
      simp only [splat_value, harray, hlt, and_self, if_true]
      rw [show (h.alloc { type := ValueType.Array, klass := h.genv.Array, ary := [] }).2
        = h.next from rfl, hrun1]
      rfl
    · rw [hnx]
      simp [Heap.alloc]
    · intro q hq
      rw [hother q hq]
      simp [Heap.alloc, hq]
    · intro hval
      have hq : value ≠ h.next := Nat.ne_of_lt hval
      rw [hother value hq]
      simp [Heap.alloc, hq]
    · rw [hty, hfresh]
    · intro _
      refine ⟨hary1, ?_, ?_⟩
      · rw [hary1, List.length_take, List.length_drop]
        omega
      · intro k hk
        rw [hary1, List.getElem?_take_of_lt (by omega), List.getElem?_drop]
    · rintro (hna | hge)
      · exact absurd harray hna
      · omega
  · have hrun : splat_value h value i offset_from_end
        = Result.ok (h.alloc { type := ValueType.Array, klass := h.genv.Array, ary := [] }) := by
      simp only [splat_value, hcond, if_false]
    refine ⟨(h.alloc { type := ValueType.Array, klass := h.genv.Array, ary := [] }).1, ?_, ?_,
      ?_, ?_, ?_, ?_, ?_⟩
    · rw [hrun]
      rfl
    · simp [Heap.alloc]
    · intro q hq
      simp [Heap.alloc, hq]
    · intro hval
      have hq : value ≠ h.next := Nat.ne_of_lt hval
      simp [Heap.alloc, hq]
    · simp [Heap.alloc]
    · intro harray
      have hge : ¬ i < ((h.cell value).ary.length : Int) - offset_from_end :=
        fun hlt => hcond ⟨harray, hlt⟩
      have hzero : (((h.cell value).ary.length : Int) - offset_from_end - i).toNat = 0 := by
        omega
      refine ⟨?_, ?_, ?_⟩
      · rw [hzero]
        simp [Heap.alloc]
      · have hmax : max 0 (((h.cell value).ary.length : Int) - offset_from_end - i) = 0 := by
          omega
        rw [hmax]
        simp [Heap.alloc]
      · intro k hk
        omega
    · intro _
      simp [Heap.alloc]

/-- Witness of C10 on `array_heap`: with `value = [10, 20, 30, 40]` (address
`10`), `offset_from_end = 1` and path `[1]` the new array at address `14` has
length `2` and holds the elements of `value` from index `1`. -/
theorem arg_value_by_path_splat_witness :
    ∃ h1, arg_value_by_path array_heap 10 12 true 0 0 true 1 [1] = Result.ok (h1, 14)
      ∧ (h1.cell 14).ary = [7, 8]
      ∧ ((h1.cell 14).ary.length : Int) = 2
      ∧ h1.cell 10 = array_heap.cell 10 := by
  obtain ⟨h1, hrun, _, _, hsame, _, hslice, _⟩ :=
    arg_value_by_path_splat array_heap 10 12 0 0 true 1 1 (by decide) (by decide)
  obtain ⟨hary, hlen, _⟩ := hslice (by decide)
  exact ⟨h1, hrun, hary, hlen, hsame (by decide)⟩

theorem shift_index_left_of_defaults_on_right (i path_size ary_len required_count default_count
    index : Int) :
    shift_index_left i path_size false ary_len required_count default_count index = index := by
  simp [shift_index_left]

/-- C11. Negative index with defaults on the right, single-step path `[i]`,
no splat, the length `n` and `total` within the range of `int`: the position
read is `p = n + i` when `n >= total` and `p = total - 1 + i` when `n < total`;
`arg_value_by_path` returns `value[p]` when `0 <= p < n` and `default`
otherwise. Hence, when `n >= total - 1` and `-n <= i`, it returns the element
`value[n + i]`, the `|i|`-th from the right end. -/
theorem arg_value_by_path_negative_index (h : Heap) (value default_value : Ptr)
    (total_count default_count i : Int)
    (harray : (h.cell value).type = ValueType.Array)
    (hsize : ((h.cell value).ary.length : Int) ≤ h.genv.NAT_MAX_INT)
    (hlen : ((h.cell value).ary.length : Int) ≤ 2147483647)
    (htotal : total_count ≤ 2147483647)
    (himin : -2147483648 ≤ i) (hi : i < 0) :
    (∀ p : Int,
        p = (if total_count ≤ ((h.cell value).ary.length : Int)
              then ((h.cell value).ary.length : Int) + i else total_count - 1 + i) →
        (0 ≤ p → p < ((h.cell value).ary.length : Int) →
          ∃ e, (h.cell value).ary[p.toNat]? = some e
            ∧ arg_value_by_path h value default_value false total_count default_count true 0 [i]
                = Result.ok (h, e))
        ∧ (p < 0 ∨ ((h.cell value).ary.length : Int) ≤ p →
            arg_value_by_path h value default_value false total_count default_count true 0 [i]
              = Result.ok (h, default_value)))
    ∧ (total_count - 1 ≤ ((h.cell value).ary.length : Int) →
        -((h.cell value).ary.length : Int) ≤ i →
        ∃ e, (h.cell value).ary[(((h.cell value).ary.length : Int) + i).toNat]? = some e
          ∧ arg_value_by_path h value default_value false total_count default_count true 0 [i]
              = Result.ok (h, e)) := by
  have hstep := arg_value_by_path_single h value default_value total_count default_count i true
    harray hsize
  have hearly : ¬ (default_value ≠ h.genv.nil
      ∧ i ≥ wrap32 (((h.cell value).ary.length : Int) - wrap32 (total_count - default_count))
      ∧ i < default_count ∧ true = false) := by
    intro hc
    exact absurd hc.2.2.2 (by decide)
  rw [if_neg hearly] at hstep
  simp only [Bool.not_true, shift_index_left_of_defaults_on_right] at hstep
  have hpos : index_from_right ((h.cell value).ary.length : Int) total_count i =
      (if total_count ≤ ((h.cell value).ary.length : Int)
        then ((h.cell value).ary.length : Int) + i else total_count - 1 + i) := by
    unfold index_from_right
    by_cases hge : total_count ≤ ((h.cell value).ary.length : Int)
    · have hw : wrap32 (((h.cell value).ary.length : Int) + i)
          = ((h.cell value).ary.length : Int) + i := wrap32_of_range _ (by omega) (by omega)
      simp [hi, hge, hw]
    · have hw1 : wrap32 (total_count - 1) = total_count - 1 :=
        wrap32_of_range _ (by omega) (by omega)
      have hw2 : wrap32 (total_count - 1 + i) = total_count - 1 + i :=
        wrap32_of_range _ (by omega) (by omega)
      simp [hi, hge, hw1, hw2]
  rw [hpos] at hstep
  have hmain : ∀ p : Int,
      p = (if total_count ≤ ((h.cell value).ary.length : Int)
            then ((h.cell value).ary.length : Int) + i else total_count - 1 + i) →
      (0 ≤ p → p < ((h.cell value).ary.length : Int) →
        ∃ e, (h.cell value).ary[p.toNat]? = some e
          ∧ arg_value_by_path h value default_value false total_count default_count true 0 [i]
              = Result.ok (h, e))
      ∧ (p < 0 ∨ ((h.cell value).ary.length : Int) ≤ p →
          arg_value_by_path h value default_value false total_count default_count true 0 [i]
            = Result.ok (h, default_value)) := by
    intro p hp
    rw [← hp] at hstep
    constructor
    · intro h0 hlt
      obtain ⟨e, he, hat⟩ := ary_at_of_lt (h.cell value).ary p h0 hlt
      refine ⟨e, he, ?_⟩
      have hneg : ¬ p < 0 := by omega
      rw [hstep]
      simp only [hneg, if_false, hlt, if_true, hat]
    · intro hout
      rw [hstep]
      rcases hout with hneg | hge
      · simp only [hneg, if_true]
      · have hneg : ¬ p < 0 := by omega
        have hnlt : ¬ p < ((h.cell value).ary.length : Int) := by omega
        simp only [hneg, hnlt, if_false]
  refine ⟨hmain, ?_⟩
  intro hnear hfrom
  have hp : ((h.cell value).ary.length : Int) + i
      = (if total_count ≤ ((h.cell value).ary.length : Int)
          then ((h.cell value).ary.length : Int) + i else total_count - 1 + i) := by
    by_cases hge : total_count ≤ ((h.cell value).ary.length : Int)
    · simp [hge]
    · simp only [hge, if_false]
      omega
  exact (hmain _ hp).1 (by omega) (by omega)

/-- Witness of C11 on `array_heap`, with default `99` (address `12`): on
`[10, 20, 30]` (address `13`) with `total = 3` the path `[-1]` reads position
`2`; with `total = 5` it reads position `5 - 1 - 1 = 3`, past the end, and
yields the default; with `total = 4` the path `[-2]` yields `value[3 - 2]`. -/
theorem arg_value_by_path_negative_index_witness :
    (∃ e, (array_heap.cell 13).ary[(2 : Int).toNat]? = some e
      ∧ arg_value_by_path array_heap 13 12 false 3 0 true 0 [-1] = Result.ok (array_heap, e))
    ∧ arg_value_by_path array_heap 13 12 false 5 0 true 0 [-1] = Result.ok (array_heap, 12)
    ∧ (∃ e, (array_heap.cell 13).ary[((3 : Int) + -2).toNat]? = some e
      ∧ arg_value_by_path array_heap 13 12 false 4 0 true 0 [-2] = Result.ok (array_heap, e)) :=
  ⟨((arg_value_by_path_negative_index array_heap 13 12 3 0 (-1) (by decide) (by decide)
      (by decide) (by decide) (by decide) (by decide)).1 2 (by decide)).1 (by decide)
      (by decide),
   ((arg_value_by_path_negative_index array_heap 13 12 5 0 (-1) (by decide) (by decide)
      (by decide) (by decide) (by decide) (by decide)).1 3 (by decide)).2
      (Or.inr (by decide)),
   (arg_value_by_path_negative_index array_heap 13 12 4 0 (-2) (by decide) (by decide)
      (by decide) (by decide) (by decide) (by decide)).2 (by decide) (by decide)⟩

/-- One step of `array_value_by_path` on an array, without splat. -/
theorem array_value_by_path_single (h : Heap) (value default_value : Ptr) (i : Int)
    (harray : (h.cell value).type = ValueType.Array)
    (hsize : ((h.cell value).ary.length : Int) ≤ h.genv.NAT_MAX_INT) :
    array_value_by_path h value default_value false 0 [i] =
      if (if i < 0 then wrap32 (((h.cell value).ary.length : Int) + i) else i) < 0 then
        Result.ok (h, default_value)
      else if (if i < 0 then wrap32 (((h.cell value).ary.length : Int) + i) else i)
          < ((h.cell value).ary.length : Int) then
        match ary_at (h.cell value).ary
            (if i < 0 then wrap32 (((h.cell value).ary.length : Int) + i) else i) with
        | some element => Result.ok (h, element)
        | none => Result.fault
      else Result.ok (h, default_value) := by
  simp only [array_value_by_path, array_value_by_path_loop, harray, hsize,
    Bool.false_eq_true, false_and, if_false, if_true, not_true_eq_false]

/-- C12. Single-step path `[i]`, no splat. When `value` is an array of length
`n`, `array_value_by_path` returns `value[i]` if `0 <= i < n`, `value[n + i]`
if `-n <= i < 0`, and `default` otherwise (for a negative `i`, with `n` and `i`
within the range of `int`); when `value` is not an array it returns `value`
itself if `i = 0` and `default` otherwise. -/
theorem array_value_by_path_cases (h : Heap) (value default_value : Ptr) (i : Int) :
    ((h.cell value).type = ValueType.Array →
      ((h.cell value).ary.length : Int) ≤ h.genv.NAT_MAX_INT →
        (0 ≤ i → i < ((h.cell value).ary.length : Int) →
          ∃ e, (h.cell value).ary[i.toNat]? = some e
            ∧ array_value_by_path h value default_value false 0 [i] = Result.ok (h, e))
        ∧ (((h.cell value).ary.length : Int) ≤ 2147483647 →
            -((h.cell value).ary.length : Int) ≤ i → i < 0 →
            ∃ e, (h.cell value).ary[(((h.cell value).ary.length : Int) + i).toNat]? = some e
              ∧ array_value_by_path h value default_value false 0 [i] = Result.ok (h, e))
        ∧ (((h.cell value).ary.length : Int) ≤ i →
            array_value_by_path h value default_value false 0 [i]
              = Result.ok (h, default_value))
        ∧ (((h.cell value).ary.length : Int) ≤ 2147483647 → -2147483648 ≤ i →
            i < -((h.cell value).ary.length : Int) →
            array_value_by_path h value default_value false 0 [i]
              = Result.ok (h, default_value)))
    ∧ ((h.cell value).type ≠ ValueType.Array →
        (i = 0 → array_value_by_path h value default_value false 0 [i] = Result.ok (h, value))
        ∧ (i ≠ 0 →
            array_value_by_path h value default_value false 0 [i]
              = Result.ok (h, default_value))) := by
  constructor
  · intro harray hsize
    have hstep := array_value_by_path_single h value default_value i harray hsize
    refine ⟨?_, ?_, ?_, ?_⟩
    · intro h0 hlt
      obtain ⟨e, he, hat⟩ := ary_at_of_lt (h.cell value).ary i h0 hlt
      refine ⟨e, he, ?_⟩
      have hneg : ¬ i < 0 := by omega
      rw [hstep]
      simp only [hneg, if_false, hlt, if_true, hat]
    · intro hlen hfrom hi
      have hw : wrap32 (((h.cell value).ary.length : Int) + i)
          = ((h.cell value).ary.length : Int) + i := wrap32_of_range _ (by omega) (by omega)
      obtain ⟨e, he, hat⟩ := ary_at_of_lt (h.cell value).ary
        (((h.cell value).ary.length : Int) + i) (by omega) (by omega)
      refine ⟨e, he, ?_⟩
      have hneg : ¬ ((h.cell value).ary.length : Int) + i < 0 := by omega
      have hlt : ((h.cell value).ary.length : Int) + i < ((h.cell value).ary.length : Int) := by
        omega
      rw [hstep]
      simp only [hi, if_true, hw, hneg, if_false, hlt, hat]
    · intro hge
      have hneg : ¬ i < 0 := by omega
      have hnlt : ¬ i < ((h.cell value).ary.length : Int) := by omega
      rw [hstep]
      simp only [hneg, hnlt, if_false]
    · intro hlen himin hbelow
      have hi : i < 0 := by omega
      have hw : wrap32 (((h.cell value).ary.length : Int) + i)
          = ((h.cell value).ary.length : Int) + i := wrap32_of_range _ (by omega) (by omega)
      have hneg : ((h.cell value).ary.length : Int) + i < 0 := by omega
      rw [hstep]
      simp only [hi, if_true, hw, hneg]
  · intro hnot
    constructor
    · intro h0
      simp [array_value_by_path, array_value_by_path_loop, hnot, h0]
    · intro hne
      simp [array_value_by_path, array_value_by_path_loop, hnot, hne]

/-- Witness of C12 on `array_heap`, with default `99` (address `12`): on
`[10, 20, 30]` (address `13`) the paths `[1]`, `[-1]`, `[3]` and `[-4]` yield
`value[1]`, `value[2]`, the default and the default; on the Integer at `6`
the path `[0]` yields the value itself and `[1]` the default. -/
theorem array_value_by_path_cases_witness :
    (∃ e, (array_heap.cell 13).ary[(1 : Int).toNat]? = some e
      ∧ array_value_by_path array_heap 13 12 false 0 [1] = Result.ok (array_heap, e))
    ∧ (∃ e, (array_heap.cell 13).ary[((3 : Int) + -1).toNat]? = some e
      ∧ array_value_by_path array_heap 13 12 false 0 [-1] = Result.ok (array_heap, e))
    ∧ array_value_by_path array_heap 13 12 false 0 [3] = Result.ok (array_heap, 12)
    ∧ array_value_by_path array_heap 13 12 false 0 [-4] = Result.ok (array_heap, 12)
    ∧ array_value_by_path array_heap 6 12 false 0 [0] = Result.ok (array_heap, 6)
    ∧ array_value_by_path array_heap 6 12 false 0 [1] = Result.ok (array_heap, 12) :=
  ⟨((array_value_by_path_cases array_heap 13 12 1).1 (by decide) (by decide)).1
      (by decide) (by decide),
   ((array_value_by_path_cases array_heap 13 12 (-1)).1 (by decide) (by decide)).2.1
      (by decide) (by decide) (by decide),
   ((array_value_by_path_cases array_heap 13 12 3).1 (by decide) (by decide)).2.2.1
      (by decide),
   ((array_value_by_path_cases array_heap 13 12 (-4)).1 (by decide) (by decide)).2.2.2
      (by decide) (by decide) (by decide),
   ((array_value_by_path_cases array_heap 6 12 0).2 (by decide)).1 rfl,
   ((array_value_by_path_cases array_heap 6 12 1).2 (by decide)).2 (by decide)⟩

/-! ## Keyword arguments: lemmas -/

theorem SymbolValue_intern_cell (h : Heap) (name : String) (q : Ptr) (hq : q < h.next) :
    (SymbolValue_intern h name).1.cell q = h.cell q := by
  unfold SymbolValue_intern
  cases assoc_get h.genv.symbols name with
  | some symbol => rfl
  | none =>
    have hne : q ≠ h.next := Nat.ne_of_lt hq
    simp [Heap.alloc, hne]

theorem kwarg_value_by_name_on_new_hash (h : Heap) (name : String) :
    HashValue_get
        (SymbolValue_intern
          (h.alloc { type := ValueType.Hash, klass := h.genv.Hash, hash := [] }).1 name).1
        (h.alloc { type := ValueType.Hash, klass := h.genv.Hash, hash := [] }).2
        (SymbolValue_intern
          (h.alloc { type := ValueType.Hash, klass := h.genv.Hash, hash := [] }).1 name).2
      = none := by
  have hcell := SymbolValue_intern_cell
    (h.alloc { type := ValueType.Hash, klass := h.genv.Hash, hash := [] }).1 name h.next
    (by simp [Heap.alloc])
  have hnew : (h.alloc { type := ValueType.Hash, klass := h.genv.Hash, hash := [] }).2
      = h.next := rfl
  rw [HashValue_get, hnew, hcell]
  simp [Heap.alloc, assoc_get]

/-! ## Keyword arguments: claims -/

/-- C13. `kwarg_value_by_name` returns the value stored under the symbol of the
given name when the last element of `args` is a Hash that holds that key; in
every other case (`args` empty, last element not a Hash, key absent) it returns
the default when one is given and raises `ArgumentError` when none is. -/
theorem kwarg_value_by_name_cases (h : Heap) (args : Ptr) (name : String)
    (default_value : Option Ptr) :
    (∀ hash value, (h.cell args).ary.getLast? = some hash →
        (h.cell hash).type = ValueType.Hash →
        HashValue_get (SymbolValue_intern h name).1 hash (SymbolValue_intern h name).2
          = some value →
        kwarg_value_by_name h args name default_value
          = Result.ok ((SymbolValue_intern h name).1, value))
    ∧ ((h.cell args).ary = []
        ∨ (∃ last, (h.cell args).ary.getLast? = some last
            ∧ (h.cell last).type ≠ ValueType.Hash)
        ∨ (∃ hash, (h.cell args).ary.getLast? = some hash
            ∧ (h.cell hash).type = ValueType.Hash
            ∧ HashValue_get (SymbolValue_intern h name).1 hash (SymbolValue_intern h name).2
                = none) →
        (∀ d, default_value = some d →
          ∃ h1, kwarg_value_by_name h args name default_value = Result.ok (h1, d))
        ∧ (default_value = none →
            kwarg_value_by_name h args name default_value
              = Result.raise "ArgumentError" "missing keyword: :%s" [FormatArg.str name])) := by
  constructor
  · intro hash value hlast hty hget
    have hne : ¬ (h.cell args).ary.length = 0 := by
      intro hz
      rw [List.length_eq_zero.mp hz] at hlast
      simp at hlast
    rw [List.getLast?_eq_getElem?] at hlast
    simp only [kwarg_value_by_name, hne, if_false, hlast, hty, ne_eq, not_true_eq_false,
      Result.bind, hget]
  · intro hcase
    have hnew := kwarg_value_by_name_on_new_hash h name
    rcases hcase with hnil | ⟨last, hlast, hty⟩ | ⟨hash, hlast, hty, hget⟩
    · have hz : (h.cell args).ary.length = 0 := by simp [hnil]
      constructor
      · intro d hd
        simp only [kwarg_value_by_name, hz, if_true, Result.bind, hnew, hd]
        exact ⟨_, rfl⟩
      · intro hd
        simp only [kwarg_value_by_name, hz, if_true, Result.bind, hnew, hd]
    · have hne : ¬ (h.cell args).ary.length = 0 := by
        intro hz
        rw [List.length_eq_zero.mp hz] at hlast
        simp at hlast
      rw [List.getLast?_eq_getElem?] at hlast
      constructor
      · intro d hd
        simp only [kwarg_value_by_name, hne, if_false, hlast, hty, ne_eq, not_false_eq_true,
          if_true, Result.bind, hnew, hd]
        exact ⟨_, rfl⟩
      · intro hd
        simp only [kwarg_value_by_name, hne, if_false, hlast, hty, ne_eq, not_false_eq_true,
          if_true, Result.bind, hnew, hd]
    · have hne : ¬ (h.cell args).ary.length = 0 := by
        intro hz
        rw [List.length_eq_zero.mp hz] at hlast
        simp at hlast
      rw [List.getLast?_eq_getElem?] at hlast
      constructor
      · intro d hd
        simp only [kwarg_value_by_name, hne, if_false, hlast, hty, ne_eq, not_true_eq_false,
          Result.bind, hget, hd]
        exact ⟨_, rfl⟩
      · intro hd
        simp only [kwarg_value_by_name, hne, if_false, hlast, hty, ne_eq, not_true_eq_false,
          Result.bind, hget, hd]

/-- Witness of C13 on `kwarg_heap`: `[42, {key: 42}]` yields the stored value
for `key` and, for the absent `other` without default, `ArgumentError`;
`[42]` and `[]` yield the default `nil` (address `0`) when it is given. -/
theorem kwarg_value_by_name_cases_witness :
    kwarg_value_by_name kwarg_heap 9 "key" none
        = Result.ok ((SymbolValue_intern kwarg_heap "key").1, 7)
    ∧ kwarg_value_by_name kwarg_heap 9 "other" none
        = Result.raise "ArgumentError" "missing keyword: :%s" [FormatArg.str "other"]
    ∧ (∃ h1, kwarg_value_by_name kwarg_heap 10 "key" (some 0) = Result.ok (h1, 0))
    ∧ (∃ h1, kwarg_value_by_name kwarg_heap 11 "key" (some 0) = Result.ok (h1, 0)) :=
  ⟨(kwarg_value_by_name_cases kwarg_heap 9 "key" none).1 8 7 (by decide) (by decide)
      (by decide),
   ((kwarg_value_by_name_cases kwarg_heap 9 "other" none).2
      (Or.inr (Or.inr ⟨8, by decide, by decide, by decide⟩))).2 rfl,
   ((kwarg_value_by_name_cases kwarg_heap 10 "key" (some 0)).2
      (Or.inr (Or.inl ⟨7, by decide, by decide⟩))).1 0 rfl,
   ((kwarg_value_by_name_cases kwarg_heap 11 "key" (some 0)).2
      (Or.inl (by decide))).1 0 rfl⟩

/-! ## Coercions: lemmas -/

theorem to_ary_wrap_spec (w : World) (obj : Ptr) :
    ∃ w1, to_ary_wrap w obj = (w1, Result.ok w.heap.next)
      ∧ (w1.heap.cell w.heap.next).type = ValueType.Array
      ∧ (w1.heap.cell w.heap.next).ary = [obj]
      ∧ w1.calls = w.calls := by
  refine ⟨_, rfl, ?_, ?_, rfl⟩
  · simp [ArrayValue_push, Heap.write, Heap.alloc]
  · simp [ArrayValue_push, Heap.write, Heap.alloc]

theorem to_ary_of_array (fuel : Nat) (native : Native) (w : World) (envp : EnvRef) (env : Env)
    (obj : Ptr) (raise_for_non_array : Bool)
    (harray : (w.heap.cell obj).type = ValueType.Array) :
    to_ary fuel native w envp env obj raise_for_non_array = (w, Result.ok obj) := by
  simp [to_ary, harray]

theorem to_ary_of_not_responding (fuel : Nat) (native : Native) (w : World) (envp : EnvRef)
    (env : Env) (obj : Ptr) (raise_for_non_array : Bool)
    (harray : (w.heap.cell obj).type ≠ ValueType.Array)
    (hresp : respond_to fuel w.heap obj "to_ary" = Result.ok false) :
    to_ary fuel native w envp env obj raise_for_non_array = to_ary_wrap w obj := by
  simp [to_ary, harray, hresp]

theorem to_ary_of_responding (fuel : Nat) (native : Native) (w w1 : World) (envp : EnvRef)
    (env : Env) (obj ary : Ptr) (raise_for_non_array : Bool)
    (harray : (w.heap.cell obj).type ≠ ValueType.Array)
    (hresp : respond_to fuel w.heap obj "to_ary" = Result.ok true)
    (hsend : World.run native w (send fuel w.heap envp env obj "to_ary" [] none)
      = (w1, Result.ok ary)) :
    to_ary fuel native w envp env obj raise_for_non_array =
      if (w1.heap.cell ary).type = ValueType.Array then (w1, Result.ok ary)
      else if (w1.heap.cell ary).type = ValueType.Nil ∨ ¬ raise_for_non_array then
        to_ary_wrap w1 obj
      else
        (w1, Result.raise "TypeError" "can\x27t convert %s to Array (%s#to_ary gives %s)"
          [FormatArg.str (w1.heap.cell (w1.heap.cell obj).klass).class_name,
           FormatArg.str (w1.heap.cell (w1.heap.cell obj).klass).class_name,
           FormatArg.str (w1.heap.cell (w1.heap.cell ary).klass).class_name]) := by
  simp only [to_ary, harray, if_false, hresp, hsend]

/-- Whatever `to_ary` returns normally is an array. -/
theorem to_ary_returns_array (fuel : Nat) (native : Native) (w w1 : World) (envp : EnvRef)
    (env : Env) (obj a : Ptr) (raise_for_non_array : Bool)
    (hret : to_ary fuel native w envp env obj raise_for_non_array = (w1, Result.ok a)) :
    (w1.heap.cell a).type = ValueType.Array := by
  by_cases harray : (w.heap.cell obj).type = ValueType.Array
  · rw [to_ary_of_array fuel native w envp env obj raise_for_non_array harray] at hret
    cases hret
    exact harray
  · cases hresp : respond_to fuel w.heap obj "to_ary" with
    | ok b =>
      cases b with
      | false =>
        rw [to_ary_of_not_responding fuel native w envp env obj raise_for_non_array harray
          hresp] at hret
        obtain ⟨w2, hwrap, hty, _, _⟩ := to_ary_wrap_spec w obj
        rw [hwrap] at hret
        cases hret
        exact hty
      | true =>
        cases hsend : World.run native w (send fuel w.heap envp env obj "to_ary" [] none) with
        | mk w2 r =>
          cases r with
          | ok ary =>
            rw [to_ary_of_responding fuel native w w2 envp env obj ary raise_for_non_array
              harray hresp hsend] at hret
            by_cases hary : (w2.heap.cell ary).type = ValueType.Array
            · simp only [hary, if_true] at hret
              cases hret
              exact hary
            · simp only [hary, if_false] at hret
              by_cases hwrapc : (w2.heap.cell ary).type = ValueType.Nil ∨ ¬ raise_for_non_array
              · simp only [hwrapc, if_true] at hret
                obtain ⟨w3, hwrap, hty, _, _⟩ := to_ary_wrap_spec w2 obj
                rw [hwrap] at hret
                cases hret
                exact hty
              · simp only [hwrapc, if_false] at hret
                cases hret
          | raise c f as => simp [to_ary, harray, hresp, hsend] at hret
          | abort => simp [to_ary, harray, hresp, hsend] at hret
          | exit st => simp [to_ary, harray, hresp, hsend] at hret
          | fault => simp [to_ary, harray, hresp, hsend] at hret
          | out_of_fuel => simp [to_ary, harray, hresp, hsend] at hret
    | raise c f as => simp [to_ary, harray, hresp] at hret
    | abort => simp [to_ary, harray, hresp] at hret
    | exit st => simp [to_ary, harray, hresp] at hret
    | fault => simp [to_ary, harray, hresp] at hret
    | out_of_fuel => simp [to_ary, harray, hresp] at hret

/-! ## Coercions: claims -/

/-- C14. When `to_ary(x, true)` returns without raising, its result is an
array, and `to_ary` applied to that result returns the very same array and
leaves the state of the process as it is. -/
theorem to_ary_idempotent (fuel : Nat) (native : Native) (w w1 : World) (envp : EnvRef)
    (env : Env) (x a : Ptr)
    (hret : to_ary fuel native w envp env x true = (w1, Result.ok a)) :
    (w1.heap.cell a).type = ValueType.Array
    ∧ to_ary fuel native w1 envp env a true = (w1, Result.ok a) := by
  have harray := to_ary_returns_array fuel native w w1 envp env x a true hret
  exact ⟨harray, to_ary_of_array fuel native w1 envp env a true harray⟩

/-- Witness of C14 on `to_ary_registry`: the value at `7` answers `to_ary` with
the array at `9`, and `to_ary` of that array is the array itself; the value at
`10` has no `to_ary` and is wrapped in a new array at `11`, which `to_ary`
returns unchanged. -/
theorem to_ary_idempotent_witness :
    (((to_ary 3 (native_returning 9) { heap := to_ary_registry } (EnvRef.frame 0) {} 7
          true).1.heap.cell 9).type = ValueType.Array
      ∧ to_ary 3 (native_returning 9)
          (to_ary 3 (native_returning 9) { heap := to_ary_registry } (EnvRef.frame 0) {} 7
            true).1 (EnvRef.frame 0) {} 9 true
        = ((to_ary 3 (native_returning 9) { heap := to_ary_registry } (EnvRef.frame 0) {} 7
            true).1, Result.ok 9))
    ∧ (((to_ary 3 (native_returning 9) { heap := to_ary_registry } (EnvRef.frame 0) {} 10
          true).1.heap.cell 11).type = ValueType.Array
      ∧ to_ary 3 (native_returning 9)
          (to_ary 3 (native_returning 9) { heap := to_ary_registry } (EnvRef.frame 0) {} 10
            true).1 (EnvRef.frame 0) {} 11 true
        = ((to_ary 3 (native_returning 9) { heap := to_ary_registry } (EnvRef.frame 0) {} 10
            true).1, Result.ok 11)) :=
  ⟨to_ary_idempotent 3 (native_returning 9) { heap := to_ary_registry } _ (EnvRef.frame 0) {}
      7 9 (Prod.ext rfl (by decide)),
   to_ary_idempotent 3 (native_returning 9) { heap := to_ary_registry } _ (EnvRef.frame 0) {}
      10 11 (Prod.ext rfl (by decide))⟩

/-- The cases of `to_ary` when the send of `to_ary`, if it is made, returns the
value `ary` in the state `w1`. -/
theorem to_ary_cases_of_send (fuel : Nat) (native : Native) (w w1 : World) (envp : EnvRef) (env : Env)
    (obj ary : Ptr) (raise_for_non_array b : Bool)
    (hresp : (w.heap.cell obj).type ≠ ValueType.Array →
      respond_to fuel w.heap obj "to_ary" = Result.ok b)
    (hsend : (w.heap.cell obj).type ≠ ValueType.Array → b = true →
      World.run native w (send fuel w.heap envp env obj "to_ary" [] none)
        = (w1, Result.ok ary)) :
    ((∃ w2 f as,
          to_ary fuel native w envp env obj raise_for_non_array
            = (w2, Result.raise "TypeError" f as))
        ↔ ((w.heap.cell obj).type ≠ ValueType.Array ∧ b = true
            ∧ (w1.heap.cell ary).type ≠ ValueType.Array
            ∧ (w1.heap.cell ary).type ≠ ValueType.Nil ∧ raise_for_non_array = true))
    ∧ (¬ ((w.heap.cell obj).type ≠ ValueType.Array ∧ b = true
            ∧ (w1.heap.cell ary).type ≠ ValueType.Array
            ∧ (w1.heap.cell ary).type ≠ ValueType.Nil ∧ raise_for_non_array = true) →
        ((w.heap.cell obj).type = ValueType.Array
            ∧ to_ary fuel native w envp env obj raise_for_non_array = (w, Result.ok obj))
          ∨ ((w.heap.cell obj).type ≠ ValueType.Array ∧ b = true
              ∧ (w1.heap.cell ary).type = ValueType.Array
              ∧ to_ary fuel native w envp env obj raise_for_non_array = (w1, Result.ok ary))
          ∨ ∃ (w2 : World) (a : Ptr),
              to_ary fuel native w envp env obj raise_for_non_array = (w2, Result.ok a)
              ∧ (a = w.heap.next ∨ a = w1.heap.next)
              ∧ (w2.heap.cell a).type = ValueType.Array
              ∧ (w2.heap.cell a).ary = [obj]) := by
  by_cases harray : (w.heap.cell obj).type = ValueType.Array
  · have hrun := to_ary_of_array fuel native w envp env obj raise_for_non_array harray
    constructor
    · constructor
      · rintro ⟨w2, f, as, hraise⟩
        rw [hrun] at hraise
        cases hraise
      · rintro ⟨hne, _⟩
        exact absurd harray hne
    · intro _
      exact Or.inl ⟨harray, hrun⟩
  · have hb := hresp harray
    cases b with
    | false =>
      have hrun := to_ary_of_not_responding fuel native w envp env obj raise_for_non_array
        harray hb
      obtain ⟨w2, hwrap, hty, hary, _⟩ := to_ary_wrap_spec w obj
      rw [hwrap] at hrun
      constructor
      · constructor
        · rintro ⟨w3, f, as, hraise⟩
          rw [hrun] at hraise
          cases hraise
        · rintro ⟨_, hbt, _⟩
          cases hbt
      · intro _
        exact Or.inr (Or.inr ⟨w2, _, hrun, Or.inl rfl, hty, hary⟩)
    | true =>
      have hrun := to_ary_of_responding fuel native w w1 envp env obj ary raise_for_non_array
        harray hb (hsend harray rfl)
      by_cases hary : (w1.heap.cell ary).type = ValueType.Array
      · simp only [hary, if_true] at hrun
        constructor
        · constructor
          · rintro ⟨w3, f, as, hraise⟩
            rw [hrun] at hraise
            cases hraise
          · rintro ⟨_, _, hne, _⟩
            exact absurd hary hne
        · intro _
          exact Or.inr (Or.inl ⟨harray, rfl, hary, hrun⟩)
      · simp only [hary, if_false] at hrun
        by_cases hwrapc : (w1.heap.cell ary).type = ValueType.Nil ∨ ¬ raise_for_non_array
        · simp only [hwrapc, if_true] at hrun
          obtain ⟨w2, hwrap, hty, hone, _⟩ := to_ary_wrap_spec w1 obj
          rw [hwrap] at hrun
          constructor
          · constructor
            · rintro ⟨w3, f, as, hraise⟩
              rw [hrun] at hraise
              cases hraise
            · rintro ⟨_, _, _, hnil, hraise⟩
              rcases hwrapc with hn | hr
              · exact absurd hn hnil
              · exact absurd hraise (by simpa using hr)
          · intro _
            exact Or.inr (Or.inr ⟨w2, _, hrun, Or.inr rfl, hty, hone⟩)
        · simp only [hwrapc, if_false] at hrun
          have hnil : (w1.heap.cell ary).type ≠ ValueType.Nil := fun hn => hwrapc (Or.inl hn)
          have hraise : raise_for_non_array = true := by
            by_contra hr
            exact hwrapc (Or.inr (by simpa using hr))
          constructor
          · constructor
            · intro _
              exact ⟨harray, rfl, hary, hnil, hraise⟩
            · intro _
              exact ⟨_, _, _, hrun⟩
          · intro hnot
            exact absurd ⟨harray, rfl, hary, hnil, hraise⟩ hnot

/-- C15, counterexample. In `to_ary_registry` the value at `7` is not an array
and responds to `to_ary`; when its `to_ary` method raises `RuntimeError`,
`to_ary` ends in that exception for both values of `raise`: it neither returns
nor raises `TypeError`. In `to_ary_marker_registry` the value at `8` has an
undefined marker for `to_ary` on its singleton class while its class defines
`to_ary`: `respond_to` is true, the send raises `NoMethodError`, and so does
`to_ary`. -/
theorem to_ary_passes_on_exception_of_send :
    (to_ary_registry.cell 7).type ≠ ValueType.Array
    ∧ respond_to 3 to_ary_registry 7 "to_ary" = Result.ok true
    ∧ (to_ary 3 (native_raising 71) { heap := to_ary_registry } (EnvRef.frame 0) {} 7 true).2
        = Result.raise "RuntimeError" "boom" []
    ∧ (to_ary 3 (native_raising 71) { heap := to_ary_registry } (EnvRef.frame 0) {} 7 false).2
        = Result.raise "RuntimeError" "boom" []
    ∧ (to_ary_marker_registry.cell 8).type ≠ ValueType.Array
    ∧ respond_to 3 to_ary_marker_registry 8 "to_ary" = Result.ok true
    ∧ (to_ary 3 (native_returning 0) { heap := to_ary_marker_registry } (EnvRef.frame 0) {} 8
          true).2
        = Result.raise "NoMethodError" "undefined method \x60%s\x27 for %s:Class"
            [FormatArg.str "to_ary", FormatArg.str ""]
    ∧ (to_ary 3 (native_returning 0) { heap := to_ary_marker_registry } (EnvRef.frame 0) {} 8
          false).2
        = Result.raise "NoMethodError" "undefined method \x60%s\x27 for %s:Class"
            [FormatArg.str "to_ary", FormatArg.str ""] := by
  decide

/-- C15, amended. Let `b` be the answer of `respond_to(obj, to_ary)`. When the
send of `to_ary` to `obj`, if it is made (`obj` not an array and `b` true),
returns a value `ary`: `to_ary(obj, raise)` raises `TypeError` if and only if
`obj` is not an array, `obj` responds to `to_ary`, `ary` is neither an array
nor nil, and `raise` is true; in all other cases it returns `obj` itself (`obj`
an array), the array `ary`, or a new one-element array that holds `obj`. When
the send is made and ends in an exception, `to_ary` ends in that exception. -/
theorem to_ary_cases (fuel : Nat) (native : Native) (w : World) (envp : EnvRef) (env : Env)
    (obj : Ptr) (raise_for_non_array b : Bool)
    (hresp : (w.heap.cell obj).type ≠ ValueType.Array →
      respond_to fuel w.heap obj "to_ary" = Result.ok b) :
    (∀ (w1 : World) (ary : Ptr),
      ((w.heap.cell obj).type ≠ ValueType.Array → b = true →
        World.run native w (send fuel w.heap envp env obj "to_ary" [] none)
          = (w1, Result.ok ary)) →
      ((∃ w2 f as,
            to_ary fuel native w envp env obj raise_for_non_array
              = (w2, Result.raise "TypeError" f as))
          ↔ ((w.heap.cell obj).type ≠ ValueType.Array ∧ b = true
              ∧ (w1.heap.cell ary).type ≠ ValueType.Array
              ∧ (w1.heap.cell ary).type ≠ ValueType.Nil ∧ raise_for_non_array = true))
      ∧ (¬ ((w.heap.cell obj).type ≠ ValueType.Array ∧ b = true
              ∧ (w1.heap.cell ary).type ≠ ValueType.Array
              ∧ (w1.heap.cell ary).type ≠ ValueType.Nil ∧ raise_for_non_array = true) →
          ((w.heap.cell obj).type = ValueType.Array
              ∧ to_ary fuel native w envp env obj raise_for_non_array = (w, Result.ok obj))
            ∨ ((w.heap.cell obj).type ≠ ValueType.Array ∧ b = true
                ∧ (w1.heap.cell ary).type = ValueType.Array
                ∧ to_ary fuel native w envp env obj raise_for_non_array = (w1, Result.ok ary))
            ∨ ∃ (w2 : World) (a : Ptr),
                to_ary fuel native w envp env obj raise_for_non_array = (w2, Result.ok a)
                ∧ (a = w.heap.next ∨ a = w1.heap.next)
                ∧ (w2.heap.cell a).type = ValueType.Array
                ∧ (w2.heap.cell a).ary = [obj]))
    ∧ (∀ (w1 : World) (c f : String) (as : List FormatArg),
        (w.heap.cell obj).type ≠ ValueType.Array → b = true →
        World.run native w (send fuel w.heap envp env obj "to_ary" [] none)
          = (w1, Result.raise c f as) →
        to_ary fuel native w envp env obj raise_for_non_array = (w1, Result.raise c f as)) := by
  constructor
  · intro w1 ary hsend
    exact to_ary_cases_of_send fuel native w w1 envp env obj ary raise_for_non_array b hresp
      hsend
  · intro w1 c f as harray hb hsend
    have hr := hresp harray
    rw [hb] at hr
    simp only [to_ary, harray, if_false, hr, hsend]

/-- Witness of C15, amended, on `to_ary_registry`: the value at `7` responds to
`to_ary`; when its method returns the Integer at `8`, `to_ary` raises
`TypeError` with `raise` set and returns a new one-element array at address
`11` without it; when its method raises `RuntimeError`, so does `to_ary`. -/
theorem to_ary_cases_witness :
    (∃ w2 f as, to_ary 3 (native_returning 8) { heap := to_ary_registry } (EnvRef.frame 0) {} 7
        true = (w2, Result.raise "TypeError" f as))
    ∧ (∃ (w2 : World) (a : Ptr),
        to_ary 3 (native_returning 8) { heap := to_ary_registry } (EnvRef.frame 0) {} 7 false
          = (w2, Result.ok a)
        ∧ (a = to_ary_registry.next
            ∨ a = (World.run (native_returning 8) { heap := to_ary_registry }
                (send 3 to_ary_registry (EnvRef.frame 0) {} 7 "to_ary" [] none)).1.heap.next)
        ∧ (w2.heap.cell a).type = ValueType.Array
        ∧ (w2.heap.cell a).ary = [7])
    ∧ to_ary 3 (native_raising 71) { heap := to_ary_registry } (EnvRef.frame 0) {} 7 true
        = ((World.run (native_raising 71) { heap := to_ary_registry }
              (send 3 to_ary_registry (EnvRef.frame 0) {} 7 "to_ary" [] none)).1,
            Result.raise "RuntimeError" "boom" []) :=
  ⟨((to_ary_cases 3 (native_returning 8) { heap := to_ary_registry } (EnvRef.frame 0) {} 7 true
        true (fun _ => by decide)).1
      (World.run (native_returning 8) { heap := to_ary_registry }
        (send 3 to_ary_registry (EnvRef.frame 0) {} 7 "to_ary" [] none)).1 8
      (fun _ _ => Prod.ext rfl (by decide))).1.mpr
      ⟨by decide, rfl, by decide, by decide, rfl⟩,
   by
    rcases ((to_ary_cases 3 (native_returning 8) { heap := to_ary_registry } (EnvRef.frame 0) {}
        7 false true (fun _ => by decide)).1
      (World.run (native_returning 8) { heap := to_ary_registry }
        (send 3 to_ary_registry (EnvRef.frame 0) {} 7 "to_ary" [] none)).1 8
      (fun _ _ => Prod.ext rfl (by decide))).2
      (by
        rintro ⟨_, _, _, _, hraise⟩
        cases hraise) with harr | hsame | hnew
    · exact absurd harr.1 (by decide)
    · exact absurd hsame.2.2.1 (by decide)
    · exact hnew,
   (to_ary_cases 3 (native_raising 71) { heap := to_ary_registry } (EnvRef.frame 0) {} 7 true
      true (fun _ => by decide)).2 _ "RuntimeError" "boom" [] (by decide) rfl
      (Prod.ext rfl (by decide))⟩

/-! ## Blocks: claims -/

/-- C19, the code at the failing input. With a null block `_run_block_internal`
ends in `abort()`, for every env, argument vector and inner block: the process
is terminated and no `LocalJumpError` is raised. -/
theorem run_block_internal_null_block_aborts (envp : EnvRef) (args : List Ptr)
    (block : Option Ptr) :
    _run_block_internal envp none args block = Result.abort
    ∧ ∀ f as, _run_block_internal envp none args block
        ≠ Result.raise "LocalJumpError" f as := by
  constructor
  · rfl
  · intro f as hraise
    cases hraise

/-! ## Exception pipeline: lemmas -/

theorem run_block_internal_at_exit (envp : EnvRef) (b : Block) :
    _run_block_internal envp (some b) [] none = Result.ok (at_exit_call envp b) := rfl

theorem run_at_exit_handlers_loop_spec (native : Native) (envp : EnvRef) (arr : Ptr)
    (hs : List Ptr) (h0 : Heap)
    (hprocs : ∀ p ∈ hs, (h0.cell p).type = ValueType.Proc ∧ ∃ b, (h0.cell p).block = some b)
    (hquiet : ∀ h c, (∃ v, (native h c).2 = Result.ok v)
      ∧ (native h c).1.cell arr = h.cell arr
      ∧ ∀ p ∈ hs, (native h c).1.cell p = h.cell p) :
    ∀ (i : Nat) (w : World), i ≤ hs.length → (w.heap.cell arr).ary = hs →
      (∀ p ∈ hs, w.heap.cell p = h0.cell p) →
      ∃ w1, run_at_exit_handlers_loop native envp arr i w = (w1, Result.ok ())
        ∧ w1.calls = w.calls
            ++ (hs.take i).reverse.filterMap
                (fun p => (h0.cell p).block.map (at_exit_call envp))
        ∧ w1.written = w.written := by
  intro i
  induction i with
  | zero =>
    intro w _ _ _
    exact ⟨w, rfl, by simp, rfl⟩
  | succ i ih =>
    intro w hi harr hsame
    have hlt : i < hs.length := by omega
    have hget : (w.heap.cell arr).ary[i]? = some hs[i] := by
      rw [harr]
      exact List.getElem?_eq_getElem hlt
    have hmem : hs[i] ∈ hs := List.getElem_mem hlt
    obtain ⟨hty, b, hb⟩ := hprocs hs[i] hmem
    have hcell := hsame hs[i] hmem
    obtain ⟨⟨v, hv⟩, hkeep_arr, hkeep⟩ := hquiet w.heap (at_exit_call envp b)
    obtain ⟨w1, hrun, hcalls, hwritten⟩ :=
      ih { w with heap := (native w.heap (at_exit_call envp b)).1,
                  calls := w.calls ++ [at_exit_call envp b] }
        (by omega)
        (by
          show ((native w.heap (at_exit_call envp b)).1.cell arr).ary = hs
          rw [hkeep_arr]
          exact harr)
        (fun p hp => by
          show (native w.heap (at_exit_call envp b)).1.cell p = h0.cell p
          rw [hkeep p hp]
          exact hsame p hp)
    refine ⟨w1, ?_, ?_, ?_⟩
    · rw [run_at_exit_handlers_loop, hget]
      simp only [hcell, hty, ne_eq, not_true_eq_false, if_false, hb,
        run_block_internal_at_exit, World.run, hv]
      exact hrun
    · have hstep : (hs.take (i + 1)).reverse.filterMap
            (fun p => (h0.cell p).block.map (at_exit_call envp))
          = at_exit_call envp b :: (hs.take i).reverse.filterMap
              (fun p => (h0.cell p).block.map (at_exit_call envp)) := by
        rw [List.take_succ, List.getElem?_eq_getElem hlt]
        simp only [Option.toList, List.reverse_append, List.reverse_cons, List.reverse_nil,
          List.nil_append, List.singleton_append, List.filterMap_cons, hb, Option.map_some']
      rw [hcalls, hstep]
      simp only [List.append_assoc, List.singleton_append]
    · rw [hwritten]

/-- A cell that no native call changes is the same after the loop of
`run_at_exit_handlers`, however the loop ends. -/
theorem run_at_exit_handlers_loop_keeps_cell (native : Native) (envp : EnvRef) (arr q : Ptr)
    (hkeep : ∀ h c, (native h c).1.cell q = h.cell q) :
    ∀ (i : Nat) (w w1 : World) (r : Result Unit),
      run_at_exit_handlers_loop native envp arr i w = (w1, r) →
      w1.heap.cell q = w.heap.cell q := by
  intro i
  induction i with
  | zero =>
    intro w w1 r hrun
    simp only [run_at_exit_handlers_loop, Prod.mk.injEq] at hrun
    rw [← hrun.1]
  | succ i ih =>
    intro w w1 r hrun
    rw [run_at_exit_handlers_loop] at hrun
    cases hget : (w.heap.cell arr).ary[i]? with
    | none =>
      simp only [hget, Prod.mk.injEq] at hrun
      rw [← hrun.1]
    | some proc =>
      simp only [hget] at hrun
      by_cases hty : (w.heap.cell proc).type = ValueType.Proc
      · simp only [hty, ne_eq, not_true_eq_false, if_false] at hrun
        cases hb : (w.heap.cell proc).block with
        | none =>
          simp only [hb, _run_block_internal, World.run, Prod.mk.injEq] at hrun
          rw [← hrun.1]
        | some b =>
          simp only [hb, run_block_internal_at_exit, World.run] at hrun
          have hstep := hkeep w.heap (at_exit_call envp b)
          cases hres : (native w.heap (at_exit_call envp b)).2 with
          | ok v =>
            simp only [hres] at hrun
            rw [ih _ w1 r hrun]
            exact hstep
          | raise c f as =>
            simp only [hres, Prod.mk.injEq] at hrun
            rw [← hrun.1]
            exact hstep
          | abort =>
            simp only [hres, Prod.mk.injEq] at hrun
            rw [← hrun.1]
            exact hstep
          | exit st =>
            simp only [hres, Prod.mk.injEq] at hrun
            rw [← hrun.1]
            exact hstep
          | fault =>
            simp only [hres, Prod.mk.injEq] at hrun
            rw [← hrun.1]
            exact hstep
          | out_of_fuel =>
            simp only [hres, Prod.mk.injEq] at hrun
            rw [← hrun.1]
            exact hstep
      · simp only [hty, ne_eq, not_false_eq_true, if_true, Prod.mk.injEq] at hrun
        rw [← hrun.1]

/-- The loop of `run_at_exit_handlers` when the handler of index `j` is the
first, in running order, that does not return normally: the handlers of the
indices above `j` are called, then the handler `j`, and the loop ends there. -/
theorem run_at_exit_handlers_loop_stop (native : Native) (envp : EnvRef) (arr : Ptr)
    (hs : List Ptr) (h0 : Heap)
    (hprocs : ∀ p ∈ hs, (h0.cell p).type = ValueType.Proc ∧ ∃ b, (h0.cell p).block = some b)
    (hframe : ∀ h c, (native h c).1.cell arr = h.cell arr
      ∧ ∀ p ∈ hs, (native h c).1.cell p = h.cell p)
    (j : Nat) (pj : Ptr) (bj : Block) (hpj : hs[j]? = some pj)
    (hbj : (h0.cell pj).block = some bj)
    (hstop : ∀ h v, (native h (at_exit_call envp bj)).2 ≠ Result.ok v)
    (hreturn : ∀ k p b, j < k → hs[k]? = some p → (h0.cell p).block = some b →
      ∀ h, ∃ v, (native h (at_exit_call envp b)).2 = Result.ok v) :
    ∀ (d : Nat) (w : World), j + 1 + d ≤ hs.length → (w.heap.cell arr).ary = hs →
      (∀ p ∈ hs, w.heap.cell p = h0.cell p) →
      ∃ w1 r, run_at_exit_handlers_loop native envp arr (j + 1 + d) w = (w1, r)
        ∧ (∀ u, r ≠ Result.ok u)
        ∧ w1.calls = w.calls ++ ((hs.take (j + 1 + d)).drop j).reverse.filterMap
            (fun p => (h0.cell p).block.map (at_exit_call envp))
        ∧ (∀ c f as, (∀ h, (native h (at_exit_call envp bj)).2 = Result.raise c f as) →
            r = Result.raise c f as) := by
  have hjlt : j < hs.length := by
    by_contra hge
    rw [List.getElem?_eq_none (by omega)] at hpj
    cases hpj
  intro d
  induction d with
  | zero =>
    intro w _ harr hsame
    have hmem : pj ∈ hs := List.getElem?_mem hpj
    obtain ⟨hty, _⟩ := hprocs pj hmem
    have hget : (w.heap.cell arr).ary[j]? = some pj := by
      rw [harr]
      exact hpj
    have hcell := hsame pj hmem
    have hslice : (hs.take (j + 1)).drop j = [pj] := by
      rw [List.take_succ, hpj]
      simp [List.drop_append_of_le_length, hjlt.le]
    have hcalls : ((World.run native w (Result.ok (at_exit_call envp bj))).1).calls
        = w.calls ++ ((hs.take (j + 1 + 0)).drop j).reverse.filterMap
            (fun p => (h0.cell p).block.map (at_exit_call envp)) := by
      simp [World.run, hslice, hbj]
    have hloop : run_at_exit_handlers_loop native envp arr (j + 1 + 0) w
        = match (native w.heap (at_exit_call envp bj)).2 with
          | Result.ok _ => run_at_exit_handlers_loop native envp arr j
              (World.run native w (Result.ok (at_exit_call envp bj))).1
          | Result.raise c m as =>
            ((World.run native w (Result.ok (at_exit_call envp bj))).1, Result.raise c m as)
          | Result.abort => ((World.run native w (Result.ok (at_exit_call envp bj))).1, Result.abort)
          | Result.exit st =>
            ((World.run native w (Result.ok (at_exit_call envp bj))).1, Result.exit st)
          | Result.fault => ((World.run native w (Result.ok (at_exit_call envp bj))).1, Result.fault)
          | Result.out_of_fuel =>
            ((World.run native w (Result.ok (at_exit_call envp bj))).1, Result.out_of_fuel) := by
      rw [Nat.add_zero, run_at_exit_handlers_loop, hget]
      simp only [hcell, hty, ne_eq, not_true_eq_false, if_false, hbj,
        run_block_internal_at_exit, World.run]
      cases (native w.heap (at_exit_call envp bj)).2 <;> rfl
    cases hres : (native w.heap (at_exit_call envp bj)).2 with
    | ok v => exact absurd hres (hstop _ v)
    | raise c f as =>
      rw [hres] at hloop
      refine ⟨_, _, hloop, (fun u hu => by cases hu), hcalls, ?_⟩
      intro c' f' as' hall
      have := hall w.heap
      rw [hres] at this
      cases this
      rfl
    | abort =>
      rw [hres] at hloop
      refine ⟨_, _, hloop, (fun u hu => by cases hu), hcalls, ?_⟩
      intro c' f' as' hall
      have := hall w.heap
      rw [hres] at this
      cases this
    | exit st =>
      rw [hres] at hloop
      refine ⟨_, _, hloop, (fun u hu => by cases hu), hcalls, ?_⟩
      intro c' f' as' hall
      have := hall w.heap
      rw [hres] at this
      cases this
    | fault =>
      rw [hres] at hloop
      refine ⟨_, _, hloop, (fun u hu => by cases hu), hcalls, ?_⟩
      intro c' f' as' hall
      have := hall w.heap
      rw [hres] at this
      cases this
    | out_of_fuel =>
      rw [hres] at hloop
      refine ⟨_, _, hloop, (fun u hu => by cases hu), hcalls, ?_⟩
      intro c' f' as' hall
      have := hall w.heap
      rw [hres] at this
      cases this
  | succ d ih =>
    intro w hle harr hsame
    have hlt : j + 1 + d < hs.length := by omega
    have hget : (w.heap.cell arr).ary[j + 1 + d]? = some hs[j + 1 + d] := by
      rw [harr]
      exact List.getElem?_eq_getElem hlt
    have hmem : hs[j + 1 + d] ∈ hs := List.getElem_mem hlt
    obtain ⟨hty, b, hb⟩ := hprocs hs[j + 1 + d] hmem
    have hcell := hsame hs[j + 1 + d] hmem
    obtain ⟨v, hv⟩ := hreturn (j + 1 + d) hs[j + 1 + d] b (by omega)
      (List.getElem?_eq_getElem hlt) hb w.heap
    obtain ⟨hkeep_arr, hkeep⟩ := hframe w.heap (at_exit_call envp b)
    obtain ⟨w1, r, hrun, hnot, hcalls, hraise⟩ :=
      ih (World.run native w (Result.ok (at_exit_call envp b))).1 (by omega)
        (by
          show ((native w.heap (at_exit_call envp b)).1.cell arr).ary = hs
          rw [hkeep_arr]
          exact harr)
        (fun p hp => by
          show (native w.heap (at_exit_call envp b)).1.cell p = h0.cell p
          rw [hkeep p hp]
          exact hsame p hp)
    refine ⟨w1, r, ?_, hnot, ?_, hraise⟩
    · rw [show j + 1 + (d + 1) = (j + 1 + d) + 1 from rfl, run_at_exit_handlers_loop, hget]
      simp only [hcell, hty, ne_eq, not_true_eq_false, if_false, hb,
        run_block_internal_at_exit, World.run, hv]
      exact hrun
    · have hslice : (hs.take (j + 1 + (d + 1))).drop j
          = (hs.take (j + 1 + d)).drop j ++ [hs[j + 1 + d]] := by
        rw [show j + 1 + (d + 1) = (j + 1 + d) + 1 from rfl, List.take_succ,
          List.getElem?_eq_getElem hlt]
        simp only [Option.toList]
        rw [List.drop_append_of_le_length (by simp; omega)]
      rw [hcalls, hslice]
      simp [World.run, hb]

/-- One call is made for each proc that has a block. -/
theorem at_exit_calls_length (h : Heap) (envp : EnvRef) :
    ∀ l : List Ptr, (∀ p ∈ l, ∃ b, (h.cell p).block = some b) →
      (l.filterMap (fun p => (h.cell p).block.map (at_exit_call envp))).length = l.length := by
  intro l
  induction l with
  | nil => intro _; rfl
  | cons p rest ihl =>
    intro hl
    obtain ⟨b, hb⟩ := hl p (by simp)
    have := ihl (fun q hq => hl q (List.mem_cons_of_mem _ hq))
    simp [List.filterMap_cons, hb, this]

/-! ## Exception pipeline: claims -/

/-- C17, counterexample. On `at_exit_heap` the handlers registered are the
procs with the functions `81` and `82`, in this order. When the function `82`
raises, `run_at_exit_handlers` ends in that exception after the one call of
`82`: the handler `81` is never invoked. -/
theorem run_at_exit_handlers_stops_at_raising_handler :
    global_get at_exit_heap "$NAT_at_exit_handlers" = 8
    ∧ (at_exit_heap.cell 8).ary = [6, 7]
    ∧ (at_exit_heap.cell 6).block = some { fn := 81, self := 0, addr := 1 }
    ∧ (at_exit_heap.cell 7).block = some { fn := 82, self := 0, addr := 2 }
    ∧ (run_at_exit_handlers (native_raising 82) { heap := at_exit_heap } (EnvRef.frame 0)).2
        = Result.raise "RuntimeError" "boom" []
    ∧ (run_at_exit_handlers (native_raising 82) { heap := at_exit_heap } (EnvRef.frame 0)).1.calls
        = [at_exit_call (EnvRef.frame 0) { fn := 82, self := 0, addr := 2 }] := by
  decide

/-- C17, amended. Let `[h0, ..., h(n-1)]` be the procs stored in the array
bound to `$NAT_at_exit_handlers`, each with a block, `n` within the range of
`int`, no handler changing the array or the procs. When every handler returns
normally, `run_at_exit_handlers` returns after the calls of the blocks of
`h(n-1), ..., h0`, in this order, one call for each handler and each with zero
arguments; with an empty array it calls nothing. When `h(j)` is the first
handler in that order that does not return normally, `run_at_exit_handlers`
calls the blocks of `h(n-1), ..., h(j)`, in this order, one call for each and
each with zero arguments, calls none of `h(j-1), ..., h0`, and does not return
normally; it ends in the exception of `h(j)` when `h(j)` raises one. -/
theorem run_at_exit_handlers_order (native : Native) (w : World) (envp : EnvRef) (arr : Ptr)
    (hs : List Ptr)
    (harr : global_get w.heap "$NAT_at_exit_handlers" = arr)
    (hlist : (w.heap.cell arr).ary = hs)
    (hlen : (hs.length : Int) ≤ 2147483647)
    (hprocs : ∀ p ∈ hs, (w.heap.cell p).type = ValueType.Proc
      ∧ ∃ b, (w.heap.cell p).block = some b)
    (hframe : ∀ h c, (native h c).1.cell arr = h.cell arr
      ∧ ∀ p ∈ hs, (native h c).1.cell p = h.cell p) :
    ((∀ h c, ∃ v, (native h c).2 = Result.ok v) →
      ∃ w1 made, run_at_exit_handlers native w envp = (w1, Result.ok ())
        ∧ w1.calls = w.calls ++ made
        ∧ made = hs.reverse.filterMap (fun p => (w.heap.cell p).block.map (at_exit_call envp))
        ∧ made.length = hs.length
        ∧ (∀ c ∈ made, c.args = [])
        ∧ (hs = [] → made = []))
    ∧ (∀ (j : Nat) (pj : Ptr) (bj : Block), hs[j]? = some pj →
        (w.heap.cell pj).block = some bj →
        (∀ h v, (native h (at_exit_call envp bj)).2 ≠ Result.ok v) →
        (∀ k p b, j < k → hs[k]? = some p → (w.heap.cell p).block = some b →
          ∀ h, ∃ v, (native h (at_exit_call envp b)).2 = Result.ok v) →
        ∃ w1 r made, run_at_exit_handlers native w envp = (w1, r)
          ∧ (∀ u, r ≠ Result.ok u)
          ∧ (∀ c f as, (∀ h, (native h (at_exit_call envp bj)).2 = Result.raise c f as) →
              r = Result.raise c f as)
          ∧ w1.calls = w.calls ++ made
          ∧ made = (hs.drop j).reverse.filterMap
              (fun p => (w.heap.cell p).block.map (at_exit_call envp))
          ∧ made.length = hs.length - j
          ∧ (∀ c ∈ made, c.args = [])) := by
  have hcount : (wrap32 (((w.heap.cell arr).ary.length : Int) - 1) + 1).toNat = hs.length := by
    rw [hlist, wrap32_of_range _ (by omega) (by omega)]
    omega
  have hargs : ∀ l : List Ptr,
      ∀ c ∈ l.filterMap (fun p => (w.heap.cell p).block.map (at_exit_call envp)),
        c.args = [] := by
    intro l c hc
    obtain ⟨p, _, hp⟩ := List.mem_filterMap.mp hc
    cases hblock : (w.heap.cell p).block with
    | none => simp [hblock] at hp
    | some b =>
      simp only [hblock, Option.map_some', Option.some.injEq] at hp
      rw [← hp]
      rfl
  constructor
  · intro hreturns
    obtain ⟨w1, hrun, hcalls, _⟩ :=
      run_at_exit_handlers_loop_spec native envp arr hs w.heap hprocs
        (fun h c => ⟨hreturns h c, (hframe h c).1, (hframe h c).2⟩) hs.length w
        (Nat.le_refl _) hlist (fun _ _ => rfl)
    rw [List.take_length] at hcalls
    refine ⟨w1, _, ?_, hcalls, rfl, ?_, hargs _, ?_⟩
    · simp only [run_at_exit_handlers, harr, hcount]
      exact hrun
    · rw [at_exit_calls_length w.heap envp hs.reverse
        (fun p hp => (hprocs p (List.mem_reverse.mp hp)).2), List.length_reverse]
    · intro hnil
      simp [hnil]
  · intro j pj bj hpj hbj hstop hreturn
    have hjlt : j < hs.length := by
      by_contra hge
      rw [List.getElem?_eq_none (by omega)] at hpj
      cases hpj
    have hd : j + 1 + (hs.length - (j + 1)) = hs.length := by omega
    obtain ⟨w1, r, hrun, hnot, hcalls, hraise⟩ :=
      run_at_exit_handlers_loop_stop native envp arr hs w.heap hprocs hframe j pj bj hpj hbj
        hstop hreturn (hs.length - (j + 1)) w (by omega) hlist (fun _ _ => rfl)
    rw [hd] at hrun hcalls
    rw [List.take_length] at hcalls
    refine ⟨w1, r, _, ?_, hnot, hraise, hcalls, rfl, ?_, hargs _⟩
    · simp only [run_at_exit_handlers, harr, hcount]
      exact hrun
    · rw [at_exit_calls_length w.heap envp (hs.drop j).reverse
        (fun p hp => (hprocs p (List.mem_of_mem_drop (List.mem_reverse.mp hp))).2),
        List.length_reverse, List.length_drop]

/-- Witness of C17, amended, on `at_exit_heap`. With handlers that return nil
and leave the heap alone, the block of the proc at `7` (function `82`) is
called first, then that of the proc at `6` (function `81`). When the function
`82` raises, the block of the proc at `7` is called, `run_at_exit_handlers`
ends in the exception, and the block of the proc at `6` is not called. -/
theorem run_at_exit_handlers_order_witness :
    (∃ w1 made, run_at_exit_handlers (native_returning 0) { heap := at_exit_heap }
          (EnvRef.frame 0) = (w1, Result.ok ())
      ∧ w1.calls = [] ++ made
      ∧ made = [at_exit_call (EnvRef.frame 0) { fn := 82, self := 0, addr := 2 },
                at_exit_call (EnvRef.frame 0) { fn := 81, self := 0, addr := 1 }]
      ∧ made.length = 2)
    ∧ (∃ w1 made, run_at_exit_handlers (native_raising 82) { heap := at_exit_heap }
          (EnvRef.frame 0) = (w1, Result.raise "RuntimeError" "boom" [])
      ∧ w1.calls = [] ++ made
      ∧ made = [at_exit_call (EnvRef.frame 0) { fn := 82, self := 0, addr := 2 }]) := by
  have hprocs : ∀ p ∈ [6, 7], (at_exit_heap.cell p).type = ValueType.Proc
      ∧ ∃ b, (at_exit_heap.cell p).block = some b := by
    intro p hp
    simp only [List.mem_cons, List.mem_singleton, List.not_mem_nil, or_false] at hp
    rcases hp with rfl | rfl
    · exact ⟨by decide, _, rfl⟩
    · exact ⟨by decide, _, rfl⟩
  constructor
  · obtain ⟨w1, made, hrun, hcalls, hmade, hlen, _, _⟩ :=
      (run_at_exit_handlers_order (native_returning 0) { heap := at_exit_heap } (EnvRef.frame 0)
        8 [6, 7] (by decide) (by decide) (by decide) hprocs
        (fun h c => ⟨rfl, fun _ _ => rfl⟩)).1 (fun h c => ⟨0, rfl⟩)
    exact ⟨w1, made, hrun, hcalls, hmade.trans (by decide), hlen⟩
  · obtain ⟨w1, r, made, hrun, _, hraise, hcalls, hmade, _, _⟩ :=
      (run_at_exit_handlers_order (native_raising 82) { heap := at_exit_heap } (EnvRef.frame 0)
        8 [6, 7] (by decide) (by decide) (by decide) hprocs
        (fun h c => by
          simp only [native_raising]
          split_ifs <;> exact ⟨rfl, fun _ _ => rfl⟩)).2 1 7 { fn := 82, self := 0, addr := 2 }
        (by decide) (by decide)
        (fun h v => by simp [native_raising, at_exit_call])
        (fun k p b hk hp => by
          rw [List.getElem?_eq_none (by simp; omega)] at hp
          cases hp)
    have hr : r = Result.raise "RuntimeError" "boom" [] :=
      hraise _ _ _ (fun h => by simp [native_raising, at_exit_call])
    rw [hr] at hrun
    exact ⟨w1, made, hrun, hcalls, hmade.trans (by decide)⟩

theorem concat_text_append (xs ys : List String) :
    concat_text (xs ++ ys) = concat_text xs ++ concat_text ys := by
  induction xs with
  | nil => simp [concat_text, String.empty_append]
  | cons x rest ih => simp [concat_text, ih, String.append_assoc]

theorem print_backtrace_lines_spec (fd : Int) (lines : List Ptr) (h : Heap)
    (hstrings : ∀ p ∈ lines, (h.cell p).type = ValueType.String) :
    ∀ (i : Nat) (w : World), w.heap = h → i < lines.length →
      print_backtrace_lines fd lines i w =
        ({ w with
            written := w.written
              ++ (List.range i).reverse.map
                  (fun k => (fd, traceback_line (lines.map fun p => (h.cell p).str) (k + 1))) },
          Result.ok ()) := by
  intro i
  induction i with
  | zero =>
    intro w _ _
    simp [print_backtrace_lines]
  | succ i ih =>
    intro w hw hlt
    have hget : lines[i + 1]? = some lines[i + 1] := List.getElem?_eq_getElem hlt
    have hty : (w.heap.cell lines[i + 1]).type = ValueType.String := by
      rw [hw]
      exact hstrings _ (List.getElem_mem hlt)
    have hline : traceback_line (lines.map fun p => (h.cell p).str) (i + 1)
        = "        " ++ toString (i + 1) ++ ": from " ++ (w.heap.cell lines[i + 1]).str
            ++ "\n" := by
      simp [traceback_line, List.getD_eq_getElem?_getD, List.getElem?_map, hget, hw]
    rw [print_backtrace_lines, hget]
    simp only [hty, ne_eq, not_true_eq_false, if_false]
    have hrec := ih
      { w with
        written := w.written
          ++ [(fd, "        " ++ toString (i + 1) ++ ": from " ++ (w.heap.cell lines[i + 1]).str
                ++ "\n")] }
      hw (by omega)
    rw [hrec, List.range_succ, List.reverse_append]
    simp only [List.reverse_cons, List.reverse_nil, List.nil_append, List.singleton_append,
      List.map_cons, hline, List.append_assoc]

/-- C18. For an exception with message `msg`, class name `C` and backtrace
entries `b0, ..., b(n-1)`, all of them Strings and `n` within the range of
`int`, `print_exception_with_backtrace` writes to the file descriptor of
`$stderr` pieces of text that, put together, are the lines of the spec: the
line `msg (C)` alone when `n = 0`, and when `n >= 1` the header, the lines
`i: from b_i` for `i = n - 1` down to `1`, and the line `b0: msg (C)`; these
are `n + 1` lines for a backtrace that is not empty. -/
theorem print_exception_with_backtrace_text (w : World) (exception backtrace : Ptr)
    (hbt : (w.heap.cell exception).backtrace = some backtrace)
    (hstrings : ∀ p ∈ (w.heap.cell backtrace).ary, (w.heap.cell p).type = ValueType.String)
    (hlen : ((w.heap.cell backtrace).ary.length : Int) ≤ 2147483647) :
    ∃ pieces : List String,
      print_exception_with_backtrace w exception
        = ({ w with written := w.written ++ pieces.map fun t => (stderr_fileno w.heap, t) },
            Result.ok ())
      ∧ concat_text pieces
          = concat_text (traceback_lines (w.heap.cell exception).message
              (w.heap.cell (w.heap.cell exception).klass).class_name
              (backtrace_entries w.heap exception))
      ∧ (traceback_lines (w.heap.cell exception).message
            (w.heap.cell (w.heap.cell exception).klass).class_name
            (backtrace_entries w.heap exception)).length
          = (if (backtrace_entries w.heap exception).length = 0 then 1
              else (backtrace_entries w.heap exception).length + 1) := by
  have hentries : backtrace_entries w.heap exception
      = (w.heap.cell backtrace).ary.map fun line => (w.heap.cell line).str := by
    simp [backtrace_entries, hbt]
  have hcount : (traceback_lines (w.heap.cell exception).message
        (w.heap.cell (w.heap.cell exception).klass).class_name
        (backtrace_entries w.heap exception)).length
      = (if (backtrace_entries w.heap exception).length = 0 then 1
          else (backtrace_entries w.heap exception).length + 1) := by
    unfold traceback_lines
    by_cases hz : (backtrace_entries w.heap exception).length = 0
    · simp [hz]
    · simp only [hz, if_false, List.length_append, List.length_map, List.length_reverse,
        List.length_range, List.length_singleton]
      omega
  by_cases hz : (w.heap.cell backtrace).ary.length = 0
  · have hnil : (w.heap.cell backtrace).ary = [] := List.length_eq_zero.mp hz
    refine ⟨[(w.heap.cell exception).message ++ " ("
        ++ (w.heap.cell (w.heap.cell exception).klass).class_name ++ ")\n"], ?_, ?_, hcount⟩
    · simp [print_exception_with_backtrace, hbt, hnil, stderr_fileno]
    · simp [traceback_lines, hentries, hnil]
  · have hpos : 0 < (w.heap.cell backtrace).ary.length := Nat.pos_of_ne_zero hz
    have hstart : (wrap32 (((w.heap.cell backtrace).ary.length : Int) - 1)).toNat
        = (w.heap.cell backtrace).ary.length - 1 := by
      rw [wrap32_of_range _ (by omega) (by omega)]
      omega
    have hloop := print_backtrace_lines_spec (stderr_fileno w.heap) (w.heap.cell backtrace).ary
      w.heap hstrings ((w.heap.cell backtrace).ary.length - 1)
      { w with written := w.written
          ++ [(stderr_fileno w.heap, "Traceback (most recent call last):\n")] }
      rfl (by omega)
    have hfirst : (w.heap.cell backtrace).ary[0]? = some (w.heap.cell backtrace).ary[0] :=
      List.getElem?_eq_getElem hpos
    have hb0 : ((w.heap.cell backtrace).ary.map fun line => (w.heap.cell line).str).getD 0 ""
        = (w.heap.cell (w.heap.cell backtrace).ary[0]).str := by
      simp [List.getD_eq_getElem?_getD, List.getElem?_map, hfirst]
    refine ⟨["Traceback (most recent call last):\n"]
        ++ (List.range ((w.heap.cell backtrace).ary.length - 1)).reverse.map
            (fun k => traceback_line
              ((w.heap.cell backtrace).ary.map fun p => (w.heap.cell p).str) (k + 1))
        ++ [(w.heap.cell (w.heap.cell backtrace).ary[0]).str ++ ": ",
            (w.heap.cell exception).message ++ " ("
              ++ (w.heap.cell (w.heap.cell exception).klass).class_name ++ ")\n"], ?_, ?_,
      hcount⟩
    · have hgt : (w.heap.cell backtrace).ary.length > 0 := hpos
      simp only [print_exception_with_backtrace, hbt, hgt, if_true, hstart]
      rw [show (w.heap.cell (global_get w.heap "$stderr")).fileno = stderr_fileno w.heap
        from rfl, hloop]
      simp only [hfirst, List.map_append, List.map_cons, List.map_nil, List.map_map,
        List.append_assoc, List.singleton_append, List.cons_append, List.nil_append,
        Function.comp_def]
    · have hlenmap : ((w.heap.cell backtrace).ary.map
          fun line => (w.heap.cell line).str).length = (w.heap.cell backtrace).ary.length := by
        simp
      rw [hentries]
      simp only [traceback_lines, hlenmap, hz, if_false, concat_text_append, hb0]
      simp only [concat_text, String.append_empty, String.append_assoc]

/-- Witness of C18 on `exception_heap`: for the exception at `12`, with message
`boom`, class `RuntimeError` and three backtrace entries, the text written is
the header, the lines `2` and `1`, and the line of entry `0` with the message:
four lines. -/
theorem print_exception_with_backtrace_text_witness :
    ∃ pieces : List String,
      print_exception_with_backtrace { heap := exception_heap } 12
        = ({ heap := exception_heap, written := [] ++ pieces.map fun t => (2, t) },
            Result.ok ())
      ∧ concat_text pieces
          = "Traceback (most recent call last):\n        2: from c.rb:3\n        1: from b.rb:2\na.rb:1: boom (RuntimeError)\n"
      ∧ (traceback_lines "boom" "RuntimeError" ["a.rb:1", "b.rb:2", "c.rb:3"]).length = 4 := by
  obtain ⟨pieces, hrun, htext, hcount⟩ :=
    print_exception_with_backtrace_text { heap := exception_heap } 12 10 (by decide)
      (by decide) (by decide)
  exact ⟨pieces, hrun, htext.trans (by decide), hcount.trans (by decide)⟩

/-- The exit of `handle_top_level_exception` once the handlers, if any, have
returned in the state `w2`. -/
theorem handle_top_level_exception_exit (fuel : Nat) (native : Native) (w w2 : World)
    (envp : EnvRef) (env : Env) (run_exit_handlers : Bool) (exception system_exit : Ptr)
    (h1 : Heap)
    (hexc : env.exception = some exception)
    (hconst : const_get w.heap w.heap.genv.Object "SystemExit" = Result.ok system_exit)
    (hisa : is_a fuel w.heap exception system_exit = Result.ok (h1, true))
    (hafter : (if run_exit_handlers then run_at_exit_handlers native { w with heap := h1 } envp
               else ({ w with heap := h1 }, Result.ok ())) = (w2, Result.ok ())) :
    handle_top_level_exception fuel native w envp env run_exit_handlers
      = (w2, Result.exit (exit_status w2.heap (ivar_get h1 exception "@status"))) := by
  simp only [handle_top_level_exception, hexc, hconst, Result.bind, hisa, hafter]
  unfold exit_status
  by_cases hty : (w2.heap.cell (ivar_get h1 exception "@status")).type = ValueType.Integer
  · by_cases hrange : (w2.heap.cell (ivar_get h1 exception "@status")).integer ≥ 0
        ∧ (w2.heap.cell (ivar_get h1 exception "@status")).integer ≤ 255
    · have hrange2 : 0 ≤ (w2.heap.cell (ivar_get h1 exception "@status")).integer
          ∧ (w2.heap.cell (ivar_get h1 exception "@status")).integer ≤ 255 := hrange
      simp only [hty, hrange, hrange2, and_self, if_true, true_and]
    · have hrange2 : ¬ (0 ≤ (w2.heap.cell (ivar_get h1 exception "@status")).integer
          ∧ (w2.heap.cell (ivar_get h1 exception "@status")).integer ≤ 255) := hrange
      simp only [hty, hrange, hrange2, if_true, if_false, true_and]
  · simp only [hty, if_false, false_and]

/-- C16, counterexample. On `exit_heap` the exception at `9` is-a `SystemExit`
with `@status = 7` and one at-exit handler is registered; when that handler
raises, `handle_top_level_exception` with `run_exit_handlers` set ends in the
exception of the handler and not in an exit. On `module_exit_heap` the
exception at `9` is a direct instance of `SystemExit`, a class that includes a
module: `is_a` answers false, and `handle_top_level_exception` prints the
exception and returns instead of exiting. -/
theorem handle_top_level_exception_without_exit :
    const_get exit_heap exit_heap.genv.Object "SystemExit" = Result.ok 6
    ∧ (exit_heap.cell 9).klass = 6
    ∧ (is_a 3 exit_heap 9 6).bind (fun r => Result.ok r.2) = Result.ok true
    ∧ (exit_heap.cell (ivar_get exit_heap 9 "@status")).type = ValueType.Integer
    ∧ (exit_heap.cell (ivar_get exit_heap 9 "@status")).integer = 7
    ∧ (handle_top_level_exception 3 (native_raising 91) { heap := exit_heap } (EnvRef.frame 0)
          { exception := some 9 } true).2
        = Result.raise "RuntimeError" "boom" []
    ∧ const_get module_exit_heap module_exit_heap.genv.Object "SystemExit" = Result.ok 6
    ∧ (module_exit_heap.cell 9).klass = 6
    ∧ (module_exit_heap.cell 6).included_modules = [7]
    ∧ (is_a 3 module_exit_heap 9 6).bind (fun r => Result.ok r.2) = Result.ok false
    ∧ (handle_top_level_exception 3 (native_returning 0) { heap := module_exit_heap }
          (EnvRef.frame 0) { exception := some 9 } false).2
        = Result.ok ()
    ∧ (handle_top_level_exception 3 (native_returning 0) { heap := module_exit_heap }
          (EnvRef.frame 0) { exception := some 9 } false).1.written
        = [(2, "exit (SystemExit)\n")] := by
  decide

/-- C16, amended. For an exception for which `is_a(exception, SystemExit)`
answers true, leaving the heap `h1`: without `run_exit_handlers`,
`handle_top_level_exception` ends the process at once, with the exit code `s`
when the `@status` of the exception is an Integer `s` with `0 <= s <= 255` and
with the exit code `1` in every other case. With `run_exit_handlers`, when the
handlers `[h0, ..., h(n-1)]` bound to `$NAT_at_exit_handlers` are procs with a
block, `n` within the range of `int`, each returning normally and leaving the
array, the procs and the status object as they are, it ends the process with
the same exit code after the calls of the blocks of `h(n-1), ..., h0`, one for
each handler. -/
theorem handle_top_level_exception_system_exit (fuel : Nat) (native : Native) (w : World)
    (envp : EnvRef) (env : Env) (exception system_exit : Ptr) (h1 : Heap)
    (hexc : env.exception = some exception)
    (hconst : const_get w.heap w.heap.genv.Object "SystemExit" = Result.ok system_exit)
    (hisa : is_a fuel w.heap exception system_exit = Result.ok (h1, true)) :
    handle_top_level_exception fuel native w envp env false
        = ({ w with heap := h1 },
            Result.exit (exit_status h1 (ivar_get h1 exception "@status")))
    ∧ (∀ (arr : Ptr) (hs : List Ptr),
        global_get h1 "$NAT_at_exit_handlers" = arr →
        (h1.cell arr).ary = hs →
        (hs.length : Int) ≤ 2147483647 →
        (∀ p ∈ hs, (h1.cell p).type = ValueType.Proc ∧ ∃ b, (h1.cell p).block = some b) →
        (∀ h c, (∃ v, (native h c).2 = Result.ok v)
          ∧ (native h c).1.cell arr = h.cell arr
          ∧ (∀ p ∈ hs, (native h c).1.cell p = h.cell p)
          ∧ (native h c).1.cell (ivar_get h1 exception "@status")
              = h.cell (ivar_get h1 exception "@status")) →
        ∃ w2, handle_top_level_exception fuel native w envp env true
            = (w2, Result.exit (exit_status h1 (ivar_get h1 exception "@status")))
          ∧ w2.calls = w.calls
              ++ hs.reverse.filterMap (fun p => (h1.cell p).block.map (at_exit_call envp))
          ∧ (hs.reverse.filterMap
              (fun p => (h1.cell p).block.map (at_exit_call envp))).length = hs.length)
    ∧ (∀ (h : Heap) (status_obj : Ptr),
        ((h.cell status_obj).type = ValueType.Integer → 0 ≤ (h.cell status_obj).integer →
          (h.cell status_obj).integer ≤ 255 →
          exit_status h status_obj = (h.cell status_obj).integer)
        ∧ (¬ ((h.cell status_obj).type = ValueType.Integer ∧ 0 ≤ (h.cell status_obj).integer
              ∧ (h.cell status_obj).integer ≤ 255) →
            exit_status h status_obj = 1)) := by
  refine ⟨?_, ?_, ?_⟩
  · exact handle_top_level_exception_exit fuel native w { w with heap := h1 } envp env false
      exception system_exit h1 hexc hconst hisa rfl
  · intro arr hs harr hlist hlen hprocs hquiet
    have hcount : (wrap32 (((h1.cell arr).ary.length : Int) - 1) + 1).toNat = hs.length := by
      rw [hlist, wrap32_of_range _ (by omega) (by omega)]
      omega
    obtain ⟨w2, hloop, hcalls, _⟩ :=
      run_at_exit_handlers_loop_spec native envp arr hs h1 hprocs
        (fun h c => ⟨(hquiet h c).1, (hquiet h c).2.1, (hquiet h c).2.2.1⟩) hs.length
        { w with heap := h1 } (Nat.le_refl _) hlist (fun _ _ => rfl)
    rw [List.take_length] at hcalls
    have hrun : run_at_exit_handlers native { w with heap := h1 } envp = (w2, Result.ok ()) := by
      simp only [run_at_exit_handlers, harr, hcount]
      exact hloop
    have hcell : w2.heap.cell (ivar_get h1 exception "@status")
        = h1.cell (ivar_get h1 exception "@status") :=
      run_at_exit_handlers_loop_keeps_cell native envp arr _ (fun h c => (hquiet h c).2.2.2)
        hs.length { w with heap := h1 } w2 _ hloop
    have hexit := handle_top_level_exception_exit fuel native w w2 envp env true exception
      system_exit h1 hexc hconst hisa hrun
    have hstatus : exit_status w2.heap (ivar_get h1 exception "@status")
        = exit_status h1 (ivar_get h1 exception "@status") := by
      simp only [exit_status, hcell]
    rw [hstatus] at hexit
    refine ⟨w2, hexit, hcalls, ?_⟩
    rw [at_exit_calls_length h1 envp hs.reverse
      (fun p hp => (hprocs p (List.mem_reverse.mp hp)).2), List.length_reverse]
  · intro h status_obj
    constructor
    · intro hty h0 h255
      simp [exit_status, hty, h0, h255]
    · intro hnot
      simp only [exit_status, hnot, if_false]

/-- Witness of C16, amended, on `exit_heap`: with `@status = 300`, and without
`@status`, the process exits with code `1`; with `@status = 7` and one at-exit
handler that returns nil it exits with code `7`, after the one call of the
handler. -/
theorem handle_top_level_exception_system_exit_witness :
    (handle_top_level_exception 3 (native_returning 0) { heap := exit_heap } (EnvRef.frame 0)
          { exception := some 10 } false
        = ({ heap := exit_heap_after_is_a },
            Result.exit (exit_status exit_heap_after_is_a
              (ivar_get exit_heap_after_is_a 10 "@status")))
      ∧ exit_status exit_heap_after_is_a (ivar_get exit_heap_after_is_a 10 "@status") = 1)
    ∧ (handle_top_level_exception 3 (native_returning 0) { heap := exit_heap } (EnvRef.frame 0)
          { exception := some 11 } false
        = ({ heap := exit_heap_after_is_a },
            Result.exit (exit_status exit_heap_after_is_a
              (ivar_get exit_heap_after_is_a 11 "@status")))
      ∧ exit_status exit_heap_after_is_a (ivar_get exit_heap_after_is_a 11 "@status") = 1)
    ∧ (∃ w2, handle_top_level_exception 3 (native_returning 0) { heap := exit_heap }
            (EnvRef.frame 0) { exception := some 9 } true
          = (w2, Result.exit 7)
        ∧ w2.calls = [at_exit_call (EnvRef.frame 0) { fn := 91, self := 0, addr := 1 }]) := by
  refine ⟨⟨(handle_top_level_exception_system_exit 3 (native_returning 0) { heap := exit_heap }
        (EnvRef.frame 0) { exception := some 10 } 10 6 exit_heap_after_is_a rfl (by decide)
        rfl).1,
      by decide⟩,
   ⟨(handle_top_level_exception_system_exit 3 (native_returning 0) { heap := exit_heap }
        (EnvRef.frame 0) { exception := some 11 } 11 6 exit_heap_after_is_a rfl (by decide)
        rfl).1,
      by decide⟩, ?_⟩
  obtain ⟨w2, hrun, hcalls, _⟩ :=
    (handle_top_level_exception_system_exit 3 (native_returning 0) { heap := exit_heap }
      (EnvRef.frame 0) { exception := some 9 } 9 6 exit_heap_after_is_a rfl (by decide)
      rfl).2.1 13 [12] (by decide) (by decide) (by decide)
      (by
        intro p hp
        simp only [List.mem_singleton] at hp
        subst hp
        exact ⟨by decide, _, rfl⟩)
      (fun h c => ⟨⟨0, rfl⟩, rfl, fun _ _ => rfl, rfl⟩)
  have hstatus : exit_status exit_heap_after_is_a (ivar_get exit_heap_after_is_a 9 "@status")
      = 7 := by decide
  rw [hstatus] at hrun
  exact ⟨w2, hrun, hcalls.trans (by decide)⟩

/-! ## Spreading arguments: lemmas -/

theorem arg_spread_loop_step (h : Heap) (args : List Ptr) (c : Char) (rest : List Char)
    (k : Nat) (stored : List OutValue) (arg : Ptr)
    (hspec : c = 'o' ∨ c = 'i' ∨ c = 's' ∨ c = 'b' ∨ c = 'v')
    (harg : args[k]? = some arg) (haccept : specifier_accepts h c arg = true) :
    arg_spread_loop h args (c :: rest) k stored
      = arg_spread_loop h args rest (k + 1) (stored ++ [specifier_conversion h c arg]) := by
  rcases hspec with hc | hc | hc | hc | hc
  · subst hc
    simp [arg_spread_loop, harg, specifier_conversion]
  · subst hc
    have hty : (h.cell arg).type = ValueType.Integer := by
      simpa [specifier_accepts] using haccept
    simp [arg_spread_loop, harg, specifier_conversion, hty]
  · subst hc
    have hty : (h.cell arg).type = ValueType.String := by
      simpa [specifier_accepts] using haccept
    simp [arg_spread_loop, harg, specifier_conversion, as_string_c_str, hty]
  · subst hc
    simp [arg_spread_loop, harg, specifier_conversion]
  · subst hc
    have hty : (h.cell (ivar_get h arg "@_ptr")).type = ValueType.VoidP := by
      simpa [specifier_accepts] using haccept
    simp [arg_spread_loop, harg, specifier_conversion, hty]

theorem arg_spread_loop_too_few (h : Heap) (args : List Ptr) (c : Char) (rest : List Char)
    (k : Nat) (stored : List OutValue)
    (hspec : c = 'o' ∨ c = 'i' ∨ c = 's' ∨ c = 'b' ∨ c = 'v')
    (harg : args[k]? = none) :
    arg_spread_loop h args (c :: rest) k stored
      = (stored, Result.raise "ArgumentError"
          "wrong number of arguments (given %d, expected %d)"
          [FormatArg.int args.length, FormatArg.int (k + 1)]) := by
  rcases hspec with hc | hc | hc | hc | hc <;> subst hc <;> simp [arg_spread_loop, harg]

theorem arg_spread_loop_spec (h : Heap) (args : List Ptr) :
    ∀ (arrangement : List Char) (k : Nat) (stored : List OutValue), k ≤ args.length →
      (∀ c ∈ arrangement, c = 'o' ∨ c = 'i' ∨ c = 's' ∨ c = 'b' ∨ c = 'v') →
      (∀ j c arg, arrangement[j]? = some c → args[k + j]? = some arg →
        specifier_accepts h c arg = true) →
      arg_spread_loop h args arrangement k stored =
        (stored ++ List.zipWith (specifier_conversion h) arrangement (args.drop k),
          if k + arrangement.length ≤ args.length then Result.ok ()
          else Result.raise "ArgumentError" "wrong number of arguments (given %d, expected %d)"
            [FormatArg.int args.length, FormatArg.int (args.length + 1)]) := by
  intro arrangement
  induction arrangement with
  | nil =>
    intro k stored hk _ _
    simp [arg_spread_loop, hk]
  | cons c rest ih =>
    intro k stored hk hspec htyped
    have hc := hspec c (by simp)
    cases harg : args[k]? with
    | none =>
      have hlen : args.length ≤ k := by
        by_contra hlt
        have : k < args.length := by omega
        rw [List.getElem?_eq_getElem this] at harg
        cases harg
      have hkeq : k = args.length := by omega
      have hdrop : args.drop k = [] := List.drop_eq_nil_of_le hlen
      have hnot : ¬ k + (c :: rest).length ≤ args.length := by
        simp only [List.length_cons]
        omega
      rw [arg_spread_loop_too_few h args c rest k stored hc harg, hdrop]
      simp only [List.zipWith_nil_right, List.append_nil, hnot, if_false]
      rw [hkeq]
    | some arg =>
      have hlt : k < args.length := by
        by_contra hge
        rw [List.getElem?_eq_none (by omega)] at harg
        cases harg
      have haccept := htyped 0 c arg (by simp) (by simpa using harg)
      have hval : args[k] = arg := by
        rw [List.getElem?_eq_getElem hlt] at harg
        exact Option.some.inj harg
      have hdrop : args.drop k = arg :: args.drop (k + 1) := by
        rw [List.drop_eq_getElem_cons hlt, hval]
      rw [arg_spread_loop_step h args c rest k stored arg hc harg haccept,
        ih (k + 1) (stored ++ [specifier_conversion h c arg]) (by omega)
          (fun c' hc' => hspec c' (List.mem_cons_of_mem _ hc'))
          (fun j c' arg' hj ha => htyped (j + 1) c' arg' (by simpa using hj)
            (by rw [← ha]; congr 1; omega)),
        hdrop]
      have hiff : (k + 1 + rest.length ≤ args.length) ↔ (k + (c :: rest).length ≤ args.length) := by
        simp only [List.length_cons]
        omega
      simp only [List.zipWith_cons_cons, List.append_assoc, List.singleton_append, hiff]

/-! ## Spreading arguments: claims -/

/-- C20. For an arrangement made of the specifiers `o`, `i`, `s`, `b`, `v` and
arguments that have the type their specifier requires (an Integer for `i`, a
String for `s`, a value with a `VoidP` in `@_ptr` for `v`), `arg_spread` raises
`ArgumentError` if and only if there are fewer arguments than specifiers; with
at least as many arguments it returns, the `k`-th out-pointer holding the
conversion of the `k`-th argument, and the arguments past the arrangement are
left aside. -/
theorem arg_spread_argument_count (h : Heap) (args : List Ptr) (arrangement : List Char)
    (hspec : ∀ c ∈ arrangement, c = 'o' ∨ c = 'i' ∨ c = 's' ∨ c = 'b' ∨ c = 'v')
    (htyped : ∀ (k : Nat) (c : Char) (arg : Ptr), arrangement[k]? = some c →
      args[k]? = some arg → specifier_accepts h c arg = true) :
    ((∃ stored f as, arg_spread h args arrangement
          = (stored, Result.raise "ArgumentError" f as))
        ↔ args.length < arrangement.length)
    ∧ (arrangement.length ≤ args.length →
        arg_spread h args arrangement
          = (List.zipWith (specifier_conversion h) arrangement args, Result.ok ())) := by
  have hrun := arg_spread_loop_spec h args arrangement 0 [] (Nat.zero_le _) hspec
    (fun j c arg hj ha => htyped j c arg hj (by simpa using ha))
  simp only [Nat.zero_add, List.drop_zero, List.nil_append] at hrun
  constructor
  · constructor
    · rintro ⟨stored, f, as, hraise⟩
      by_contra hge
      have hle : arrangement.length ≤ args.length := by omega
      rw [arg_spread, hrun] at hraise
      simp only [hle, if_true, Prod.mk.injEq] at hraise
      exact absurd hraise.2 (by simp)
    · intro hlt
      have hnot : ¬ arrangement.length ≤ args.length := by omega
      rw [arg_spread, hrun]
      simp only [hnot, if_false]
      exact ⟨_, _, _, rfl⟩
  · intro hle
    rw [arg_spread, hrun]
    simp only [hle, if_true]

/-- Witness of C20 on `spread_heap`, with the arrangement `oisbv`: the five
arguments `nil, 42, hello, nil, object` are converted in order, a sixth one is
left aside, and with four arguments `ArgumentError` is raised. -/
theorem arg_spread_argument_count_witness :
    arg_spread spread_heap [0, 6, 7, 0, 9, 6] ['o', 'i', 's', 'b', 'v']
        = ([OutValue.obj 0, OutValue.int 42, OutValue.str (some "hello"), OutValue.bool false,
            OutValue.void_ptr 4096], Result.ok ())
    ∧ ∃ stored f as, arg_spread spread_heap [0, 6, 7, 0] ['o', 'i', 's', 'b', 'v']
        = (stored, Result.raise "ArgumentError" f as) :=
  ⟨((arg_spread_argument_count spread_heap [0, 6, 7, 0, 9, 6] ['o', 'i', 's', 'b', 'v']
      (by decide) (by
        intro k c arg hk ha
        have hk5 : k < 5 := by
          by_contra hge
          rw [List.getElem?_eq_none (by simp; omega)] at hk
          cases hk
        interval_cases k <;> simp at hk ha <;> subst hk ha <;> decide)).2
      (by decide)).trans (by decide),
   (arg_spread_argument_count spread_heap [0, 6, 7, 0] ['o', 'i', 's', 'b', 'v']
      (by decide) (by
        intro k c arg hk ha
        have hk4 : k < 4 := by
          by_contra hge
          rw [List.getElem?_eq_none (by simp; omega)] at ha
          cases ha
        interval_cases k <;> simp at hk ha <;> subst hk ha <;> decide)).1.mpr (by decide)⟩

/-- The path of `arg_value_by_path` for a default other than nil: with defaults
on the left, an array `value` of length `n`, `total` and `default_count` within
the range of `int`, `remain = n - (total - default_count)` and an index `i`
with `max(remain, 0) <= i < default_count`, a single-step path `[i]` without
splat yields the default. -/
theorem arg_value_by_path_default_slot (h : Heap) (value default_value : Ptr)
    (total_count default_count i : Int)
    (harray : (h.cell value).type = ValueType.Array)
    (hsize : ((h.cell value).ary.length : Int) ≤ h.genv.NAT_MAX_INT)
    (hdefault : default_value ≠ h.genv.nil)
    (htotal0 : 0 ≤ total_count) (htotal : total_count ≤ 2147483647)
    (hcount : default_count ≤ 2147483647)
    (hremain : max (((h.cell value).ary.length : Int) - (total_count - default_count)) 0 ≤ i)
    (hi : i < default_count) :
    arg_value_by_path h value default_value false total_count default_count false 0 [i]
      = Result.ok (h, default_value) := by
  have hr : wrap32 (total_count - default_count) = total_count - default_count :=
    wrap32_of_range _ (by omega) (by omega)
  have hx : wrap32 (((h.cell value).ary.length : Int) - (total_count - default_count))
      = ((h.cell value).ary.length : Int) - (total_count - default_count) :=
    wrap32_of_range _ (by omega) (by omega)
  have hge : i ≥ ((h.cell value).ary.length : Int) - (total_count - default_count) := by
    omega
  rw [arg_value_by_path_single h value default_value total_count default_count i false harray
    hsize, hr, hx, if_pos ⟨hdefault, hge, hi, rfl⟩]

/-- C22, the code at the failing input. On `array_heap`, with
`value = [10, 20]` (address `11`), `total = 3`, `default_count = 1`, defaults
on the left and the default nil, `remain` is `0` and the index `0` lies in
`[max(remain, 0), default_count)`. `arg_value_by_path` returns for the path
`[0]` the supplied value `20` (address `7`), not the default; the paths `[1]`
and `[2]` of the two required slots yield `10` and `20`, so that `20` is
bound twice. With the default `99` (address `12`) the same call returns the
default. -/
theorem arg_value_by_path_nil_default_takes_value :
    (array_heap.cell 11).type = ValueType.Array
    ∧ (array_heap.cell 11).ary = [6, 7]
    ∧ max (((array_heap.cell 11).ary.length : Int) - (3 - 1)) 0 ≤ 0
    ∧ (0 : Int) < 1
    ∧ (arg_value_by_path array_heap 11 array_heap.genv.nil false 3 1 false 0 [0]).bind
        (fun r => Result.ok r.2) = Result.ok 7
    ∧ (7 : Ptr) ≠ array_heap.genv.nil
    ∧ (arg_value_by_path array_heap 11 array_heap.genv.nil false 3 1 false 0 [1]).bind
        (fun r => Result.ok r.2) = Result.ok 6
    ∧ (arg_value_by_path array_heap 11 array_heap.genv.nil false 3 1 false 0 [2]).bind
        (fun r => Result.ok r.2) = Result.ok 7
    ∧ arg_value_by_path array_heap 11 12 false 3 1 false 0 [0] = Result.ok (array_heap, 12) := by
  refine ⟨by decide, by decide, by decide, by decide, by decide, by decide, by decide,
    by decide, ?_⟩
  exact arg_value_by_path_default_slot array_heap 11 12 3 1 0 (by decide) (by decide)
    (by decide) (by decide) (by decide) (by decide) (by decide) (by decide)

/-! ## Resolver and ancestors -/

theorem first_entry_met_eq_none_iff (h : Heap) (name : String) (walk : List Ptr) :
    first_entry_met h name walk = none
      ↔ ∀ c ∈ walk, hashmap_get (h.cell c).methods name = none := by
  induction walk with
  | nil => simp [first_entry_met]
  | cons c rest ih =>
    simp only [first_entry_met, List.findSome?_cons] at ih ⊢
    cases hg : hashmap_get (h.cell c).methods name with
    | none =>
      simp only [Option.map_none', List.mem_cons, forall_eq_or_imp, hg, true_and]
      exact ih
    | some entry => simp [hg]

theorem first_entry_met_eq_some (h : Heap) (name : String) :
    ∀ (walk : List Ptr) (entry : Method) (D : Ptr),
      first_entry_met h name walk = some (entry, D) →
      ∃ before after, walk = before ++ D :: after
        ∧ (∀ c ∈ before, hashmap_get (h.cell c).methods name = none)
        ∧ hashmap_get (h.cell D).methods name = some entry := by
  intro walk
  induction walk with
  | nil => intro entry D hfound; simp [first_entry_met] at hfound
  | cons c rest ih =>
    intro entry D hfound
    simp only [first_entry_met, List.findSome?_cons] at ih hfound
    cases hg : hashmap_get (h.cell c).methods name with
    | none =>
      simp only [hg, Option.map_none'] at hfound
      obtain ⟨before, after, hsplit, hnone, hentry⟩ := ih entry D hfound
      refine ⟨c :: before, after, by rw [hsplit]; rfl, ?_, hentry⟩
      intro c' hc'
      rcases List.mem_cons.mp hc' with hcc | hin
      · rw [hcc]
        exact hg
      · exact hnone c' hin
    | some e =>
      simp only [hg, Option.map_some', Option.some.injEq, Prod.mk.injEq] at hfound
      obtain ⟨he, hD⟩ := hfound
      subst he hD
      exact ⟨[], rest, rfl, by simp, hg⟩

theorem class_ancestors_eq_walk (fuel : Nat) (h : Heap) (K : Ptr) (chain : List Ptr)
    (hchain : superclass_chain fuel h K = some chain) :
    ∃ h1 p, class_ancestors fuel h K = Result.ok (h1, p)
      ∧ (h1.cell p).ary = resolution_walk h chain := by
  refine ⟨_, _, by
    simp only [class_ancestors, class_ancestors_loop_eq_walk h fuel K chain hchain,
      Result.bind]
    rfl, ?_⟩
  simp [Heap.alloc]

/-- C23. For a class `K` whose superclass chain ends within the fuel, all of
its members being classes, `find_method` is the linear search of the list
that `class_ancestors` returns: it returns the entry for `m` of the first
element whose method table holds `m`, with that element as defining module,
and none exactly when no element holds an entry for `m`. -/
theorem find_method_searches_class_ancestors (fuel : Nat) (h : Heap) (K : Ptr) (m : String)
    (chain : List Ptr) (hchain : superclass_chain fuel h K = some chain)
    (hty : ∀ c ∈ chain, (h.cell c).type = ValueType.Class) :
    ∃ h1 p, class_ancestors fuel h K = Result.ok (h1, p)
      ∧ find_method fuel h K m = Result.ok (first_entry_met h m (h1.cell p).ary)
      ∧ (find_method fuel h K m = Result.ok none
          ↔ ∀ c ∈ (h1.cell p).ary, hashmap_get (h.cell c).methods m = none)
      ∧ (∀ entry D, find_method fuel h K m = Result.ok (some (entry, D)) →
          ∃ before after, (h1.cell p).ary = before ++ D :: after
            ∧ (∀ c ∈ before, hashmap_get (h.cell c).methods m = none)
            ∧ hashmap_get (h.cell D).methods m = some entry) := by
  obtain ⟨h1, p, hrun, hary⟩ := class_ancestors_eq_walk fuel h K chain hchain
  have hfind := find_method_eq_walk m h fuel K chain hchain hty
  refine ⟨h1, p, hrun, ?_, ?_, ?_⟩
  · rw [hary]
    exact hfind
  · rw [hary, hfind]
    constructor
    · intro hnone
      exact (first_entry_met_eq_none_iff h m _).mp (Result.ok.inj hnone)
    · intro hall
      rw [(first_entry_met_eq_none_iff h m _).mpr hall]
  · intro entry D hfound
    rw [hfind] at hfound
    rw [hary]
    exact first_entry_met_eq_some h m _ entry D (Result.ok.inj hfound)

/-- Witness of C23 on the example registry: the ancestors of class `B`
(address `8`) are `[B, M, Object]`; `foo` is found in `M`, the first of them
that holds it, and `zzz` in none. -/
theorem find_method_searches_class_ancestors_witness :
    ∃ h1 p, class_ancestors 3 registry 8 = Result.ok (h1, p)
      ∧ (h1.cell p).ary = [8, 6, 4]
      ∧ find_method 3 registry 8 "foo" = Result.ok (first_entry_met registry "foo" [8, 6, 4])
      ∧ first_entry_met registry "foo" [8, 6, 4] = some ({ fn := 22 }, 6)
      ∧ find_method 3 registry 8 "zzz" = Result.ok none := by
  obtain ⟨h1, p, hrun, hfoo, _, _⟩ :=
    find_method_searches_class_ancestors 3 registry 8 "foo" [8, 7, 4] (by decide) (by decide)
  obtain ⟨h2, p2, hrun2, hary2⟩ := class_ancestors_eq_walk 3 registry 8 [8, 7, 4] (by decide)
  rw [hrun] at hrun2
  cases hrun2
  have hary : (h1.cell p).ary = [8, 6, 4] := hary2.trans (by decide)
  exact ⟨h1, p, hrun, hary, by rw [← hary]; exact hfoo, by decide, by decide⟩

/-! ## Dispatcher and `respond_to` -/

/-- C24, the code at the failing input. On `singleton_registry` the value at
`8` is an instance of class `A` (address `6`), which defines `foo`, and its
singleton class (address `7`) carries an undefined marker for `foo`.
`respond_to` drops the marker found on the singleton class and goes on to the
class, where it finds `foo`, and answers true; `send` stops at the marker found
on the singleton class and raises `NoMethodError`. -/
theorem respond_to_true_while_send_raises :
    (singleton_registry.cell 8).type = ValueType.Object
    ∧ (singleton_registry.cell 8).klass = 6
    ∧ (singleton_registry.cell 8).singleton_class = some 7
    ∧ find_method 3 singleton_registry 7 "foo" = Result.ok (some (method_from_fn 0, 7))
    ∧ (method_from_fn 0).undefined = true
    ∧ find_method_without_undefined 3 singleton_registry 7 "foo" = Result.ok none
    ∧ find_method_without_undefined 3 singleton_registry 6 "foo"
        = Result.ok (some ({ fn := 41 }, 6))
    ∧ respond_to 3 singleton_registry 8 "foo" = Result.ok true
    ∧ send 3 singleton_registry (EnvRef.frame 0) {} 8 "foo" [] none
        = Result.raise "NoMethodError" "undefined method \x60%s\x27 for %s:Class"
            [FormatArg.str "foo", FormatArg.str ""]
    ∧ ∀ call, send 3 singleton_registry (EnvRef.frame 0) {} 8 "foo" [] none
        ≠ Result.ok call := by
  have hsend : send 3 singleton_registry (EnvRef.frame 0) {} 8 "foo" [] none
      = Result.raise "NoMethodError" "undefined method \x60%s\x27 for %s:Class"
          [FormatArg.str "foo", FormatArg.str ""] := by
    decide
  refine ⟨by decide, by decide, by decide, by decide, by decide, by decide, by decide,
    by decide, hsend, ?_⟩
  intro call hcall
  rw [hsend] at hcall
  cases hcall

/-! ## Argument binder: defaults on the right against the plain array walk -/

theorem arg_value_by_path_loop_defaults_on_right (h : Heap) (default_value : Ptr) (splat : Bool)
    (total_count default_count offset_from_end path_size : Int) :
    ∀ (path : List Int) (i : Int) (return_value : Ptr), (∀ index ∈ path, 0 ≤ index) →
      arg_value_by_path_loop h default_value splat total_count default_count true
          offset_from_end path_size i path return_value
        = array_value_by_path_loop h default_value splat offset_from_end path_size i path
            return_value := by
  intro path
  induction path with
  | nil =>
    intro i return_value _
    simp only [arg_value_by_path_loop, array_value_by_path_loop]
  | cons index rest ih =>
    intro i return_value hnonneg
    have h0 : 0 ≤ index := hnonneg index (List.mem_cons_self _ _)
    have hrest : ∀ x ∈ rest, 0 ≤ x := fun x hx => hnonneg x (List.mem_cons_of_mem _ hx)
    have hcont : ∀ rv, arg_value_by_path_loop h default_value splat total_count default_count
        true offset_from_end path_size (i + 1) rest rv
          = array_value_by_path_loop h default_value splat offset_from_end path_size (i + 1)
              rest rv := fun rv => ih (i + 1) rv hrest
    have hneg : ¬ index < 0 := by omega
    simp only [arg_value_by_path_loop, array_value_by_path_loop, hcont, Bool.not_true,
      shift_index_left_of_defaults_on_right, index_from_right_of_nonneg _ _ _ h0, hneg,
      if_false, Bool.false_eq_true, and_false]

/-- C25. For every value, default, splat flag, `offset_from_end`, `total`,
`default_count` and every path, of any length, whose indices are all
non-negative, `arg_value_by_path` called with `defaults_on_right = true`
returns what `array_value_by_path` returns for the same value, default, splat
flag, `offset_from_end` and path. -/
theorem arg_value_by_path_defaults_on_right_eq_array_value_by_path (h : Heap)
    (value default_value : Ptr) (splat : Bool) (total_count default_count offset_from_end : Int)
    (path : List Int) (hnonneg : ∀ index ∈ path, 0 ≤ index) :
    arg_value_by_path h value default_value splat total_count default_count true offset_from_end
        path
      = array_value_by_path h value default_value splat offset_from_end path := by
  simp only [arg_value_by_path, array_value_by_path]
  exact arg_value_by_path_loop_defaults_on_right h default_value splat total_count default_count
    offset_from_end path.length path 0 value hnonneg

/-- Witness of C25 on `array_heap`: with `value = [10, 20, 30, 40]` (address
`10`), the default `99` (address `12`), `total = 3`, `default_count = 1` and the
two-step path `[1, 0]`, both functions return the value `20` (address `7`);
with the path `[5]`, past the end of the array, both return the default. -/
theorem arg_value_by_path_defaults_on_right_eq_array_value_by_path_witness :
    (∀ index ∈ [(1 : Int), 0], 0 ≤ index)
    ∧ arg_value_by_path array_heap 10 12 false 3 1 true 0 [1, 0]
        = array_value_by_path array_heap 10 12 false 0 [1, 0]
    ∧ (array_value_by_path array_heap 10 12 false 0 [1, 0]).bind (fun r => Result.ok r.2)
        = Result.ok 7
    ∧ arg_value_by_path array_heap 10 12 false 3 1 true 0 [5]
        = array_value_by_path array_heap 10 12 false 0 [5]
    ∧ (array_value_by_path array_heap 10 12 false 0 [5]).bind (fun r => Result.ok r.2)
        = Result.ok 12 :=
  ⟨by decide,
   arg_value_by_path_defaults_on_right_eq_array_value_by_path array_heap 10 12 false 3 1 0
     [1, 0] (by decide),
   by decide,
   arg_value_by_path_defaults_on_right_eq_array_value_by_path array_heap 10 12 false 3 1 0
     [5] (by decide),
   by decide⟩

end Natalie
